import Mathlib

/-!
# Verification of the CPP_Parser repository

This file gives a shallow embedding of the two Python source files of the
repository — `src/cpp_parser.py` and `src/new_parse.py` — and proves the
specified properties about them.

Modelling decisions:
* A Python `Token` is `Tok` (kind and lexeme strings); the parser's mutable
  state (`self.pos`, `self.errors`, `self.has_main`) is the structure `St`,
  threaded explicitly.  The token list is an extra (never mutated) argument.
* Every recursive rule function takes a fuel argument and returns `none`
  when fuel runs out or when the Python original would raise (e.g. the
  unguarded `token.type` access in `cpp_parser.Parser.assign` when no token
  remains).  `none` therefore models exactly the situations caught by the
  `except` clause in `Parser.parse`; the termination theorem shows that for
  every token list enough fuel exists, i.e. the Python code never loops.
* Python `while` loops are encoded as auxiliary fueled functions (named
  `*_loop`); file reading is modelled on the list of the file's lines.
-/

set_option maxRecDepth 10000

structure Tok where
  type : String
  value : String
deriving DecidableEq

structure St where
  pos : Nat
  errors : List String
  hasMain : Bool
deriving DecidableEq

/-- The datatype keywords `['int', 'float', 'double', 'char']` used by both files. -/
def datatypes : List String := ["int", "float", "double", "char"]

/-- `self.pos += 1` -/
def bump (s : St) : St := { s with pos := s.pos + 1 }

@[simp] theorem bump_pos (s : St) : (bump s).pos = s.pos + 1 := rfl
@[simp] theorem bump_errors (s : St) : (bump s).errors = s.errors := rfl
@[simp] theorem bump_hasMain (s : St) : (bump s).hasMain = s.hasMain := rfl

/-- `self.errors.append(msg)` -/
def pushErr (s : St) (msg : String) : St := { s with errors := s.errors ++ [msg] }

@[simp] theorem pushErr_pos (s : St) (m : String) : (pushErr s m).pos = s.pos := rfl
@[simp] theorem pushErr_errors (s : St) (m : String) :
    (pushErr s m).errors = s.errors ++ [m] := rfl
@[simp] theorem pushErr_hasMain (s : St) (m : String) : (pushErr s m).hasMain = s.hasMain := rfl

/-- `self.has_main = True` -/
def setMain (s : St) : St := { s with hasMain := true }

@[simp] theorem setMain_pos (s : St) : (setMain s).pos = s.pos := rfl
@[simp] theorem setMain_errors (s : St) : (setMain s).errors = s.errors := rfl
@[simp] theorem setMain_hasMain (s : St) : (setMain s).hasMain = true := rfl

/-- Python `str.strip()`: drop whitespace from both ends. -/
def strip (s : String) : String :=
  ⟨((s.toList.dropWhile Char.isWhitespace).reverse.dropWhile Char.isWhitespace).reverse⟩

/-- `line.split(',', 1)` restricted to the two-part case: split at the first
comma, `none` when the string holds no comma. -/
def split_first_comma (s : String) : Option (String × String) :=
  if ',' ∈ s.toList then
    some (⟨s.toList.takeWhile (fun c => ¬(c = ','))⟩,
      ⟨(s.toList.dropWhile (fun c => ¬(c = ','))).tail⟩)
  else none

/-! ## Embedding of `src/cpp_parser.py` -/

namespace Cpp

/-- `Parser.current_token` -/
def current_token (ts : List Tok) (s : St) : Option Tok := ts[s.pos]?

/-- `Parser.peek_token` -/
def peek_token (ts : List Tok) (s : St) (offset : Nat) : Option Tok := ts[s.pos + offset]?

/-- The string built by `Parser.add_error` for a message. -/
def add_error_msg (ts : List Tok) (s : St) (msg : String) : String :=
  match current_token ts s with
  | some t => "At token " ++ toString s.pos ++ " (" ++ t.type ++ ", " ++ t.value ++ "): " ++ msg
  | none => "At end of file: " ++ msg

/-- `Parser.add_error` -/
def add_error (ts : List Tok) (s : St) (msg : String) : St :=
  pushErr s (add_error_msg ts s msg)

/-- `Parser.consume` (silent conditional consume; never records an error). -/
def consume (ts : List Tok) (s : St) (et ev : Option String) : Bool × St :=
  match current_token ts s with
  | none => (false, s)
  | some tok =>
    match et with
    | some t =>
      if tok.type ≠ t then (false, s)
      else
        match ev with
        | some v => if tok.value ≠ v then (false, s) else (true, bump s)
        | none => (true, bump s)
    | none =>
      match ev with
      | some v => if tok.value ≠ v then (false, s) else (true, bump s)
      | none => (true, bump s)

/-- `Parser.expect`: consume or record a diagnostic without advancing. -/
def expect (ts : List Tok) (s : St) (et ev em : Option String) : Bool × St :=
  match current_token ts s with
  | none => (false, add_error ts s (em.getD "Unexpected end of file"))
  | some tok =>
    match et with
    | some t =>
      if tok.type ≠ t then
        (false, add_error ts s (em.getD ("Expected type " ++ t ++ ", got " ++ tok.type)))
      else
        match ev with
        | some v =>
          if tok.value ≠ v then
            (false, add_error ts s (em.getD ("Expected '" ++ v ++ "', got '" ++ tok.value ++ "'")))
          else (true, bump s)
        | none => (true, bump s)
    | none =>
      match ev with
      | some v =>
        if tok.value ≠ v then
          (false, add_error ts s (em.getD ("Expected '" ++ v ++ "', got '" ++ tok.value ++ "'")))
        else (true, bump s)
      | none => (true, bump s)

/-- `Parser.datatype` -/
def datatype (ts : List Tok) (s : St) : Bool × St :=
  match current_token ts s with
  | some t =>
    if t.type = "KEYWORD" ∧ t.value ∈ datatypes then (true, bump s) else (false, s)
  | none => (false, s)

mutual

/-- `Parser.program`: `while current_token(): if not global_declaration(): break` -/
def program : List Tok → Nat → St → Option St
  | _, 0, _ => none
  | ts, n+1, s =>
    match current_token ts s with
    | none => some s
    | some _ =>
      match global_declaration ts n s with
      | none => none
      | some (b, s1) => if b then program ts n s1 else some s1

/-- `Parser.global_declaration` -/
def global_declaration : List Tok → Nat → St → Option (Bool × St)
  | _, 0, _ => none
  | ts, n+1, s =>
    match current_token ts s with
    | none => some (false, s)
    | some tok =>
      if ¬(tok.type = "KEYWORD" ∧ tok.value ∈ datatypes) then
        some (false, add_error ts s "Expected datatype for global declaration")
      else
        match peek_token ts s 1 with
        | none => some (false, add_error ts s "Expected identifier after datatype")
        | some nt =>
          if ¬(nt.type = "IDENTIFIER" ∨ nt.type = "KEYWORD") then
            some (false, add_error ts s "Expected identifier after datatype")
          else
            match peek_token ts s 2 with
            | some nn =>
              if nn.type = "SPECIAL CHARACTER" ∧ nn.value = "(" then func ts n s
              else global_variable ts n s
            | none => global_variable ts n s

/-- `Parser.global_variable` -/
def global_variable : List Tok → Nat → St → Option (Bool × St)
  | _, 0, _ => none
  | ts, n+1, s =>
    match expect ts (bump s) (some "IDENTIFIER") none none with
    | (false, s1) => some (false, s1)
    | (true, s1) =>
      let afterInit : Option St :=
        match current_token ts s1 with
        | some t =>
          if t.type = "OPERATOR" ∧ t.value = "=" then
            match expression ts n (bump s1) with
            | none => none
            | some (_, s2) => some s2
          else some s1
        | none => some s1
      match afterInit with
      | none => none
      | some s2 =>
        match comma_init_loop ts n s2 with
        | none => none
        | some (false, s3) => some (false, s3)
        | some (true, s3) =>
          match expect ts s3 (some "SPECIAL CHARACTER") (some ";") none with
          | (false, s4) => some (false, s4)
          | (true, s4) => some (true, s4)

/-- The `while token ','` loop shared (textually identical) by
`Parser.global_variable` and `Parser.assign`. -/
def comma_init_loop : List Tok → Nat → St → Option (Bool × St)
  | _, 0, _ => none
  | ts, n+1, s =>
    match current_token ts s with
    | some t =>
      if t.type = "SPECIAL CHARACTER" ∧ t.value = "," then
        match expect ts (bump s) (some "IDENTIFIER") none none with
        | (false, s1) => some (false, s1)
        | (true, s1) =>
          match current_token ts s1 with
          | some t2 =>
            if t2.type = "OPERATOR" ∧ t2.value = "=" then
              match expression ts n (bump s1) with
              | none => none
              | some (_, s2) => comma_init_loop ts n s2
            else comma_init_loop ts n s1
          | none => comma_init_loop ts n s1
      else some (true, s)
    | none => some (true, s)

/-- `Parser.func` -/
def func : List Tok → Nat → St → Option (Bool × St)
  | _, 0, _ => none
  | ts, n+1, s =>
    match current_token ts s with
    | none => some (false, s)
    | some _ =>
      match datatype ts s with
      | (false, s1) => some (false, s1)
      | (true, s1) =>
        match current_token ts s1 with
        | none => some (false, add_error ts s1 "Expected function identifier")
        | some tok =>
          if ¬(tok.type = "IDENTIFIER" ∨ tok.type = "KEYWORD") then
            some (false, add_error ts s1 "Expected function identifier")
          else
            let s2 := if tok.value = "main" then setMain s1 else s1
            match expect ts (bump s2) (some "SPECIAL CHARACTER") (some "(") none with
            | (false, s4) => some (false, s4)
            | (true, s4) =>
              match expect ts s4 (some "SPECIAL CHARACTER") (some ")") none with
              | (false, s5) => some (false, s5)
              | (true, s5) => block ts n s5

/-- `Parser.block` -/
def block : List Tok → Nat → St → Option (Bool × St)
  | _, 0, _ => none
  | ts, n+1, s =>
    match expect ts s (some "SPECIAL CHARACTER") (some "\x7b") none with
    | (false, s1) => some (false, s1)
    | (true, s1) => block_loop ts n s1

/-- The `while True` loop of `Parser.block`. -/
def block_loop : List Tok → Nat → St → Option (Bool × St)
  | _, 0, _ => none
  | ts, n+1, s =>
    match current_token ts s with
    | none => some (false, add_error ts s "Expected '\x7d' to close block")
    | some t =>
      if t.type = "SPECIAL CHARACTER" ∧ t.value = "\x7d" then some (true, bump s)
      else
        match x ts n s with
        | none => none
        | some (false, s1) => some (false, add_error ts s1 "Invalid statement in block")
        | some (true, s1) => block_loop ts n s1

/-- `Parser.x` (statement dispatch). -/
def x : List Tok → Nat → St → Option (Bool × St)
  | _, 0, _ => none
  | ts, n+1, s =>
    match current_token ts s with
    | none => some (false, s)
    | some tok =>
      if tok.type = "KEYWORD" ∧ tok.value ∈ datatypes then
        match peek_token ts s 2 with
        | some nn =>
          if nn.type = "SPECIAL CHARACTER" ∧ nn.value = "(" then func ts n s
          else assign ts n s
        | none => assign ts n s
      else if tok.type = "KEYWORD" ∧ tok.value = "if" then if_statement ts n s
      else if tok.type = "KEYWORD" ∧ tok.value = "while" then while_statement ts n s
      else if tok.type = "KEYWORD" ∧ tok.value = "for" then for_statement ts n s
      else if tok.type = "KEYWORD" ∧ tok.value = "return" then return_statement ts n s
      else if tok.type = "IDENTIFIER" then
        match peek_token ts s 1 with
        | some nt =>
          if nt.type = "OPERATOR" ∧ nt.value = "=" then assign ts n s
          else expression_statement ts n s
        | none => expression_statement ts n s
      else some (false, s)

/-- `Parser.assign`.  The first statement reads `token.type` without a
`None` guard, so with no current token the Python code raises; that raise is
modelled by `none`. -/
def assign : List Tok → Nat → St → Option (Bool × St)
  | _, 0, _ => none
  | ts, n+1, s =>
    match current_token ts s with
    | none => none
    | some tok =>
      if tok.type = "KEYWORD" ∧ tok.value ∈ datatypes then
        match expect ts (bump s) (some "IDENTIFIER") none none with
        | (false, s2) => some (false, s2)
        | (true, s2) =>
          match comma_init_loop ts n s2 with
          | none => none
          | some (false, s3) => some (false, s3)
          | some (true, s3) => assign_tail ts n s3
      else
        match expect ts s (some "IDENTIFIER") none none with
        | (false, s2) => some (false, s2)
        | (true, s2) => assign_tail ts n s2

/-- Tail of `Parser.assign`: optional `= expression`, then `;`. -/
def assign_tail : List Tok → Nat → St → Option (Bool × St)
  | _, 0, _ => none
  | ts, n+1, s =>
    let afterEq : Option St :=
      match current_token ts s with
      | some t =>
        if t.type = "OPERATOR" ∧ t.value = "=" then
          match expression ts n (bump s) with
          | none => none
          | some (_, s1) => some s1
        else some s
      | none => some s
    match afterEq with
    | none => none
    | some s1 =>
      match expect ts s1 (some "SPECIAL CHARACTER") (some ";") none with
      | (false, s2) => some (false, s2)
      | (true, s2) => some (true, s2)

/-- `Parser.expression_statement` -/
def expression_statement : List Tok → Nat → St → Option (Bool × St)
  | _, 0, _ => none
  | ts, n+1, s =>
    match expression ts n s with
    | none => none
    | some (_, s1) =>
      match expect ts s1 (some "SPECIAL CHARACTER") (some ";") none with
      | (false, s2) => some (false, s2)
      | (true, s2) => some (true, s2)

/-- `Parser.expression` -/
def expression : List Tok → Nat → St → Option (Bool × St)
  | _, 0, _ => none
  | ts, n+1, s => logical_or_expr ts n s

/-- `Parser.logical_or_expr` -/
def logical_or_expr : List Tok → Nat → St → Option (Bool × St)
  | _, 0, _ => none
  | ts, n+1, s =>
    match logical_and_expr ts n s with
    | none => none
    | some (_, s1) =>
      match lor_loop ts n s1 with
      | none => none
      | some s2 => some (true, s2)

/-- The `while '||'` loop of `Parser.logical_or_expr`. -/
def lor_loop : List Tok → Nat → St → Option St
  | _, 0, _ => none
  | ts, n+1, s =>
    match current_token ts s with
    | some t =>
      if t.type = "OPERATOR" ∧ t.value = "||" then
        match logical_and_expr ts n (bump s) with
        | none => none
        | some (_, s1) => lor_loop ts n s1
      else some s
    | none => some s

/-- `Parser.logical_and_expr` -/
def logical_and_expr : List Tok → Nat → St → Option (Bool × St)
  | _, 0, _ => none
  | ts, n+1, s =>
    match equality_expr ts n s with
    | none => none
    | some (_, s1) =>
      match land_loop ts n s1 with
      | none => none
      | some s2 => some (true, s2)

/-- The `while '&&'` loop of `Parser.logical_and_expr`. -/
def land_loop : List Tok → Nat → St → Option St
  | _, 0, _ => none
  | ts, n+1, s =>
    match current_token ts s with
    | some t =>
      if t.type = "OPERATOR" ∧ t.value = "&&" then
        match equality_expr ts n (bump s) with
        | none => none
        | some (_, s1) => land_loop ts n s1
      else some s
    | none => some s

/-- `Parser.equality_expr` -/
def equality_expr : List Tok → Nat → St → Option (Bool × St)
  | _, 0, _ => none
  | ts, n+1, s =>
    match relational_expr ts n s with
    | none => none
    | some (_, s1) =>
      match eq_loop ts n s1 with
      | none => none
      | some s2 => some (true, s2)

/-- The `while ==, !=` loop of `Parser.equality_expr`. -/
def eq_loop : List Tok → Nat → St → Option St
  | _, 0, _ => none
  | ts, n+1, s =>
    match current_token ts s with
    | some t =>
      if t.type = "OPERATOR" ∧ t.value ∈ ["==", "!="] then
        match relational_expr ts n (bump s) with
        | none => none
        | some (_, s1) => eq_loop ts n s1
      else some s
    | none => some s

/-- `Parser.relational_expr` -/
def relational_expr : List Tok → Nat → St → Option (Bool × St)
  | _, 0, _ => none
  | ts, n+1, s =>
    match additive_expr ts n s with
    | none => none
    | some (_, s1) =>
      match rel_loop ts n s1 with
      | none => none
      | some s2 => some (true, s2)

/-- The `while <, >, <=, >=` loop of `Parser.relational_expr`. -/
def rel_loop : List Tok → Nat → St → Option St
  | _, 0, _ => none
  | ts, n+1, s =>
    match current_token ts s with
    | some t =>
      if t.type = "OPERATOR" ∧ t.value ∈ ["<", ">", "<=", ">="] then
        match additive_expr ts n (bump s) with
        | none => none
        | some (_, s1) => rel_loop ts n s1
      else some s
    | none => some s

/-- `Parser.additive_expr` -/
def additive_expr : List Tok → Nat → St → Option (Bool × St)
  | _, 0, _ => none
  | ts, n+1, s =>
    match multiplicative_expr ts n s with
    | none => none
    | some (_, s1) =>
      match add_loop ts n s1 with
      | none => none
      | some s2 => some (true, s2)

/-- The `while +, -` loop of `Parser.additive_expr`. -/
def add_loop : List Tok → Nat → St → Option St
  | _, 0, _ => none
  | ts, n+1, s =>
    match current_token ts s with
    | some t =>
      if t.type = "OPERATOR" ∧ t.value ∈ ["+", "-"] then
        match multiplicative_expr ts n (bump s) with
        | none => none
        | some (_, s1) => add_loop ts n s1
      else some s
    | none => some s

/-- `Parser.multiplicative_expr` -/
def multiplicative_expr : List Tok → Nat → St → Option (Bool × St)
  | _, 0, _ => none
  | ts, n+1, s =>
    match unary_expr ts n s with
    | none => none
    | some (_, s1) =>
      match mul_loop ts n s1 with
      | none => none
      | some s2 => some (true, s2)

/-- The `while *, /, %` loop of `Parser.multiplicative_expr`. -/
def mul_loop : List Tok → Nat → St → Option St
  | _, 0, _ => none
  | ts, n+1, s =>
    match current_token ts s with
    | some t =>
      if t.type = "OPERATOR" ∧ t.value ∈ ["*", "/", "%"] then
        match unary_expr ts n (bump s) with
        | none => none
        | some (_, s1) => mul_loop ts n s1
      else some s
    | none => some s

/-- `Parser.unary_expr` -/
def unary_expr : List Tok → Nat → St → Option (Bool × St)
  | _, 0, _ => none
  | ts, n+1, s =>
    match current_token ts s with
    | some t =>
      if t.type = "OPERATOR" ∧ t.value ∈ ["+", "-", "++", "--", "!"] then
        unary_expr ts n (bump s)
      else postfix_expr ts n s
    | none => postfix_expr ts n s

/-- `Parser.postfix_expr` -/
def postfix_expr : List Tok → Nat → St → Option (Bool × St)
  | _, 0, _ => none
  | ts, n+1, s =>
    match primary_expr ts n s with
    | none => none
    | some (_, s1) =>
      match postfix_loop ts n s1 with
      | none => none
      | some s2 => some (true, s2)

/-- The `while True` loop of `Parser.postfix_expr`. -/
def postfix_loop : List Tok → Nat → St → Option St
  | _, 0, _ => none
  | ts, n+1, s =>
    match current_token ts s with
    | none => some s
    | some t =>
      if t.type = "SPECIAL CHARACTER" ∧ t.value = "[" then
        match expression ts n (bump s) with
        | none => none
        | some (_, s1) =>
          postfix_loop ts n (expect ts s1 (some "SPECIAL CHARACTER") (some "]") none).2
      else if t.type = "SPECIAL CHARACTER" ∧ t.value = "(" then
        match argument_list ts n (bump s) with
        | none => none
        | some (_, s1) =>
          postfix_loop ts n (expect ts s1 (some "SPECIAL CHARACTER") (some ")") none).2
      else if t.type = "OPERATOR" ∧ t.value ∈ ["++", "--"] then postfix_loop ts n (bump s)
      else some s

/-- `Parser.argument_list` -/
def argument_list : List Tok → Nat → St → Option (Bool × St)
  | _, 0, _ => none
  | ts, n+1, s =>
    match current_token ts s with
    | some t =>
      if t.type = "SPECIAL CHARACTER" ∧ t.value = ")" then some (true, s)
      else
        match expression ts n s with
        | none => none
        | some (_, s1) =>
          match arg_loop ts n s1 with
          | none => none
          | some s2 => some (true, s2)
    | none =>
      match expression ts n s with
      | none => none
      | some (_, s1) =>
        match arg_loop ts n s1 with
        | none => none
        | some s2 => some (true, s2)

/-- The `while ','` loop of `Parser.argument_list`. -/
def arg_loop : List Tok → Nat → St → Option St
  | _, 0, _ => none
  | ts, n+1, s =>
    match current_token ts s with
    | some t =>
      if t.type = "SPECIAL CHARACTER" ∧ t.value = "," then
        match expression ts n (bump s) with
        | none => none
        | some (_, s1) => arg_loop ts n s1
      else some s
    | none => some s

/-- `Parser.primary_expr` -/
def primary_expr : List Tok → Nat → St → Option (Bool × St)
  | _, 0, _ => none
  | ts, n+1, s =>
    match current_token ts s with
    | none => some (false, add_error ts s "Unexpected end of file in expression")
    | some t =>
      if t.type = "IDENTIFIER" then some (true, bump s)
      else if t.type = "NUMBER" then some (true, bump s)
      else if t.type = "STRING" then some (true, bump s)
      else if t.type = "SPECIAL CHARACTER" ∧ t.value = "(" then
        match expression ts n (bump s) with
        | none => none
        | some (_, s1) =>
          match expect ts s1 (some "SPECIAL CHARACTER") (some ")") none with
          | (false, s2) => some (false, s2)
          | (true, s2) => some (true, s2)
      else
        some (false, add_error ts s
          ("Unexpected token in expression: " ++ t.type ++ " '" ++ t.value ++ "'"))

/-- `Parser.if_statement` -/
def if_statement : List Tok → Nat → St → Option (Bool × St)
  | _, 0, _ => none
  | ts, n+1, s =>
    match expect ts (bump s) (some "SPECIAL CHARACTER") (some "(") none with
    | (false, s2) => some (false, s2)
    | (true, s2) =>
      match expression ts n s2 with
      | none => none
      | some (_, s3) =>
        match expect ts s3 (some "SPECIAL CHARACTER") (some ")") none with
        | (false, s4) => some (false, s4)
        | (true, s4) =>
          let thenR : Option St :=
            match current_token ts s4 with
            | some t =>
              if t.type = "SPECIAL CHARACTER" ∧ t.value = "\x7b" then
                match block ts n s4 with
                | none => none
                | some (_, sb) => some sb
              else
                match x ts n s4 with
                | none => none
                | some (_, sb) => some sb
            | none =>
              match x ts n s4 with
              | none => none
              | some (_, sb) => some sb
          match thenR with
          | none => none
          | some s5 =>
            match current_token ts s5 with
            | some t =>
              if t.type = "KEYWORD" ∧ t.value = "else" then
                let elseR : Option St :=
                  match current_token ts (bump s5) with
                  | some t2 =>
                    if t2.type = "SPECIAL CHARACTER" ∧ t2.value = "\x7b" then
                      match block ts n (bump s5) with
                      | none => none
                      | some (_, sb) => some sb
                    else
                      match x ts n (bump s5) with
                      | none => none
                      | some (_, sb) => some sb
                  | none =>
                    match x ts n (bump s5) with
                    | none => none
                    | some (_, sb) => some sb
                match elseR with
                | none => none
                | some s6 => some (true, s6)
              else some (true, s5)
            | none => some (true, s5)

/-- `Parser.while_statement` -/
def while_statement : List Tok → Nat → St → Option (Bool × St)
  | _, 0, _ => none
  | ts, n+1, s =>
    match expect ts (bump s) (some "SPECIAL CHARACTER") (some "(") none with
    | (false, s2) => some (false, s2)
    | (true, s2) =>
      match expression ts n s2 with
      | none => none
      | some (_, s3) =>
        match expect ts s3 (some "SPECIAL CHARACTER") (some ")") none with
        | (false, s4) => some (false, s4)
        | (true, s4) =>
          let bodyR : Option St :=
            match current_token ts s4 with
            | some t =>
              if t.type = "SPECIAL CHARACTER" ∧ t.value = "\x7b" then
                match block ts n s4 with
                | none => none
                | some (_, sb) => some sb
              else
                match x ts n s4 with
                | none => none
                | some (_, sb) => some sb
            | none =>
              match x ts n s4 with
              | none => none
              | some (_, sb) => some sb
          match bodyR with
          | none => none
          | some s5 => some (true, s5)

/-- `Parser.for_statement` -/
def for_statement : List Tok → Nat → St → Option (Bool × St)
  | _, 0, _ => none
  | ts, n+1, s =>
    match expect ts (bump s) (some "SPECIAL CHARACTER") (some "(") none with
    | (false, s2) => some (false, s2)
    | (true, s2) =>
      let initR : Option St :=
        match current_token ts s2 with
        | some t =>
          if t.type = "KEYWORD" then
            match assign ts n s2 with
            | none => none
            | some (_, sa) => some sa
          else
            match expression ts n s2 with
            | none => none
            | some (_, sa) => some (expect ts sa (some "SPECIAL CHARACTER") (some ";") none).2
        | none =>
          match expression ts n s2 with
          | none => none
          | some (_, sa) => some (expect ts sa (some "SPECIAL CHARACTER") (some ";") none).2
      match initR with
      | none => none
      | some s3 =>
        let condR : Option St :=
          match current_token ts s3 with
          | some t =>
            if ¬(t.type = "SPECIAL CHARACTER" ∧ t.value = ";") then
              match expression ts n s3 with
              | none => none
              | some (_, sa) => some sa
            else some s3
          | none => some s3
        match condR with
        | none => none
        | some s4 =>
          let s5 := (expect ts s4 (some "SPECIAL CHARACTER") (some ";") none).2
          let updR : Option St :=
            match current_token ts s5 with
            | some t =>
              if ¬(t.type = "SPECIAL CHARACTER" ∧ t.value = ")") then
                match expression ts n s5 with
                | none => none
                | some (_, sa) => some sa
              else some s5
            | none => some s5
          match updR with
          | none => none
          | some s6 =>
            match expect ts s6 (some "SPECIAL CHARACTER") (some ")") none with
            | (false, s7) => some (false, s7)
            | (true, s7) =>
              let bodyR : Option St :=
                match current_token ts s7 with
                | some t =>
                  if t.type = "SPECIAL CHARACTER" ∧ t.value = "\x7b" then
                    match block ts n s7 with
                    | none => none
                    | some (_, sb) => some sb
                  else
                    match x ts n s7 with
                    | none => none
                    | some (_, sb) => some sb
                | none =>
                  match x ts n s7 with
                  | none => none
                  | some (_, sb) => some sb
              match bodyR with
              | none => none
              | some s8 => some (true, s8)

/-- `Parser.return_statement` -/
def return_statement : List Tok → Nat → St → Option (Bool × St)
  | _, 0, _ => none
  | ts, n+1, s =>
    let s1 := bump s
    let exprR : Option St :=
      match current_token ts s1 with
      | some t =>
        if ¬(t.type = "SPECIAL CHARACTER" ∧ t.value = ";") then
          match expression ts n s1 with
          | none => none
          | some (_, sa) => some sa
        else some s1
      | none => some s1
    match exprR with
    | none => none
    | some s2 =>
      match expect ts s2 (some "SPECIAL CHARACTER") (some ";") none with
      | (false, s3) => some (false, s3)
      | (true, s3) => some (true, s3)

end

/-- `Parser.parse`.  Fuel exhaustion (`none` from `program`) models the
caught runtime fault; its diagnostic list is abstracted to the exception
diagnostic alone. -/
def parse (ts : List Tok) (fuel : Nat) : Bool × St :=
  match program ts fuel ⟨0, [], false⟩ with
  | none => (false, ⟨0, ["Parser exception: maximum recursion depth exceeded"], false⟩)
  | some s1 =>
    if s1.hasMain then (s1.errors.isEmpty, s1)
    else (false, add_error ts s1 "Missing main function")

/-- One line of `read_tokens_from_file`: the token it contributes, if any
(`line.strip()`, the `<...>` shape test, `line[1:-1]`, split at the first
comma, then `strip()` of both parts). -/
def parse_line (line : String) : Option Tok :=
  let l := strip line
  if l = "" then none
  else if l.toList.head? = some '<' ∧ l.toList.getLast? = some '>' then
    match split_first_comma ⟨l.toList.tail.dropLast⟩ with
    | some (a, b) => some ⟨strip a, strip b⟩
    | none => none
  else none

/-- `read_tokens_from_file`, on the file's list of lines. -/
def read_tokens_from_file (lines : List String) : List Tok :=
  lines.filterMap parse_line

/-- `parse_cpp_tokens`.  `contents` is `none` when the file does not exist. -/
def parse_cpp_tokens (filename : String) (contents : Option (List String)) (fuel : Nat) :
    Bool × List String :=
  match contents with
  | none => (false, ["File not found: " ++ filename])
  | some lines =>
    let tokens := read_tokens_from_file lines
    if tokens = [] then (false, ["No tokens found in file"])
    else
      let (isValid, st) := parse tokens fuel
      (isValid, st.errors)

end Cpp

/-! ## Embedding of `src/new_parse.py` -/

namespace NewParse

/-- `Parser.current` -/
def current (ts : List Tok) (s : St) : Option Tok := ts[s.pos]?

/-- `Parser.peek` -/
def peek (ts : List Tok) (s : St) (offset : Nat) : Option Tok := ts[s.pos + offset]?

/-- `Parser.advance`: `self.pos += 1`, with no guard of any kind. -/
def advance (s : St) : St := { s with pos := s.pos + 1 }

@[simp] theorem advance_pos (s : St) : (advance s).pos = s.pos + 1 := rfl
@[simp] theorem advance_errors (s : St) : (advance s).errors = s.errors := rfl
@[simp] theorem advance_hasMain (s : St) : (advance s).hasMain = s.hasMain := rfl

/-- `Parser.match` (renamed: `match` is a Lean keyword). -/
def matchTok (ts : List Tok) (s : St) (et ev : Option String) : Bool :=
  match current ts s with
  | none => false
  | some tok =>
    (match et with | some t => tok.type == t | none => true) &&
    (match ev with | some v => tok.value == v | none => true)

/-- The diagnostic string recorded by a failing `Parser.consume`. -/
def consume_msg (ts : List Tok) (s : St) (et ev em : Option String) : String :=
  let msg :=
    match em with
    | some m => m
    | none =>
      match current ts s with
      | none => "Unexpected end of file"
      | some tok =>
        match et, ev with
        | some t, some v =>
          "Expected " ++ t ++ " '" ++ v ++ "', got " ++ tok.type ++ " '" ++ tok.value ++ "'"
        | some t, none => "Expected " ++ t ++ ", got " ++ tok.type
        | _, _ => "Unexpected token: " ++ tok.type ++ " '" ++ tok.value ++ "'"
  "At position " ++ toString s.pos ++ ": " ++ msg

/-- `Parser.consume` -/
def consume (ts : List Tok) (s : St) (et ev em : Option String) : Bool × St :=
  if matchTok ts s et ev then (true, advance s)
  else (false, pushErr s (consume_msg ts s et ev em))

mutual

/-- The `while self.current()` loop of `Parser.parse`. -/
def parse_loop : List Tok → Nat → St → Option St
  | _, 0, _ => none
  | ts, n+1, s =>
    match current ts s with
    | none => some s
    | some _ =>
      match parse_global_declaration ts n s with
      | none => none
      | some s1 => parse_loop ts n s1

/-- `Parser.parse_global_declaration` -/
def parse_global_declaration : List Tok → Nat → St → Option St
  | _, 0, _ => none
  | ts, n+1, s =>
    match current ts s with
    | none => some (advance (pushErr s "Expected datatype for global declaration"))
    | some tok =>
      if ¬(tok.type = "KEYWORD" ∧ tok.value ∈ datatypes) then
        some (advance (pushErr s "Expected datatype for global declaration"))
      else
        match peek ts s 2 with
        | some nn =>
          if nn.type = "SPECIAL CHARACTER" ∧ nn.value = "(" then parse_function ts n s
          else parse_global_variable ts n s
        | none => parse_global_variable ts n s

/-- `Parser.parse_global_variable` -/
def parse_global_variable : List Tok → Nat → St → Option St
  | _, 0, _ => none
  | ts, n+1, s =>
    let s1 := (consume ts (advance s) (some "IDENTIFIER") none none).2
    let afterInit : Option St :=
      if matchTok ts s1 (some "OPERATOR") (some "=") then parse_expression ts n (advance s1)
      else some s1
    match afterInit with
    | none => none
    | some s2 =>
      match ncomma_loop ts n s2 with
      | none => none
      | some s3 => some (consume ts s3 (some "SPECIAL CHARACTER") (some ";") none).2

/-- The `while self.match(',')` loop shared (textually identical) by
`Parser.parse_global_variable` and `Parser.parse_assignment`. -/
def ncomma_loop : List Tok → Nat → St → Option St
  | _, 0, _ => none
  | ts, n+1, s =>
    if matchTok ts s (some "SPECIAL CHARACTER") (some ",") then
      let s1 := (consume ts (advance s) (some "IDENTIFIER") none none).2
      if matchTok ts s1 (some "OPERATOR") (some "=") then
        match parse_expression ts n (advance s1) with
        | none => none
        | some s2 => ncomma_loop ts n s2
      else ncomma_loop ts n s1
    else some s

/-- `Parser.parse_function` -/
def parse_function : List Tok → Nat → St → Option St
  | _, 0, _ => none
  | ts, n+1, s =>
    let s1 := advance s
    let s2 :=
      match current ts s1 with
      | some tok => if tok.value = "main" then setMain s1 else s1
      | none => s1
    let s3 := (consume ts s2 none none none).2
    let s4 := (consume ts s3 (some "SPECIAL CHARACTER") (some "(") none).2
    let s5 := (consume ts s4 (some "SPECIAL CHARACTER") (some ")") none).2
    parse_block ts n s5

/-- `Parser.parse_block` -/
def parse_block : List Tok → Nat → St → Option St
  | _, 0, _ => none
  | ts, n+1, s =>
    let s1 := (consume ts s (some "SPECIAL CHARACTER") (some "\x7b") none).2
    match nblock_loop ts n s1 with
    | none => none
    | some (false, s2) => some s2
    | some (true, s2) => some (consume ts s2 (some "SPECIAL CHARACTER") (some "\x7d") none).2

/-- The `while not self.match('}')` loop of `Parser.parse_block`; `false`
marks the early `return` on exhausted input. -/
def nblock_loop : List Tok → Nat → St → Option (Bool × St)
  | _, 0, _ => none
  | ts, n+1, s =>
    if matchTok ts s (some "SPECIAL CHARACTER") (some "\x7d") then some (true, s)
    else
      match current ts s with
      | none => some (false, pushErr s "Expected '\x7d' to close block")
      | some _ =>
        match parse_statement ts n s with
        | none => none
        | some s1 => nblock_loop ts n s1

/-- `Parser.parse_statement` -/
def parse_statement : List Tok → Nat → St → Option St
  | _, 0, _ => none
  | ts, n+1, s =>
    match current ts s with
    | none => some s
    | some tok =>
      if tok.type = "KEYWORD" ∧ tok.value ∈ datatypes then
        match peek ts s 2 with
        | some nn =>
          if nn.type = "SPECIAL CHARACTER" ∧ nn.value = "(" then parse_function ts n s
          else parse_assignment ts n s
        | none => parse_assignment ts n s
      else if tok.type = "KEYWORD" ∧ tok.value = "if" then parse_if_statement ts n s
      else if tok.type = "KEYWORD" ∧ tok.value = "while" then parse_while_statement ts n s
      else if tok.type = "KEYWORD" ∧ tok.value = "for" then parse_for_statement ts n s
      else if tok.type = "KEYWORD" ∧ tok.value = "return" then parse_return_statement ts n s
      else if tok.type = "IDENTIFIER" then
        match peek ts s 1 with
        | some nt =>
          if nt.type = "OPERATOR" ∧ nt.value = "=" then parse_assignment ts n s
          else
            match parse_expression ts n s with
            | none => none
            | some s1 => some (consume ts s1 (some "SPECIAL CHARACTER") (some ";") none).2
        | none =>
          match parse_expression ts n s with
          | none => none
          | some s1 => some (consume ts s1 (some "SPECIAL CHARACTER") (some ";") none).2
      else
        some (advance (pushErr s
          ("Invalid statement starting with " ++ tok.type ++ " '" ++ tok.value ++ "'")))

/-- `Parser.parse_assignment` -/
def parse_assignment : List Tok → Nat → St → Option St
  | _, 0, _ => none
  | ts, n+1, s =>
    match current ts s with
    | some tok =>
      if tok.type = "KEYWORD" ∧ tok.value ∈ datatypes then
        let s1 := (consume ts (advance s) (some "IDENTIFIER") none none).2
        match ncomma_loop ts n s1 with
        | none => none
        | some s2 => nassign_tail ts n s2
      else
        nassign_tail ts n (consume ts s (some "IDENTIFIER") none none).2
    | none =>
      nassign_tail ts n (consume ts s (some "IDENTIFIER") none none).2

/-- Tail of `Parser.parse_assignment`: optional `= expression`, then `;`. -/
def nassign_tail : List Tok → Nat → St → Option St
  | _, 0, _ => none
  | ts, n+1, s =>
    let afterEq : Option St :=
      if matchTok ts s (some "OPERATOR") (some "=") then parse_expression ts n (advance s)
      else some s
    match afterEq with
    | none => none
    | some s1 => some (consume ts s1 (some "SPECIAL CHARACTER") (some ";") none).2

/-- `Parser.parse_if_statement` -/
def parse_if_statement : List Tok → Nat → St → Option St
  | _, 0, _ => none
  | ts, n+1, s =>
    let s2 := (consume ts (advance s) (some "SPECIAL CHARACTER") (some "(") none).2
    match parse_expression ts n s2 with
    | none => none
    | some s3 =>
      let s4 := (consume ts s3 (some "SPECIAL CHARACTER") (some ")") none).2
      let thenR : Option St :=
        if matchTok ts s4 (some "SPECIAL CHARACTER") (some "\x7b") then parse_block ts n s4
        else parse_statement ts n s4
      match thenR with
      | none => none
      | some s5 =>
        if matchTok ts s5 (some "KEYWORD") (some "else") then
          if matchTok ts (advance s5) (some "SPECIAL CHARACTER") (some "\x7b") then
            parse_block ts n (advance s5)
          else parse_statement ts n (advance s5)
        else some s5

/-- `Parser.parse_while_statement` -/
def parse_while_statement : List Tok → Nat → St → Option St
  | _, 0, _ => none
  | ts, n+1, s =>
    let s2 := (consume ts (advance s) (some "SPECIAL CHARACTER") (some "(") none).2
    match parse_expression ts n s2 with
    | none => none
    | some s3 =>
      let s4 := (consume ts s3 (some "SPECIAL CHARACTER") (some ")") none).2
      if matchTok ts s4 (some "SPECIAL CHARACTER") (some "\x7b") then parse_block ts n s4
      else parse_statement ts n s4

/-- `Parser.parse_for_statement` -/
def parse_for_statement : List Tok → Nat → St → Option St
  | _, 0, _ => none
  | ts, n+1, s =>
    let s2 := (consume ts (advance s) (some "SPECIAL CHARACTER") (some "(") none).2
    let initR : Option St :=
      if matchTok ts s2 (some "KEYWORD") none then parse_assignment ts n s2
      else if matchTok ts s2 (some "SPECIAL CHARACTER") (some ";") then
        some (consume ts s2 (some "SPECIAL CHARACTER") (some ";") none).2
      else
        match parse_expression ts n s2 with
        | none => none
        | some s3 => some (consume ts s3 (some "SPECIAL CHARACTER") (some ";") none).2
    match initR with
    | none => none
    | some s4 =>
      let condR : Option St :=
        if matchTok ts s4 (some "SPECIAL CHARACTER") (some ";") then some s4
        else parse_expression ts n s4
      match condR with
      | none => none
      | some s5 =>
        let s6 := (consume ts s5 (some "SPECIAL CHARACTER") (some ";") none).2
        let updR : Option St :=
          if matchTok ts s6 (some "SPECIAL CHARACTER") (some ")") then some s6
          else parse_expression ts n s6
        match updR with
        | none => none
        | some s7 =>
          let s8 := (consume ts s7 (some "SPECIAL CHARACTER") (some ")") none).2
          if matchTok ts s8 (some "SPECIAL CHARACTER") (some "\x7b") then parse_block ts n s8
          else parse_statement ts n s8

/-- `Parser.parse_return_statement` -/
def parse_return_statement : List Tok → Nat → St → Option St
  | _, 0, _ => none
  | ts, n+1, s =>
    let s1 := advance s
    let afterE : Option St :=
      if matchTok ts s1 (some "SPECIAL CHARACTER") (some ";") then some s1
      else parse_expression ts n s1
    match afterE with
    | none => none
    | some s2 => some (consume ts s2 (some "SPECIAL CHARACTER") (some ";") none).2

/-- `Parser.parse_expression` -/
def parse_expression : List Tok → Nat → St → Option St
  | _, 0, _ => none
  | ts, n+1, s => parse_logical_or ts n s

/-- `Parser.parse_logical_or` -/
def parse_logical_or : List Tok → Nat → St → Option St
  | _, 0, _ => none
  | ts, n+1, s =>
    match parse_logical_and ts n s with
    | none => none
    | some s1 => nor_loop ts n s1

/-- The `while self.match('OPERATOR', '||')` loop. -/
def nor_loop : List Tok → Nat → St → Option St
  | _, 0, _ => none
  | ts, n+1, s =>
    if matchTok ts s (some "OPERATOR") (some "||") then
      match parse_logical_and ts n (advance s) with
      | none => none
      | some s1 => nor_loop ts n s1
    else some s

/-- `Parser.parse_logical_and` -/
def parse_logical_and : List Tok → Nat → St → Option St
  | _, 0, _ => none
  | ts, n+1, s =>
    match parse_equality ts n s with
    | none => none
    | some s1 => nand_loop ts n s1

/-- The `while self.match('OPERATOR', '&&')` loop. -/
def nand_loop : List Tok → Nat → St → Option St
  | _, 0, _ => none
  | ts, n+1, s =>
    if matchTok ts s (some "OPERATOR") (some "&&") then
      match parse_equality ts n (advance s) with
      | none => none
      | some s1 => nand_loop ts n s1
    else some s

/-- `Parser.parse_equality` -/
def parse_equality : List Tok → Nat → St → Option St
  | _, 0, _ => none
  | ts, n+1, s =>
    match parse_relational ts n s with
    | none => none
    | some s1 => neq_loop ts n s1

/-- The `while ==, !=` loop of `Parser.parse_equality`. -/
def neq_loop : List Tok → Nat → St → Option St
  | _, 0, _ => none
  | ts, n+1, s =>
    match current ts s with
    | some tok =>
      if tok.type = "OPERATOR" ∧ tok.value ∈ ["==", "!="] then
        match parse_relational ts n (advance s) with
        | none => none
        | some s1 => neq_loop ts n s1
      else some s
    | none => some s

/-- `Parser.parse_relational` -/
def parse_relational : List Tok → Nat → St → Option St
  | _, 0, _ => none
  | ts, n+1, s =>
    match parse_additive ts n s with
    | none => none
    | some s1 => nrel_loop ts n s1

/-- The `while <, >, <=, >=` loop of `Parser.parse_relational`. -/
def nrel_loop : List Tok → Nat → St → Option St
  | _, 0, _ => none
  | ts, n+1, s =>
    match current ts s with
    | some tok =>
      if tok.type = "OPERATOR" ∧ tok.value ∈ ["<", ">", "<=", ">="] then
        match parse_additive ts n (advance s) with
        | none => none
        | some s1 => nrel_loop ts n s1
      else some s
    | none => some s

/-- `Parser.parse_additive` -/
def parse_additive : List Tok → Nat → St → Option St
  | _, 0, _ => none
  | ts, n+1, s =>
    match parse_multiplicative ts n s with
    | none => none
    | some s1 => nadd_loop ts n s1

/-- The `while +, -` loop of `Parser.parse_additive`. -/
def nadd_loop : List Tok → Nat → St → Option St
  | _, 0, _ => none
  | ts, n+1, s =>
    match current ts s with
    | some tok =>
      if tok.type = "OPERATOR" ∧ tok.value ∈ ["+", "-"] then
        match parse_multiplicative ts n (advance s) with
        | none => none
        | some s1 => nadd_loop ts n s1
      else some s
    | none => some s

/-- `Parser.parse_multiplicative` -/
def parse_multiplicative : List Tok → Nat → St → Option St
  | _, 0, _ => none
  | ts, n+1, s =>
    match parse_unary ts n s with
    | none => none
    | some s1 => nmul_loop ts n s1

/-- The `while *, /, %` loop of `Parser.parse_multiplicative`. -/
def nmul_loop : List Tok → Nat → St → Option St
  | _, 0, _ => none
  | ts, n+1, s =>
    match current ts s with
    | some tok =>
      if tok.type = "OPERATOR" ∧ tok.value ∈ ["*", "/", "%"] then
        match parse_unary ts n (advance s) with
        | none => none
        | some s1 => nmul_loop ts n s1
      else some s
    | none => some s

/-- `Parser.parse_unary` -/
def parse_unary : List Tok → Nat → St → Option St
  | _, 0, _ => none
  | ts, n+1, s =>
    match current ts s with
    | some tok =>
      if tok.type = "OPERATOR" ∧ tok.value ∈ ["+", "-", "++", "--", "!"] then
        parse_unary ts n (advance s)
      else parse_postfixE ts n s
    | none => parse_postfixE ts n s

/-- `Parser.parse_postfix` (suffixed name). -/
def parse_postfixE : List Tok → Nat → St → Option St
  | _, 0, _ => none
  | ts, n+1, s =>
    match parse_primary ts n s with
    | none => none
    | some s1 => npostfix_loop ts n s1

/-- The `while self.current()` loop of `Parser.parse_postfix`. -/
def npostfix_loop : List Tok → Nat → St → Option St
  | _, 0, _ => none
  | ts, n+1, s =>
    match current ts s with
    | none => some s
    | some tok =>
      if tok.type = "SPECIAL CHARACTER" ∧ tok.value = "[" then
        match parse_expression ts n (advance s) with
        | none => none
        | some s1 => npostfix_loop ts n (consume ts s1 (some "SPECIAL CHARACTER") (some "]") none).2
      else if tok.type = "SPECIAL CHARACTER" ∧ tok.value = "(" then
        match parse_argument_list ts n (advance s) with
        | none => none
        | some s1 => npostfix_loop ts n (consume ts s1 (some "SPECIAL CHARACTER") (some ")") none).2
      else if tok.type = "OPERATOR" ∧ tok.value ∈ ["++", "--"] then npostfix_loop ts n (advance s)
      else some s

/-- `Parser.parse_argument_list` -/
def parse_argument_list : List Tok → Nat → St → Option St
  | _, 0, _ => none
  | ts, n+1, s =>
    if matchTok ts s (some "SPECIAL CHARACTER") (some ")") then some s
    else
      match parse_expression ts n s with
      | none => none
      | some s1 => narg_loop ts n s1

/-- The `while self.match(',')` loop of `Parser.parse_argument_list`. -/
def narg_loop : List Tok → Nat → St → Option St
  | _, 0, _ => none
  | ts, n+1, s =>
    if matchTok ts s (some "SPECIAL CHARACTER") (some ",") then
      match parse_expression ts n (advance s) with
      | none => none
      | some s1 => narg_loop ts n s1
    else some s

/-- `Parser.parse_primary` -/
def parse_primary : List Tok → Nat → St → Option St
  | _, 0, _ => none
  | ts, n+1, s =>
    match current ts s with
    | none => some (pushErr s "Unexpected end of file in expression")
    | some tok =>
      if tok.type = "IDENTIFIER" ∨ tok.type = "NUMBER" ∨ tok.type = "STRING" then
        some (advance s)
      else if tok.type = "SPECIAL CHARACTER" ∧ tok.value = "(" then
        match parse_expression ts n (advance s) with
        | none => none
        | some s1 => some (consume ts s1 (some "SPECIAL CHARACTER") (some ")") none).2
      else
        some (advance (pushErr s
          ("Unexpected token in expression: " ++ tok.type ++ " '" ++ tok.value ++ "'")))

end

/-- `Parser.parse`.  Fuel exhaustion models the caught runtime fault; its
diagnostic list is abstracted to the exception diagnostic alone. -/
def parse (ts : List Tok) (fuel : Nat) : Bool × St :=
  match parse_loop ts fuel ⟨0, [], false⟩ with
  | none => (false, ⟨0, ["Parser exception: maximum recursion depth exceeded"], false⟩)
  | some s1 =>
    let s2 := if s1.hasMain then s1 else pushErr s1 "Missing main function"
    (s2.errors.isEmpty, s2)

/-- `read_tokens_from_file` of `new_parse.py`, on the file's list of lines:
a bracketed line with no comma makes `content.split(',', 1)` unpack fail,
raising `ValueError` — modelled by `none`. -/
def read_tokens_from_file : List String → Option (List Tok)
  | [] => some []
  | l :: rest =>
    let t := strip l
    if t.toList.head? = some '<' ∧ t.toList.getLast? = some '>' then
      match split_first_comma ⟨t.toList.tail.dropLast⟩ with
      | none => none
      | some (a, b) =>
        match read_tokens_from_file rest with
        | none => none
        | some toks => some (⟨strip a, strip b⟩ :: toks)
    else read_tokens_from_file rest

/-- `parse_cpp_tokens` of `new_parse.py`.  `contents` is `none` when the
file does not exist; the `ValueError` from the token reader is caught by
the generic `except Exception` clause. -/
def parse_cpp_tokens (filename : String) (contents : Option (List String)) (fuel : Nat) :
    Bool × List String :=
  match contents with
  | none => (false, ["File not found: " ++ filename])
  | some lines =>
    match read_tokens_from_file lines with
    | none => (false, ["Error: not enough values to unpack (expected 2, got 1)"])
    | some tokens =>
      if tokens = [] then (false, ["No tokens found in file"])
      else
        let (isValid, st) := parse tokens fuel
        (isValid, st.errors)

end NewParse

/-! ## Cursor facts

`StepOK len s s'` says a rule step never moves the cursor backwards and
never moves it beyond the end of an `len`-token stream. -/

def StepOK (len : Nat) (s s' : St) : Prop :=
  s.pos ≤ s'.pos ∧ (s.pos ≤ len → s'.pos ≤ len)

theorem stepOK_refl (len : Nat) (s : St) : StepOK len s s := ⟨le_refl _, fun h => h⟩

theorem stepOK_trans {len : Nat} {a b c : St} (h1 : StepOK len a b) (h2 : StepOK len b c) :
    StepOK len a c := ⟨le_trans h1.1 h2.1, fun h => h2.2 (h1.2 h)⟩

theorem stepOK_of_pos_eq {len : Nat} {s s' : St} (h : s'.pos = s.pos) : StepOK len s s' :=
  ⟨by omega, by omega⟩

theorem stepOK_bump_of_lt {len : Nat} {s : St} (h : s.pos < len) : StepOK len s (bump s) :=
  ⟨by simp, by simp; omega⟩

/-- `StepAdv len s s'`: the step strictly advanced the cursor, and kept it
in bounds provided a token was available at entry. -/
def StepAdv (len : Nat) (s s' : St) : Prop :=
  s.pos < s'.pos ∧ (s.pos < len → s'.pos ≤ len)

theorem stepAdv_of_bump_stepOK {len : Nat} {s s' : St} (h : StepOK len (bump s) s') :
    StepAdv len s s' := by
  obtain ⟨h1, h2⟩ := h
  simp only [bump_pos] at h1 h2
  exact ⟨by omega, fun hlt => h2 (by omega)⟩

theorem stepOK_of_stepAdv {len : Nat} {s s' : St} (h : StepAdv len s s') (hlt : s.pos < len) :
    StepOK len s s' := ⟨le_of_lt h.1, fun _ => h.2 hlt⟩

namespace Cpp

@[simp] theorem add_error_pos (ts : List Tok) (s : St) (m : String) :
    (add_error ts s m).pos = s.pos := rfl
@[simp] theorem add_error_errors (ts : List Tok) (s : St) (m : String) :
    (add_error ts s m).errors = s.errors ++ [add_error_msg ts s m] := rfl
@[simp] theorem add_error_hasMain (ts : List Tok) (s : St) (m : String) :
    (add_error ts s m).hasMain = s.hasMain := rfl

theorem current_token_some_lt {ts : List Tok} {s : St} {t : Tok}
    (h : current_token ts s = some t) : s.pos < ts.length := by
  by_contra hge
  have hn : ts[s.pos]? = none := List.getElem?_eq_none (by omega)
  simp [current_token, hn] at h

theorem current_token_none_le {ts : List Tok} {s : St}
    (h : current_token ts s = none) : ts.length ≤ s.pos := by
  by_contra hlt
  obtain ⟨t, ht⟩ : ∃ t, ts[s.pos]? = some t := by
    have hlt2 : s.pos < ts.length := by omega
    exact ⟨ts.get ⟨s.pos, hlt2⟩, List.getElem?_eq_getElem hlt2⟩
  simp [current_token, ht] at h

/-- `Parser.expect` either records one diagnostic and stays put, or
advances one position past an existing token. -/
theorem expect_cases (ts : List Tok) (s : St) (et ev em : Option String) :
    (∃ m, expect ts s et ev em = (false, add_error ts s m)) ∨
      (expect ts s et ev em = (true, bump s) ∧ s.pos < ts.length) := by
  unfold expect
  cases hc : current_token ts s with
  | none => exact .inl ⟨_, rfl⟩
  | some tok =>
    have hlt := current_token_some_lt hc
    cases et with
    | some t =>
      by_cases h1 : tok.type ≠ t
      · simp only [if_pos h1]
        exact .inl ⟨_, rfl⟩
      · simp only [if_neg h1]
        cases ev with
        | some v =>
          by_cases h2 : tok.value ≠ v
          · simp only [if_pos h2]
            exact .inl ⟨_, rfl⟩
          · simp only [if_neg h2]
            exact .inr ⟨trivial, hlt⟩
        | none => exact .inr ⟨rfl, hlt⟩
    | none =>
      cases ev with
      | some v =>
        by_cases h2 : tok.value ≠ v
        · simp only [if_pos h2]
          exact .inl ⟨_, rfl⟩
        · simp only [if_neg h2]
          exact .inr ⟨trivial, hlt⟩
      | none => exact .inr ⟨rfl, hlt⟩

theorem expect_stepOK (ts : List Tok) (s : St) (et ev em : Option String) :
    StepOK ts.length s (expect ts s et ev em).2 := by
  rcases expect_cases ts s et ev em with ⟨m, hE⟩ | ⟨hE, hlt⟩
  · rw [hE]; exact stepOK_of_pos_eq rfl
  · rw [hE]; exact stepOK_bump_of_lt hlt

theorem expect_true {ts : List Tok} {s s' : St} {et ev em : Option String}
    (h : expect ts s et ev em = (true, s')) :
    s' = bump s ∧ s.pos < ts.length := by
  rcases expect_cases ts s et ev em with ⟨m, hE⟩ | ⟨hE, hlt⟩
  · rw [hE] at h; simp at h
  · rw [hE] at h
    simp only [Prod.mk.injEq] at h
    exact ⟨h.2.symm, hlt⟩

theorem expect_false {ts : List Tok} {s s' : St} {et ev em : Option String}
    (h : expect ts s et ev em = (false, s')) :
    ∃ m, s' = add_error ts s m := by
  rcases expect_cases ts s et ev em with ⟨m, hE⟩ | ⟨hE, hlt⟩
  · rw [hE] at h
    simp only [Prod.mk.injEq] at h
    exact ⟨m, h.2.symm⟩
  · rw [hE] at h; simp at h

/-- Cursor-safety and cursor-progress facts for every rule function of
`cpp_parser.py` at a given fuel. -/
structure Pres (fuel : Nat) : Prop where
  program : ∀ ts s s', Cpp.program ts fuel s = some s' → StepOK ts.length s s'
  global_declaration : ∀ ts s b s', Cpp.global_declaration ts fuel s = some (b, s') →
    StepOK ts.length s s' ∧ (b = true → s.pos < s'.pos)
  global_variable : ∀ ts s b s', Cpp.global_variable ts fuel s = some (b, s') →
    StepAdv ts.length s s'
  comma_init_loop : ∀ ts s b s', Cpp.comma_init_loop ts fuel s = some (b, s') →
    StepOK ts.length s s'
  func : ∀ ts s b s', Cpp.func ts fuel s = some (b, s') →
    StepOK ts.length s s' ∧ (b = true → s.pos < s'.pos)
  block : ∀ ts s b s', Cpp.block ts fuel s = some (b, s') → StepOK ts.length s s'
  block_loop : ∀ ts s b s', Cpp.block_loop ts fuel s = some (b, s') → StepOK ts.length s s'
  x : ∀ ts s b s', Cpp.x ts fuel s = some (b, s') →
    StepOK ts.length s s' ∧ (b = true → s.pos < s'.pos)
  assign : ∀ ts s b s', Cpp.assign ts fuel s = some (b, s') →
    StepOK ts.length s s' ∧ (b = true → s.pos < s'.pos)
  assign_tail : ∀ ts s b s', Cpp.assign_tail ts fuel s = some (b, s') →
    StepOK ts.length s s' ∧ (b = true → s.pos < s'.pos)
  expression_statement : ∀ ts s b s', Cpp.expression_statement ts fuel s = some (b, s') →
    StepOK ts.length s s' ∧ (b = true → s.pos < s'.pos)
  expression : ∀ ts s b s', Cpp.expression ts fuel s = some (b, s') → StepOK ts.length s s'
  logical_or_expr : ∀ ts s b s', Cpp.logical_or_expr ts fuel s = some (b, s') →
    StepOK ts.length s s'
  lor_loop : ∀ ts s s', Cpp.lor_loop ts fuel s = some s' → StepOK ts.length s s'
  logical_and_expr : ∀ ts s b s', Cpp.logical_and_expr ts fuel s = some (b, s') →
    StepOK ts.length s s'
  land_loop : ∀ ts s s', Cpp.land_loop ts fuel s = some s' → StepOK ts.length s s'
  equality_expr : ∀ ts s b s', Cpp.equality_expr ts fuel s = some (b, s') →
    StepOK ts.length s s'
  eq_loop : ∀ ts s s', Cpp.eq_loop ts fuel s = some s' → StepOK ts.length s s'
  relational_expr : ∀ ts s b s', Cpp.relational_expr ts fuel s = some (b, s') →
    StepOK ts.length s s'
  rel_loop : ∀ ts s s', Cpp.rel_loop ts fuel s = some s' → StepOK ts.length s s'
  additive_expr : ∀ ts s b s', Cpp.additive_expr ts fuel s = some (b, s') →
    StepOK ts.length s s'
  add_loop : ∀ ts s s', Cpp.add_loop ts fuel s = some s' → StepOK ts.length s s'
  multiplicative_expr : ∀ ts s b s', Cpp.multiplicative_expr ts fuel s = some (b, s') →
    StepOK ts.length s s'
  mul_loop : ∀ ts s s', Cpp.mul_loop ts fuel s = some s' → StepOK ts.length s s'
  unary_expr : ∀ ts s b s', Cpp.unary_expr ts fuel s = some (b, s') → StepOK ts.length s s'
  postfix_expr : ∀ ts s b s', Cpp.postfix_expr ts fuel s = some (b, s') → StepOK ts.length s s'
  postfix_loop : ∀ ts s s', Cpp.postfix_loop ts fuel s = some s' → StepOK ts.length s s'
  argument_list : ∀ ts s b s', Cpp.argument_list ts fuel s = some (b, s') → StepOK ts.length s s'
  arg_loop : ∀ ts s s', Cpp.arg_loop ts fuel s = some s' → StepOK ts.length s s'
  primary_expr : ∀ ts s b s', Cpp.primary_expr ts fuel s = some (b, s') → StepOK ts.length s s'
  if_statement : ∀ ts s b s', Cpp.if_statement ts fuel s = some (b, s') →
    StepAdv ts.length s s'
  while_statement : ∀ ts s b s', Cpp.while_statement ts fuel s = some (b, s') →
    StepAdv ts.length s s'
  for_statement : ∀ ts s b s', Cpp.for_statement ts fuel s = some (b, s') →
    StepAdv ts.length s s'
  return_statement : ∀ ts s b s', Cpp.return_statement ts fuel s = some (b, s') →
    StepAdv ts.length s s'

end Cpp

namespace Cpp

theorem pres_primary_expr (n : Nat) (ih : Pres n) :
    ∀ ts s b s', primary_expr ts (n+1) s = some (b, s') → StepOK ts.length s s' := by
  intro ts s b s' h
  simp only [primary_expr] at h
  cases hc : current_token ts s with
  | none =>
    simp only [hc, Option.some.injEq, Prod.mk.injEq] at h
    obtain ⟨hb, hs⟩ := h
    subst hs
    exact stepOK_of_pos_eq (by simp)
  | some t =>
    have hlt := current_token_some_lt hc
    simp only [hc] at h
    split at h
    · simp only [Option.some.injEq, Prod.mk.injEq] at h
      obtain ⟨hb, hs⟩ := h
      subst hs
      exact stepOK_bump_of_lt hlt
    · split at h
      · simp only [Option.some.injEq, Prod.mk.injEq] at h
        obtain ⟨hb, hs⟩ := h
        subst hs
        exact stepOK_bump_of_lt hlt
      · split at h
        · simp only [Option.some.injEq, Prod.mk.injEq] at h
          obtain ⟨hb, hs⟩ := h
          subst hs
          exact stepOK_bump_of_lt hlt
        · split at h
          · cases h1 : expression ts n (bump s) with
            | none => simp [h1] at h
            | some p =>
              obtain ⟨b1, s1⟩ := p
              simp only [h1] at h
              have hstep1 := stepOK_trans (stepOK_bump_of_lt hlt) (ih.expression ts (bump s) b1 s1 h1)
              have hE := expect_stepOK ts s1 (some "SPECIAL CHARACTER") (some ")") none
              cases hEq : expect ts s1 (some "SPECIAL CHARACTER") (some ")") none with
              | mk b2 s2 =>
                rw [hEq] at hE
                cases b2 <;>
                  · simp only [hEq, Option.some.injEq, Prod.mk.injEq] at h
                    obtain ⟨hb, hs⟩ := h
                    subst hs
                    exact stepOK_trans hstep1 hE
          · simp only [Option.some.injEq, Prod.mk.injEq] at h
            obtain ⟨hb, hs⟩ := h
            subst hs
            exact stepOK_of_pos_eq (by simp)

theorem pres_arg_loop (n : Nat) (ih : Pres n) :
    ∀ ts s s', arg_loop ts (n+1) s = some s' → StepOK ts.length s s' := by
  intro ts s s' h
  simp only [arg_loop] at h
  cases hc : current_token ts s with
  | none =>
    simp only [hc, Option.some.injEq] at h
    subst h
    exact stepOK_refl _ _
  | some t =>
    have hlt := current_token_some_lt hc
    simp only [hc] at h
    split at h
    · cases h1 : expression ts n (bump s) with
      | none => simp [h1] at h
      | some p =>
        obtain ⟨b1, s1⟩ := p
        simp only [h1] at h
        exact stepOK_trans (stepOK_bump_of_lt hlt)
          (stepOK_trans (ih.expression ts (bump s) b1 s1 h1) (ih.arg_loop ts s1 s' h))
    · simp only [Option.some.injEq] at h
      subst h
      exact stepOK_refl _ _

theorem pres_argument_list (n : Nat) (ih : Pres n) :
    ∀ ts s b s', argument_list ts (n+1) s = some (b, s') → StepOK ts.length s s' := by
  intro ts s b s' h
  simp only [argument_list] at h
  have body : ∀ (hbody : (match expression ts n s with
      | none => none
      | some (_, s1) =>
        match arg_loop ts n s1 with
        | none => none
        | some s2 => some (true, s2)) = some (b, s')), StepOK ts.length s s' := by
    intro hbody
    cases h1 : expression ts n s with
    | none => simp [h1] at hbody
    | some p =>
      obtain ⟨b1, s1⟩ := p
      simp only [h1] at hbody
      cases h2 : arg_loop ts n s1 with
      | none => simp [h2] at hbody
      | some s2 =>
        simp only [h2, Option.some.injEq, Prod.mk.injEq] at hbody
        obtain ⟨hb, hs⟩ := hbody
        subst hs
        exact stepOK_trans (ih.expression ts s b1 s1 h1) (ih.arg_loop ts s1 s2 h2)
  cases hc : current_token ts s with
  | none =>
    simp only [hc] at h
    exact body h
  | some t =>
    simp only [hc] at h
    split at h
    · simp only [Option.some.injEq, Prod.mk.injEq] at h
      obtain ⟨hb, hs⟩ := h
      subst hs
      exact stepOK_refl _ _
    · exact body h

theorem pres_postfix_loop (n : Nat) (ih : Pres n) :
    ∀ ts s s', postfix_loop ts (n+1) s = some s' → StepOK ts.length s s' := by
  intro ts s s' h
  simp only [postfix_loop] at h
  cases hc : current_token ts s with
  | none =>
    simp only [hc, Option.some.injEq] at h
    subst h
    exact stepOK_refl _ _
  | some t =>
    have hlt := current_token_some_lt hc
    simp only [hc] at h
    split at h
    · cases h1 : expression ts n (bump s) with
      | none => simp [h1] at h
      | some p =>
        obtain ⟨b1, s1⟩ := p
        simp only [h1] at h
        have hE := expect_stepOK ts s1 (some "SPECIAL CHARACTER") (some "]") none
        exact stepOK_trans (stepOK_bump_of_lt hlt)
          (stepOK_trans (ih.expression ts (bump s) b1 s1 h1)
            (stepOK_trans hE (ih.postfix_loop ts _ s' h)))
    · split at h
      · cases h1 : argument_list ts n (bump s) with
        | none => simp [h1] at h
        | some p =>
          obtain ⟨b1, s1⟩ := p
          simp only [h1] at h
          have hE := expect_stepOK ts s1 (some "SPECIAL CHARACTER") (some ")") none
          exact stepOK_trans (stepOK_bump_of_lt hlt)
            (stepOK_trans (ih.argument_list ts (bump s) b1 s1 h1)
              (stepOK_trans hE (ih.postfix_loop ts _ s' h)))
      · split at h
        · exact stepOK_trans (stepOK_bump_of_lt hlt) (ih.postfix_loop ts (bump s) s' h)
        · simp only [Option.some.injEq] at h
          subst h
          exact stepOK_refl _ _

theorem pres_postfix_expr (n : Nat) (ih : Pres n) :
    ∀ ts s b s', postfix_expr ts (n+1) s = some (b, s') → StepOK ts.length s s' := by
  intro ts s b s' h
  simp only [postfix_expr] at h
  cases h1 : primary_expr ts n s with
  | none => simp [h1] at h
  | some p =>
    obtain ⟨b1, s1⟩ := p
    simp only [h1] at h
    cases h2 : postfix_loop ts n s1 with
    | none => simp [h2] at h
    | some s2 =>
      simp only [h2, Option.some.injEq, Prod.mk.injEq] at h
      obtain ⟨hb, hs⟩ := h
      subst hs
      exact stepOK_trans (ih.primary_expr ts s b1 s1 h1) (ih.postfix_loop ts s1 s2 h2)

theorem pres_unary_expr (n : Nat) (ih : Pres n) :
    ∀ ts s b s', unary_expr ts (n+1) s = some (b, s') → StepOK ts.length s s' := by
  intro ts s b s' h
  simp only [unary_expr] at h
  cases hc : current_token ts s with
  | none =>
    simp only [hc] at h
    exact ih.postfix_expr ts s b s' h
  | some t =>
    have hlt := current_token_some_lt hc
    simp only [hc] at h
    split at h
    · exact stepOK_trans (stepOK_bump_of_lt hlt) (ih.unary_expr ts (bump s) b s' h)
    · exact ih.postfix_expr ts s b s' h

theorem pres_mul_loop (n : Nat) (ih : Pres n) :
    ∀ ts s s', mul_loop ts (n+1) s = some s' → StepOK ts.length s s' := by
  intro ts s s' h
  simp only [mul_loop] at h
  cases hc : current_token ts s with
  | none =>
    simp only [hc, Option.some.injEq] at h
    subst h
    exact stepOK_refl _ _
  | some t =>
    have hlt := current_token_some_lt hc
    simp only [hc] at h
    split at h
    · cases h1 : unary_expr ts n (bump s) with
      | none => simp [h1] at h
      | some p =>
        obtain ⟨b1, s1⟩ := p
        simp only [h1] at h
        exact stepOK_trans (stepOK_bump_of_lt hlt)
          (stepOK_trans (ih.unary_expr ts (bump s) b1 s1 h1) (ih.mul_loop ts s1 s' h))
    · simp only [Option.some.injEq] at h
      subst h
      exact stepOK_refl _ _

theorem pres_multiplicative_expr (n : Nat) (ih : Pres n) :
    ∀ ts s b s', multiplicative_expr ts (n+1) s = some (b, s') → StepOK ts.length s s' := by
  intro ts s b s' h
  simp only [multiplicative_expr] at h
  cases h1 : unary_expr ts n s with
  | none => simp [h1] at h
  | some p =>
    obtain ⟨b1, s1⟩ := p
    simp only [h1] at h
    cases h2 : mul_loop ts n s1 with
    | none => simp [h2] at h
    | some s2 =>
      simp only [h2, Option.some.injEq, Prod.mk.injEq] at h
      obtain ⟨hb, hs⟩ := h
      subst hs
      exact stepOK_trans (ih.unary_expr ts s b1 s1 h1) (ih.mul_loop ts s1 s2 h2)

theorem pres_add_loop (n : Nat) (ih : Pres n) :
    ∀ ts s s', add_loop ts (n+1) s = some s' → StepOK ts.length s s' := by
  intro ts s s' h
  simp only [add_loop] at h
  cases hc : current_token ts s with
  | none =>
    simp only [hc, Option.some.injEq] at h
    subst h
    exact stepOK_refl _ _
  | some t =>
    have hlt := current_token_some_lt hc
    simp only [hc] at h
    split at h
    · cases h1 : multiplicative_expr ts n (bump s) with
      | none => simp [h1] at h
      | some p =>
        obtain ⟨b1, s1⟩ := p
        simp only [h1] at h
        exact stepOK_trans (stepOK_bump_of_lt hlt)
          (stepOK_trans (ih.multiplicative_expr ts (bump s) b1 s1 h1) (ih.add_loop ts s1 s' h))
    · simp only [Option.some.injEq] at h
      subst h
      exact stepOK_refl _ _

theorem pres_additive_expr (n : Nat) (ih : Pres n) :
    ∀ ts s b s', additive_expr ts (n+1) s = some (b, s') → StepOK ts.length s s' := by
  intro ts s b s' h
  simp only [additive_expr] at h
  cases h1 : multiplicative_expr ts n s with
  | none => simp [h1] at h
  | some p =>
    obtain ⟨b1, s1⟩ := p
    simp only [h1] at h
    cases h2 : add_loop ts n s1 with
    | none => simp [h2] at h
    | some s2 =>
      simp only [h2, Option.some.injEq, Prod.mk.injEq] at h
      obtain ⟨hb, hs⟩ := h
      subst hs
      exact stepOK_trans (ih.multiplicative_expr ts s b1 s1 h1) (ih.add_loop ts s1 s2 h2)

theorem pres_rel_loop (n : Nat) (ih : Pres n) :
    ∀ ts s s', rel_loop ts (n+1) s = some s' → StepOK ts.length s s' := by
  intro ts s s' h
  simp only [rel_loop] at h
  cases hc : current_token ts s with
  | none =>
    simp only [hc, Option.some.injEq] at h
    subst h
    exact stepOK_refl _ _
  | some t =>
    have hlt := current_token_some_lt hc
    simp only [hc] at h
    split at h
    · cases h1 : additive_expr ts n (bump s) with
      | none => simp [h1] at h
      | some p =>
        obtain ⟨b1, s1⟩ := p
        simp only [h1] at h
        exact stepOK_trans (stepOK_bump_of_lt hlt)
          (stepOK_trans (ih.additive_expr ts (bump s) b1 s1 h1) (ih.rel_loop ts s1 s' h))
    · simp only [Option.some.injEq] at h
      subst h
      exact stepOK_refl _ _

theorem pres_relational_expr (n : Nat) (ih : Pres n) :
    ∀ ts s b s', relational_expr ts (n+1) s = some (b, s') → StepOK ts.length s s' := by
  intro ts s b s' h
  simp only [relational_expr] at h
  cases h1 : additive_expr ts n s with
  | none => simp [h1] at h
  | some p =>
    obtain ⟨b1, s1⟩ := p
    simp only [h1] at h
    cases h2 : rel_loop ts n s1 with
    | none => simp [h2] at h
    | some s2 =>
      simp only [h2, Option.some.injEq, Prod.mk.injEq] at h
      obtain ⟨hb, hs⟩ := h
      subst hs
      exact stepOK_trans (ih.additive_expr ts s b1 s1 h1) (ih.rel_loop ts s1 s2 h2)

theorem pres_eq_loop (n : Nat) (ih : Pres n) :
    ∀ ts s s', eq_loop ts (n+1) s = some s' → StepOK ts.length s s' := by
  intro ts s s' h
  simp only [eq_loop] at h
  cases hc : current_token ts s with
  | none =>
    simp only [hc, Option.some.injEq] at h
    subst h
    exact stepOK_refl _ _
  | some t =>
    have hlt := current_token_some_lt hc
    simp only [hc] at h
    split at h
    · cases h1 : relational_expr ts n (bump s) with
      | none => simp [h1] at h
      | some p =>
        obtain ⟨b1, s1⟩ := p
        simp only [h1] at h
        exact stepOK_trans (stepOK_bump_of_lt hlt)
          (stepOK_trans (ih.relational_expr ts (bump s) b1 s1 h1) (ih.eq_loop ts s1 s' h))
    · simp only [Option.some.injEq] at h
      subst h
      exact stepOK_refl _ _

theorem pres_equality_expr (n : Nat) (ih : Pres n) :
    ∀ ts s b s', equality_expr ts (n+1) s = some (b, s') → StepOK ts.length s s' := by
  intro ts s b s' h
  simp only [equality_expr] at h
  cases h1 : relational_expr ts n s with
  | none => simp [h1] at h
  | some p =>
    obtain ⟨b1, s1⟩ := p
    simp only [h1] at h
    cases h2 : eq_loop ts n s1 with
    | none => simp [h2] at h
    | some s2 =>
      simp only [h2, Option.some.injEq, Prod.mk.injEq] at h
      obtain ⟨hb, hs⟩ := h
      subst hs
      exact stepOK_trans (ih.relational_expr ts s b1 s1 h1) (ih.eq_loop ts s1 s2 h2)

theorem pres_land_loop (n : Nat) (ih : Pres n) :
    ∀ ts s s', land_loop ts (n+1) s = some s' → StepOK ts.length s s' := by
  intro ts s s' h
  simp only [land_loop] at h
  cases hc : current_token ts s with
  | none =>
    simp only [hc, Option.some.injEq] at h
    subst h
    exact stepOK_refl _ _
  | some t =>
    have hlt := current_token_some_lt hc
    simp only [hc] at h
    split at h
    · cases h1 : equality_expr ts n (bump s) with
      | none => simp [h1] at h
      | some p =>
        obtain ⟨b1, s1⟩ := p
        simp only [h1] at h
        exact stepOK_trans (stepOK_bump_of_lt hlt)
          (stepOK_trans (ih.equality_expr ts (bump s) b1 s1 h1) (ih.land_loop ts s1 s' h))
    · simp only [Option.some.injEq] at h
      subst h
      exact stepOK_refl _ _

theorem pres_logical_and_expr (n : Nat) (ih : Pres n) :
    ∀ ts s b s', logical_and_expr ts (n+1) s = some (b, s') → StepOK ts.length s s' := by
  intro ts s b s' h
  simp only [logical_and_expr] at h
  cases h1 : equality_expr ts n s with
  | none => simp [h1] at h
  | some p =>
    obtain ⟨b1, s1⟩ := p
    simp only [h1] at h
    cases h2 : land_loop ts n s1 with
    | none => simp [h2] at h
    | some s2 =>
      simp only [h2, Option.some.injEq, Prod.mk.injEq] at h
      obtain ⟨hb, hs⟩ := h
      subst hs
      exact stepOK_trans (ih.equality_expr ts s b1 s1 h1) (ih.land_loop ts s1 s2 h2)

theorem pres_lor_loop (n : Nat) (ih : Pres n) :
    ∀ ts s s', lor_loop ts (n+1) s = some s' → StepOK ts.length s s' := by
  intro ts s s' h
  simp only [lor_loop] at h
  cases hc : current_token ts s with
  | none =>
    simp only [hc, Option.some.injEq] at h
    subst h
    exact stepOK_refl _ _
  | some t =>
    have hlt := current_token_some_lt hc
    simp only [hc] at h
    split at h
    · cases h1 : logical_and_expr ts n (bump s) with
      | none => simp [h1] at h
      | some p =>
        obtain ⟨b1, s1⟩ := p
        simp only [h1] at h
        exact stepOK_trans (stepOK_bump_of_lt hlt)
          (stepOK_trans (ih.logical_and_expr ts (bump s) b1 s1 h1) (ih.lor_loop ts s1 s' h))
    · simp only [Option.some.injEq] at h
      subst h
      exact stepOK_refl _ _

theorem pres_logical_or_expr (n : Nat) (ih : Pres n) :
    ∀ ts s b s', logical_or_expr ts (n+1) s = some (b, s') → StepOK ts.length s s' := by
  intro ts s b s' h
  simp only [logical_or_expr] at h
  cases h1 : logical_and_expr ts n s with
  | none => simp [h1] at h
  | some p =>
    obtain ⟨b1, s1⟩ := p
    simp only [h1] at h
    cases h2 : lor_loop ts n s1 with
    | none => simp [h2] at h
    | some s2 =>
      simp only [h2, Option.some.injEq, Prod.mk.injEq] at h
      obtain ⟨hb, hs⟩ := h
      subst hs
      exact stepOK_trans (ih.logical_and_expr ts s b1 s1 h1) (ih.lor_loop ts s1 s2 h2)

theorem pres_expression (n : Nat) (ih : Pres n) :
    ∀ ts s b s', expression ts (n+1) s = some (b, s') → StepOK ts.length s s' := by
  intro ts s b s' h
  simp only [expression] at h
  exact ih.logical_or_expr ts s b s' h

end Cpp

namespace Cpp

theorem pres_comma_init_loop (n : Nat) (ih : Pres n) :
    ∀ ts s b s', comma_init_loop ts (n+1) s = some (b, s') → StepOK ts.length s s' := by
  intro ts s b s' h
  simp only [comma_init_loop] at h
  cases hc : current_token ts s with
  | none =>
    simp only [hc, Option.some.injEq, Prod.mk.injEq] at h
    obtain ⟨hb, hs⟩ := h
    subst hs
    exact stepOK_refl _ _
  | some t =>
    have hlt := current_token_some_lt hc
    simp only [hc] at h
    split at h
    · cases hE : expect ts (bump s) (some "IDENTIFIER") none none with
      | mk b1 s1 =>
        have hEs := expect_stepOK ts (bump s) (some "IDENTIFIER") none none
        rw [hE] at hEs
        have hs01 : StepOK ts.length s s1 := stepOK_trans (stepOK_bump_of_lt hlt) hEs
        cases b1 with
        | false =>
          simp only [hE, Option.some.injEq, Prod.mk.injEq] at h
          obtain ⟨hb, hs⟩ := h
          subst hs
          exact hs01
        | true =>
          simp only [hE] at h
          cases hc2 : current_token ts s1 with
          | none =>
            simp only [hc2] at h
            exact stepOK_trans hs01 (ih.comma_init_loop ts s1 b s' h)
          | some t2 =>
            have hlt2 := current_token_some_lt hc2
            simp only [hc2] at h
            split at h
            · cases h2 : expression ts n (bump s1) with
              | none => simp [h2] at h
              | some p =>
                obtain ⟨b2, s2⟩ := p
                simp only [h2] at h
                exact stepOK_trans hs01 (stepOK_trans (stepOK_bump_of_lt hlt2)
                  (stepOK_trans (ih.expression ts (bump s1) b2 s2 h2)
                    (ih.comma_init_loop ts s2 b s' h)))
            · exact stepOK_trans hs01 (ih.comma_init_loop ts s1 b s' h)
    · simp only [Option.some.injEq, Prod.mk.injEq] at h
      obtain ⟨hb, hs⟩ := h
      subst hs
      exact stepOK_refl _ _

theorem pres_expression_statement (n : Nat) (ih : Pres n) :
    ∀ ts s b s', expression_statement ts (n+1) s = some (b, s') →
      StepOK ts.length s s' ∧ (b = true → s.pos < s'.pos) := by
  intro ts s b s' h
  simp only [expression_statement] at h
  cases h1 : expression ts n s with
  | none => simp [h1] at h
  | some p =>
    obtain ⟨b1, s1⟩ := p
    simp only [h1] at h
    have hs01 := ih.expression ts s b1 s1 h1
    cases hE : expect ts s1 (some "SPECIAL CHARACTER") (some ";") none with
    | mk b2 s2 =>
      have hEs := expect_stepOK ts s1 (some "SPECIAL CHARACTER") (some ";") none
      rw [hE] at hEs
      cases b2 with
      | false =>
        simp only [hE, Option.some.injEq, Prod.mk.injEq] at h
        obtain ⟨hb, hs⟩ := h
        subst hs
        exact ⟨stepOK_trans hs01 hEs, by simp [← hb]⟩
      | true =>
        simp only [hE, Option.some.injEq, Prod.mk.injEq] at h
        obtain ⟨hb, hs⟩ := h
        subst hs
        obtain ⟨hbump, hlt1⟩ := expect_true hE
        subst hbump
        refine ⟨stepOK_trans hs01 hEs, fun _ => ?_⟩
        have := hs01.1
        simp only [bump_pos]
        omega

end Cpp

namespace Cpp

theorem pres_assign_tail (n : Nat) (ih : Pres n) :
    ∀ ts s b s', assign_tail ts (n+1) s = some (b, s') →
      StepOK ts.length s s' ∧ (b = true → s.pos < s'.pos) := by
  intro ts s b s' h
  simp only [assign_tail] at h
  split at h
  · exact absurd h (by simp)
  · rename_i s1 heq
    have hs01 : StepOK ts.length s s1 := by
      cases hc : current_token ts s with
      | none =>
        rw [hc] at heq
        simp only [Option.some.injEq] at heq
        subst heq
        exact stepOK_refl _ _
      | some t =>
        have hlt := current_token_some_lt hc
        rw [hc] at heq
        simp only [] at heq
        split at heq
        · cases h1 : expression ts n (bump s) with
          | none => rw [h1] at heq; exact absurd heq (by simp)
          | some p =>
            obtain ⟨b1, s1x⟩ := p
            rw [h1] at heq
            simp only [Option.some.injEq] at heq
            subst heq
            exact stepOK_trans (stepOK_bump_of_lt hlt) (ih.expression ts (bump s) b1 s1x h1)
        · simp only [Option.some.injEq] at heq
          subst heq
          exact stepOK_refl _ _
    cases hE : expect ts s1 (some "SPECIAL CHARACTER") (some ";") none with
    | mk b2 s2 =>
      have hEs := expect_stepOK ts s1 (some "SPECIAL CHARACTER") (some ";") none
      rw [hE] at hEs
      cases b2 with
      | false =>
        simp only [hE, Option.some.injEq, Prod.mk.injEq] at h
        obtain ⟨hb, hs⟩ := h
        subst hs
        exact ⟨stepOK_trans hs01 hEs, by simp [← hb]⟩
      | true =>
        simp only [hE, Option.some.injEq, Prod.mk.injEq] at h
        obtain ⟨hb, hs⟩ := h
        subst hs
        obtain ⟨hbump, hlt1⟩ := expect_true hE
        subst hbump
        refine ⟨stepOK_trans hs01 hEs, fun _ => ?_⟩
        have := hs01.1
        simp only [bump_pos]
        omega

end Cpp

namespace Cpp

theorem datatype_cases (ts : List Tok) (s : St) :
    datatype ts s = (false, s) ∨ (datatype ts s = (true, bump s) ∧ s.pos < ts.length) := by
  cases hc : current_token ts s with
  | none =>
    left
    simp only [datatype, hc]
  | some t =>
    have hlt := current_token_some_lt hc
    by_cases hcond : t.type = "KEYWORD" ∧ t.value ∈ datatypes
    · right
      refine ⟨?_, hlt⟩
      simp only [datatype, hc, if_pos hcond]
    · left
      simp only [datatype, hc, if_neg hcond]

theorem pres_return_statement (n : Nat) (ih : Pres n) :
    ∀ ts s b s', return_statement ts (n+1) s = some (b, s') → StepAdv ts.length s s' := by
  intro ts s b s' h
  simp only [return_statement] at h
  split at h
  · exact absurd h (by simp)
  · rename_i s2 heq
    have hs02 : StepOK ts.length (bump s) s2 := by
      cases hc : current_token ts (bump s) with
      | none =>
        rw [hc] at heq
        simp only [Option.some.injEq] at heq
        subst heq
        exact stepOK_refl _ _
      | some t =>
        rw [hc] at heq
        simp only [] at heq
        split at heq
        · cases h1 : expression ts n (bump s) with
          | none => rw [h1] at heq; exact absurd heq (by simp)
          | some p =>
            obtain ⟨b1, s1x⟩ := p
            rw [h1] at heq
            simp only [Option.some.injEq] at heq
            subst heq
            exact ih.expression ts (bump s) b1 s1x h1
        · simp only [Option.some.injEq] at heq
          subst heq
          exact stepOK_refl _ _
    cases hE : expect ts s2 (some "SPECIAL CHARACTER") (some ";") none with
    | mk b2 s3 =>
      have hEs := expect_stepOK ts s2 (some "SPECIAL CHARACTER") (some ";") none
      rw [hE] at hEs
      cases b2 <;>
        · simp only [hE, Option.some.injEq, Prod.mk.injEq] at h
          obtain ⟨hb, hs⟩ := h
          subst hs
          exact stepAdv_of_bump_stepOK (stepOK_trans hs02 hEs)

theorem pres_while_statement (n : Nat) (ih : Pres n) :
    ∀ ts s b s', while_statement ts (n+1) s = some (b, s') → StepAdv ts.length s s' := by
  intro ts s b s' h
  simp only [while_statement] at h
  cases hE1 : expect ts (bump s) (some "SPECIAL CHARACTER") (some "(") none with
  | mk b1 s2 =>
    have hE1s := expect_stepOK ts (bump s) (some "SPECIAL CHARACTER") (some "(") none
    rw [hE1] at hE1s
    cases b1 with
    | false =>
      simp only [hE1, Option.some.injEq, Prod.mk.injEq] at h
      obtain ⟨hb, hs⟩ := h
      subst hs
      exact stepAdv_of_bump_stepOK hE1s
    | true =>
      simp only [hE1] at h
      cases h2 : expression ts n s2 with
      | none => simp [h2] at h
      | some p =>
        obtain ⟨b2, s3⟩ := p
        simp only [h2] at h
        have hs03 : StepOK ts.length (bump s) s3 :=
          stepOK_trans hE1s (ih.expression ts s2 b2 s3 h2)
        cases hE2 : expect ts s3 (some "SPECIAL CHARACTER") (some ")") none with
        | mk b3 s4 =>
          have hE2s := expect_stepOK ts s3 (some "SPECIAL CHARACTER") (some ")") none
          rw [hE2] at hE2s
          cases b3 with
          | false =>
            simp only [hE2, Option.some.injEq, Prod.mk.injEq] at h
            obtain ⟨hb, hs⟩ := h
            subst hs
            exact stepAdv_of_bump_stepOK (stepOK_trans hs03 hE2s)
          | true =>
            simp only [hE2] at h
            have hs04 : StepOK ts.length (bump s) s4 := stepOK_trans hs03 hE2s
            split at h
            · exact absurd h (by simp)
            · rename_i s5 heq
              have hs05 : StepOK ts.length (bump s) s5 := by
                cases hc : current_token ts s4 with
                | none =>
                  rw [hc] at heq
                  simp only [] at heq
                  cases hx : x ts n s4 with
                  | none => rw [hx] at heq; exact absurd heq (by simp)
                  | some p =>
                    obtain ⟨bx, sx⟩ := p
                    rw [hx] at heq
                    simp only [Option.some.injEq] at heq
                    subst heq
                    exact stepOK_trans hs04 (ih.x ts s4 bx sx hx).1
                | some t =>
                  rw [hc] at heq
                  simp only [] at heq
                  split at heq
                  · cases hb2 : block ts n s4 with
                    | none => rw [hb2] at heq; exact absurd heq (by simp)
                    | some p =>
                      obtain ⟨bb, sb⟩ := p
                      rw [hb2] at heq
                      simp only [Option.some.injEq] at heq
                      subst heq
                      exact stepOK_trans hs04 (ih.block ts s4 bb sb hb2)
                  · cases hx : x ts n s4 with
                    | none => rw [hx] at heq; exact absurd heq (by simp)
                    | some p =>
                      obtain ⟨bx, sx⟩ := p
                      rw [hx] at heq
                      simp only [Option.some.injEq] at heq
                      subst heq
                      exact stepOK_trans hs04 (ih.x ts s4 bx sx hx).1
              simp only [Option.some.injEq, Prod.mk.injEq] at h
              obtain ⟨hb, hs⟩ := h
              subst hs
              exact stepAdv_of_bump_stepOK hs05

end Cpp

namespace Cpp

/-- Shared shape of the `{ block } or single statement` body choice used by
`if_statement`, `while_statement`, `for_statement`. -/
theorem pres_body_choice (n : Nat) (ih : Pres n) (ts : List Tok) (s4 s5 : St)
    (heq : (match current_token ts s4 with
      | some t =>
        if t.type = "SPECIAL CHARACTER" ∧ t.value = "\x7b" then
          match block ts n s4 with
          | none => none
          | some (_, sb) => some sb
        else
          match x ts n s4 with
          | none => none
          | some (_, sb) => some sb
      | none =>
        match x ts n s4 with
        | none => none
        | some (_, sb) => some sb) = some s5) :
    StepOK ts.length s4 s5 := by
  cases hc : current_token ts s4 with
  | none =>
    rw [hc] at heq
    simp only [] at heq
    cases hx : x ts n s4 with
    | none => rw [hx] at heq; exact absurd heq (by simp)
    | some p =>
      obtain ⟨bx, sx⟩ := p
      rw [hx] at heq
      simp only [Option.some.injEq] at heq
      subst heq
      exact (ih.x ts s4 bx sx hx).1
  | some t =>
    rw [hc] at heq
    simp only [] at heq
    split at heq
    · cases hb2 : block ts n s4 with
      | none => rw [hb2] at heq; exact absurd heq (by simp)
      | some p =>
        obtain ⟨bb, sb⟩ := p
        rw [hb2] at heq
        simp only [Option.some.injEq] at heq
        subst heq
        exact ih.block ts s4 bb sb hb2
    · cases hx : x ts n s4 with
      | none => rw [hx] at heq; exact absurd heq (by simp)
      | some p =>
        obtain ⟨bx, sx⟩ := p
        rw [hx] at heq
        simp only [Option.some.injEq] at heq
        subst heq
        exact (ih.x ts s4 bx sx hx).1

theorem pres_if_statement (n : Nat) (ih : Pres n) :
    ∀ ts s b s', if_statement ts (n+1) s = some (b, s') → StepAdv ts.length s s' := by
  intro ts s b s' h
  simp only [if_statement] at h
  cases hE1 : expect ts (bump s) (some "SPECIAL CHARACTER") (some "(") none with
  | mk b1 s2 =>
    have hE1s := expect_stepOK ts (bump s) (some "SPECIAL CHARACTER") (some "(") none
    rw [hE1] at hE1s
    cases b1 with
    | false =>
      simp only [hE1, Option.some.injEq, Prod.mk.injEq] at h
      obtain ⟨hb, hs⟩ := h
      subst hs
      exact stepAdv_of_bump_stepOK hE1s
    | true =>
      simp only [hE1] at h
      cases h2 : expression ts n s2 with
      | none => simp [h2] at h
      | some p =>
        obtain ⟨b2, s3⟩ := p
        simp only [h2] at h
        have hs03 : StepOK ts.length (bump s) s3 :=
          stepOK_trans hE1s (ih.expression ts s2 b2 s3 h2)
        cases hE2 : expect ts s3 (some "SPECIAL CHARACTER") (some ")") none with
        | mk b3 s4 =>
          have hE2s := expect_stepOK ts s3 (some "SPECIAL CHARACTER") (some ")") none
          rw [hE2] at hE2s
          cases b3 with
          | false =>
            simp only [hE2, Option.some.injEq, Prod.mk.injEq] at h
            obtain ⟨hb, hs⟩ := h
            subst hs
            exact stepAdv_of_bump_stepOK (stepOK_trans hs03 hE2s)
          | true =>
            simp only [hE2] at h
            have hs04 : StepOK ts.length (bump s) s4 := stepOK_trans hs03 hE2s
            split at h
            · exact absurd h (by simp)
            · rename_i s5 heq
              have hs05 : StepOK ts.length (bump s) s5 :=
                stepOK_trans hs04 (pres_body_choice n ih ts s4 s5 heq)
              cases hc5 : current_token ts s5 with
              | none =>
                simp only [hc5, Option.some.injEq, Prod.mk.injEq] at h
                obtain ⟨hb, hs⟩ := h
                subst hs
                exact stepAdv_of_bump_stepOK hs05
              | some t5 =>
                have hlt5 := current_token_some_lt hc5
                simp only [hc5] at h
                split at h
                · split at h
                  · exact absurd h (by simp)
                  · rename_i s6 heq2
                    have hs06 : StepOK ts.length (bump s) s6 :=
                      stepOK_trans hs05 (stepOK_trans (stepOK_bump_of_lt hlt5)
                        (pres_body_choice n ih ts (bump s5) s6 heq2))
                    simp only [Option.some.injEq, Prod.mk.injEq] at h
                    obtain ⟨hb, hs⟩ := h
                    subst hs
                    exact stepAdv_of_bump_stepOK hs06
                · simp only [Option.some.injEq, Prod.mk.injEq] at h
                  obtain ⟨hb, hs⟩ := h
                  subst hs
                  exact stepAdv_of_bump_stepOK hs05

end Cpp

namespace Cpp

theorem pres_for_statement (n : Nat) (ih : Pres n) :
    ∀ ts s b s', for_statement ts (n+1) s = some (b, s') → StepAdv ts.length s s' := by
  intro ts s b s' h
  simp only [for_statement] at h
  cases hE1 : expect ts (bump s) (some "SPECIAL CHARACTER") (some "(") none with
  | mk b1 s2 =>
    have hE1s := expect_stepOK ts (bump s) (some "SPECIAL CHARACTER") (some "(") none
    rw [hE1] at hE1s
    cases b1 with
    | false =>
      simp only [hE1, Option.some.injEq, Prod.mk.injEq] at h
      obtain ⟨hb, hs⟩ := h
      subst hs
      exact stepAdv_of_bump_stepOK hE1s
    | true =>
      simp only [hE1] at h
      split at h
      · exact absurd h (by simp)
      · rename_i s3 heq1
        have hs23 : StepOK ts.length s2 s3 := by
          cases hc2 : current_token ts s2 with
          | none =>
            rw [hc2] at heq1
            simp only [] at heq1
            cases hex : expression ts n s2 with
            | none => rw [hex] at heq1; exact absurd heq1 (by simp)
            | some p =>
              obtain ⟨be, se⟩ := p
              rw [hex] at heq1
              simp only [Option.some.injEq] at heq1
              subst heq1
              exact stepOK_trans (ih.expression ts s2 be se hex)
                (expect_stepOK ts se (some "SPECIAL CHARACTER") (some ";") none)
          | some t2 =>
            rw [hc2] at heq1
            simp only [] at heq1
            split at heq1
            · cases ha : assign ts n s2 with
              | none => rw [ha] at heq1; exact absurd heq1 (by simp)
              | some p =>
                obtain ⟨ba, sa⟩ := p
                rw [ha] at heq1
                simp only [Option.some.injEq] at heq1
                subst heq1
                exact (ih.assign ts s2 ba sa ha).1
            · cases hex : expression ts n s2 with
              | none => rw [hex] at heq1; exact absurd heq1 (by simp)
              | some p =>
                obtain ⟨be, se⟩ := p
                rw [hex] at heq1
                simp only [Option.some.injEq] at heq1
                subst heq1
                exact stepOK_trans (ih.expression ts s2 be se hex)
                  (expect_stepOK ts se (some "SPECIAL CHARACTER") (some ";") none)
        have hs03 : StepOK ts.length (bump s) s3 := stepOK_trans hE1s hs23
        split at h
        · exact absurd h (by simp)
        · rename_i s4 heq2
          have hs34 : StepOK ts.length s3 s4 := by
            cases hc3 : current_token ts s3 with
            | none =>
              rw [hc3] at heq2
              simp only [Option.some.injEq] at heq2
              subst heq2
              exact stepOK_refl _ _
            | some t3 =>
              rw [hc3] at heq2
              simp only [] at heq2
              split at heq2
              · cases hex : expression ts n s3 with
                | none => rw [hex] at heq2; exact absurd heq2 (by simp)
                | some p =>
                  obtain ⟨be, se⟩ := p
                  rw [hex] at heq2
                  simp only [Option.some.injEq] at heq2
                  subst heq2
                  exact ih.expression ts s3 be se hex
              · simp only [Option.some.injEq] at heq2
                subst heq2
                exact stepOK_refl _ _
          have hs04 : StepOK ts.length (bump s) s4 := stepOK_trans hs03 hs34
          have hE3s := expect_stepOK ts s4 (some "SPECIAL CHARACTER") (some ";") none
          split at h
          · exact absurd h (by simp)
          · rename_i s6 heq3
            have hs46 : StepOK ts.length
                (expect ts s4 (some "SPECIAL CHARACTER") (some ";") none).2 s6 := by
              cases hc5 : current_token ts
                  (expect ts s4 (some "SPECIAL CHARACTER") (some ";") none).2 with
              | none =>
                rw [hc5] at heq3
                simp only [Option.some.injEq] at heq3
                subst heq3
                exact stepOK_refl _ _
              | some t5 =>
                rw [hc5] at heq3
                simp only [] at heq3
                split at heq3
                · cases hex : expression ts n
                      (expect ts s4 (some "SPECIAL CHARACTER") (some ";") none).2 with
                  | none => rw [hex] at heq3; exact absurd heq3 (by simp)
                  | some p =>
                    obtain ⟨be, se⟩ := p
                    rw [hex] at heq3
                    simp only [Option.some.injEq] at heq3
                    subst heq3
                    exact ih.expression ts _ be se hex
                · simp only [Option.some.injEq] at heq3
                  subst heq3
                  exact stepOK_refl _ _
            have hs06 : StepOK ts.length (bump s) s6 :=
              stepOK_trans hs04 (stepOK_trans hE3s hs46)
            cases hE5 : expect ts s6 (some "SPECIAL CHARACTER") (some ")") none with
            | mk b7 s7 =>
              have hE5s := expect_stepOK ts s6 (some "SPECIAL CHARACTER") (some ")") none
              rw [hE5] at hE5s
              cases b7 with
              | false =>
                simp only [hE5, Option.some.injEq, Prod.mk.injEq] at h
                obtain ⟨hb, hs⟩ := h
                subst hs
                exact stepAdv_of_bump_stepOK (stepOK_trans hs06 hE5s)
              | true =>
                simp only [hE5] at h
                split at h
                · exact absurd h (by simp)
                · rename_i s8 heq4
                  have hs78 : StepOK ts.length s7 s8 := pres_body_choice n ih ts s7 s8 heq4
                  simp only [Option.some.injEq, Prod.mk.injEq] at h
                  obtain ⟨hb, hs⟩ := h
                  subst hs
                  exact stepAdv_of_bump_stepOK
                    (stepOK_trans hs06 (stepOK_trans hE5s hs78))

end Cpp

namespace Cpp

theorem pres_assign (n : Nat) (ih : Pres n) :
    ∀ ts s b s', assign ts (n+1) s = some (b, s') →
      StepOK ts.length s s' ∧ (b = true → s.pos < s'.pos) := by
  intro ts s b s' h
  simp only [assign] at h
  cases hc : current_token ts s with
  | none => simp [hc] at h
  | some tok =>
    have hlt := current_token_some_lt hc
    simp only [hc] at h
    split at h
    · cases hE : expect ts (bump s) (some "IDENTIFIER") none none with
      | mk b1 s2 =>
        have hEs := expect_stepOK ts (bump s) (some "IDENTIFIER") none none
        rw [hE] at hEs
        have hs02 : StepOK ts.length s s2 := stepOK_trans (stepOK_bump_of_lt hlt) hEs
        have hadv2 : s.pos < s2.pos := by
          have := hEs.1
          simp only [bump_pos] at this
          omega
        cases b1 with
        | false =>
          simp only [hE, Option.some.injEq, Prod.mk.injEq] at h
          obtain ⟨hb, hs⟩ := h
          subst hs
          exact ⟨hs02, by simp [← hb]⟩
        | true =>
          simp only [hE] at h
          cases hcl : comma_init_loop ts n s2 with
          | none => simp [hcl] at h
          | some p =>
            obtain ⟨b3, s3⟩ := p
            have hs23 := ih.comma_init_loop ts s2 b3 s3 hcl
            cases b3 with
            | false =>
              simp only [hcl, Option.some.injEq, Prod.mk.injEq] at h
              obtain ⟨hb, hs⟩ := h
              subst hs
              exact ⟨stepOK_trans hs02 hs23, by simp [← hb]⟩
            | true =>
              simp only [hcl] at h
              have hst := ih.assign_tail ts s3 b s' h
              refine ⟨stepOK_trans hs02 (stepOK_trans hs23 hst.1), fun _ => ?_⟩
              have h1 := hs23.1
              have h2 := hst.1.1
              omega
    · cases hE : expect ts s (some "IDENTIFIER") none none with
      | mk b1 s2 =>
        have hEs := expect_stepOK ts s (some "IDENTIFIER") none none
        rw [hE] at hEs
        cases b1 with
        | false =>
          simp only [hE, Option.some.injEq, Prod.mk.injEq] at h
          obtain ⟨hb, hs⟩ := h
          subst hs
          exact ⟨hEs, by simp [← hb]⟩
        | true =>
          simp only [hE] at h
          obtain ⟨hbump, hlt1⟩ := expect_true hE
          subst hbump
          have hst := ih.assign_tail ts (bump s) b s' h
          refine ⟨stepOK_trans hEs hst.1, fun _ => ?_⟩
          have h2 := hst.1.1
          simp only [bump_pos] at h2
          omega

theorem pres_x (n : Nat) (ih : Pres n) :
    ∀ ts s b s', x ts (n+1) s = some (b, s') →
      StepOK ts.length s s' ∧ (b = true → s.pos < s'.pos) := by
  intro ts s b s' h
  simp only [x] at h
  cases hc : current_token ts s with
  | none =>
    simp only [hc, Option.some.injEq, Prod.mk.injEq] at h
    obtain ⟨hb, hs⟩ := h
    subst hs
    exact ⟨stepOK_refl _ _, by simp [← hb]⟩
  | some tok =>
    have hlt := current_token_some_lt hc
    simp only [hc] at h
    have hAdv : ∀ hx : StepAdv ts.length s s',
        StepOK ts.length s s' ∧ (b = true → s.pos < s'.pos) :=
      fun hx => ⟨stepOK_of_stepAdv hx hlt, fun _ => hx.1⟩
    split at h
    · cases hp2 : peek_token ts s 2 with
      | some nn =>
        simp only [hp2] at h
        split at h
        · exact ih.func ts s b s' h
        · exact ih.assign ts s b s' h
      | none =>
        simp only [hp2] at h
        exact ih.assign ts s b s' h
    · split at h
      · exact hAdv (ih.if_statement ts s b s' h)
      · split at h
        · exact hAdv (ih.while_statement ts s b s' h)
        · split at h
          · exact hAdv (ih.for_statement ts s b s' h)
          · split at h
            · exact hAdv (ih.return_statement ts s b s' h)
            · split at h
              · cases hp1 : peek_token ts s 1 with
                | some nt =>
                  simp only [hp1] at h
                  split at h
                  · exact ih.assign ts s b s' h
                  · exact ih.expression_statement ts s b s' h
                | none =>
                  simp only [hp1] at h
                  exact ih.expression_statement ts s b s' h
              · simp only [Option.some.injEq, Prod.mk.injEq] at h
                obtain ⟨hb, hs⟩ := h
                subst hs
                exact ⟨stepOK_refl _ _, by simp [← hb]⟩

theorem pres_block_loop (n : Nat) (ih : Pres n) :
    ∀ ts s b s', block_loop ts (n+1) s = some (b, s') → StepOK ts.length s s' := by
  intro ts s b s' h
  simp only [block_loop] at h
  cases hc : current_token ts s with
  | none =>
    simp only [hc, Option.some.injEq, Prod.mk.injEq] at h
    obtain ⟨hb, hs⟩ := h
    subst hs
    exact stepOK_of_pos_eq (by simp)
  | some t =>
    have hlt := current_token_some_lt hc
    simp only [hc] at h
    split at h
    · simp only [Option.some.injEq, Prod.mk.injEq] at h
      obtain ⟨hb, hs⟩ := h
      subst hs
      exact stepOK_bump_of_lt hlt
    · cases hx : x ts n s with
      | none => simp [hx] at h
      | some p =>
        obtain ⟨bx, s1⟩ := p
        have hsx := (ih.x ts s bx s1 hx).1
        cases bx with
        | false =>
          simp only [hx, Option.some.injEq, Prod.mk.injEq] at h
          obtain ⟨hb, hs⟩ := h
          subst hs
          exact stepOK_trans hsx (stepOK_of_pos_eq (by simp))
        | true =>
          simp only [hx] at h
          exact stepOK_trans hsx (ih.block_loop ts s1 b s' h)

theorem pres_block (n : Nat) (ih : Pres n) :
    ∀ ts s b s', block ts (n+1) s = some (b, s') → StepOK ts.length s s' := by
  intro ts s b s' h
  simp only [block] at h
  cases hE : expect ts s (some "SPECIAL CHARACTER") (some "\x7b") none with
  | mk b1 s1 =>
    have hEs := expect_stepOK ts s (some "SPECIAL CHARACTER") (some "\x7b") none
    rw [hE] at hEs
    cases b1 with
    | false =>
      simp only [hE, Option.some.injEq, Prod.mk.injEq] at h
      obtain ⟨hb, hs⟩ := h
      subst hs
      exact hEs
    | true =>
      simp only [hE] at h
      exact stepOK_trans hEs (ih.block_loop ts s1 b s' h)

end Cpp


namespace Cpp

theorem pres_func (n : Nat) (ih : Pres n) :
    ∀ ts s b s', func ts (n+1) s = some (b, s') →
      StepOK ts.length s s' ∧ (b = true → s.pos < s'.pos) := by
  intro ts s b s' h
  simp only [func] at h
  cases hc : current_token ts s with
  | none =>
    simp only [hc, Option.some.injEq, Prod.mk.injEq] at h
    obtain ⟨hb, hs⟩ := h
    subst hs
    exact ⟨stepOK_refl _ _, by simp [← hb]⟩
  | some tok0 =>
    simp only [hc] at h
    rcases datatype_cases ts s with hd | ⟨hd, hlt⟩
    · rw [hd] at h
      simp only [Option.some.injEq, Prod.mk.injEq] at h
      obtain ⟨hb, hs⟩ := h
      subst hs
      exact ⟨stepOK_refl _ _, by simp [← hb]⟩
    · rw [hd] at h
      have tailStep : ∀ s9 : St, StepOK ts.length (bump s) s9 →
          StepOK ts.length s s9 ∧ (b = true → s.pos < s9.pos) := by
        intro s9 h9
        have h1 := h9.1
        simp only [bump_pos] at h1
        exact ⟨⟨by omega, fun _ => h9.2 (by simp; omega)⟩, fun _ => by omega⟩
      cases hc1 : current_token ts (bump s) with
      | none =>
        simp only [hc1, Option.some.injEq, Prod.mk.injEq] at h
        obtain ⟨hb, hs⟩ := h
        subst hs
        exact tailStep _ (stepOK_of_pos_eq (by simp))
      | some tok =>
        have hlt1 := current_token_some_lt hc1
        simp only [bump_pos] at hlt1
        simp only [hc1] at h
        split at h
        · simp only [Option.some.injEq, Prod.mk.injEq] at h
          obtain ⟨hb, hs⟩ := h
          subst hs
          exact tailStep _ (stepOK_of_pos_eq (by simp))
        · have continueFrom : ∀ s2v : St, s2v.pos = s.pos + 1 →
              ∀ htail : (match expect ts (bump s2v) (some "SPECIAL CHARACTER") (some "(") none with
                | (false, s4) => some (false, s4)
                | (true, s4) =>
                  match expect ts s4 (some "SPECIAL CHARACTER") (some ")") none with
                  | (false, s5) => some (false, s5)
                  | (true, s5) => block ts n s5) = some (b, s'),
              StepOK ts.length s s' ∧ (b = true → s.pos < s'.pos) := by
            intro s2v hpos htail
            have hstep0 : StepOK ts.length (bump s) (bump s2v) :=
              ⟨by simp; omega, fun _ => by simp; omega⟩
            cases hE1 : expect ts (bump s2v) (some "SPECIAL CHARACTER") (some "(") none with
            | mk b1 s4 =>
              have hE1s := expect_stepOK ts (bump s2v) (some "SPECIAL CHARACTER") (some "(") none
              rw [hE1] at hE1s
              have hs04 : StepOK ts.length (bump s) s4 := stepOK_trans hstep0 hE1s
              cases b1 with
              | false =>
                simp only [hE1, Option.some.injEq, Prod.mk.injEq] at htail
                obtain ⟨hb, hs⟩ := htail
                subst hs
                exact tailStep _ hs04
              | true =>
                simp only [hE1] at htail
                cases hE2 : expect ts s4 (some "SPECIAL CHARACTER") (some ")") none with
                | mk b2 s5 =>
                  have hE2s := expect_stepOK ts s4 (some "SPECIAL CHARACTER") (some ")") none
                  rw [hE2] at hE2s
                  have hs05 : StepOK ts.length (bump s) s5 := stepOK_trans hs04 hE2s
                  cases b2 with
                  | false =>
                    simp only [hE2, Option.some.injEq, Prod.mk.injEq] at htail
                    obtain ⟨hb, hs⟩ := htail
                    subst hs
                    exact tailStep _ hs05
                  | true =>
                    simp only [hE2] at htail
                    exact tailStep _ (stepOK_trans hs05 (ih.block ts s5 b s' htail))
          by_cases hmain : tok.value = "main"
          · rw [if_pos hmain] at h
            exact continueFrom (setMain (bump s)) (by simp) h
          · rw [if_neg hmain] at h
            exact continueFrom (bump s) (by simp) h

theorem pres_global_variable (n : Nat) (ih : Pres n) :
    ∀ ts s b s', global_variable ts (n+1) s = some (b, s') → StepAdv ts.length s s' := by
  intro ts s b s' h
  simp only [global_variable] at h
  cases hE : expect ts (bump s) (some "IDENTIFIER") none none with
  | mk b1 s1 =>
    have hEs := expect_stepOK ts (bump s) (some "IDENTIFIER") none none
    rw [hE] at hEs
    cases b1 with
    | false =>
      simp only [hE, Option.some.injEq, Prod.mk.injEq] at h
      obtain ⟨hb, hs⟩ := h
      subst hs
      exact stepAdv_of_bump_stepOK hEs
    | true =>
      simp only [hE] at h
      split at h
      · exact absurd h (by simp)
      · rename_i s2 heq
        have hs12 : StepOK ts.length s1 s2 := by
          cases hc1 : current_token ts s1 with
          | none =>
            rw [hc1] at heq
            simp only [Option.some.injEq] at heq
            subst heq
            exact stepOK_refl _ _
          | some t1 =>
            have hlt1 := current_token_some_lt hc1
            rw [hc1] at heq
            simp only [] at heq
            split at heq
            · cases hex : expression ts n (bump s1) with
              | none => rw [hex] at heq; exact absurd heq (by simp)
              | some p =>
                obtain ⟨be, se⟩ := p
                rw [hex] at heq
                simp only [Option.some.injEq] at heq
                subst heq
                exact stepOK_trans (stepOK_bump_of_lt hlt1)
                  (ih.expression ts (bump s1) be se hex)
            · simp only [Option.some.injEq] at heq
              subst heq
              exact stepOK_refl _ _
        cases hcl : comma_init_loop ts n s2 with
        | none => simp [hcl] at h
        | some p =>
          obtain ⟨b3, s3⟩ := p
          have hs23 := ih.comma_init_loop ts s2 b3 s3 hcl
          have hs13 : StepOK ts.length s1 s3 := stepOK_trans hs12 hs23
          cases b3 with
          | false =>
            simp only [hcl, Option.some.injEq, Prod.mk.injEq] at h
            obtain ⟨hb, hs⟩ := h
            subst hs
            exact stepAdv_of_bump_stepOK (stepOK_trans hEs hs13)
          | true =>
            simp only [hcl] at h
            cases hE2 : expect ts s3 (some "SPECIAL CHARACTER") (some ";") none with
            | mk b4 s4 =>
              have hE2s := expect_stepOK ts s3 (some "SPECIAL CHARACTER") (some ";") none
              rw [hE2] at hE2s
              cases b4 <;>
                · simp only [hE2, Option.some.injEq, Prod.mk.injEq] at h
                  obtain ⟨hb, hs⟩ := h
                  subst hs
                  exact stepAdv_of_bump_stepOK
                    (stepOK_trans hEs (stepOK_trans hs13 hE2s))

theorem pres_global_declaration (n : Nat) (ih : Pres n) :
    ∀ ts s b s', global_declaration ts (n+1) s = some (b, s') →
      StepOK ts.length s s' ∧ (b = true → s.pos < s'.pos) := by
  intro ts s b s' h
  simp only [global_declaration] at h
  cases hc : current_token ts s with
  | none =>
    simp only [hc, Option.some.injEq, Prod.mk.injEq] at h
    obtain ⟨hb, hs⟩ := h
    subst hs
    exact ⟨stepOK_refl _ _, by simp [← hb]⟩
  | some tok =>
    have hlt := current_token_some_lt hc
    simp only [hc] at h
    have hgv : ∀ hg : global_variable ts n s = some (b, s'),
        StepOK ts.length s s' ∧ (b = true → s.pos < s'.pos) := by
      intro hg
      have := ih.global_variable ts s b s' hg
      exact ⟨stepOK_of_stepAdv this hlt, fun _ => this.1⟩
    split at h
    · simp only [Option.some.injEq, Prod.mk.injEq] at h
      obtain ⟨hb, hs⟩ := h
      subst hs
      exact ⟨stepOK_of_pos_eq (by simp), by simp [← hb]⟩
    · cases hp1 : peek_token ts s 1 with
      | none =>
        simp only [hp1, Option.some.injEq, Prod.mk.injEq] at h
        obtain ⟨hb, hs⟩ := h
        subst hs
        exact ⟨stepOK_of_pos_eq (by simp), by simp [← hb]⟩
      | some nt =>
        simp only [hp1] at h
        split at h
        · simp only [Option.some.injEq, Prod.mk.injEq] at h
          obtain ⟨hb, hs⟩ := h
          subst hs
          exact ⟨stepOK_of_pos_eq (by simp), by simp [← hb]⟩
        · cases hp2 : peek_token ts s 2 with
          | some nn =>
            simp only [hp2] at h
            split at h
            · exact ih.func ts s b s' h
            · exact hgv h
          | none =>
            simp only [hp2] at h
            exact hgv h

theorem pres_program (n : Nat) (ih : Pres n) :
    ∀ ts s s', program ts (n+1) s = some s' → StepOK ts.length s s' := by
  intro ts s s' h
  simp only [program] at h
  cases hc : current_token ts s with
  | none =>
    simp only [hc, Option.some.injEq] at h
    subst h
    exact stepOK_refl _ _
  | some t =>
    simp only [hc] at h
    cases hgd : global_declaration ts n s with
    | none => simp [hgd] at h
    | some p =>
      obtain ⟨b1, s1⟩ := p
      simp only [hgd] at h
      have hs01 := (ih.global_declaration ts s b1 s1 hgd).1
      cases b1 with
      | true =>
        rw [if_pos rfl] at h
        exact stepOK_trans hs01 (ih.program ts s1 s' h)
      | false =>
        rw [if_neg Bool.false_ne_true] at h
        simp only [Option.some.injEq] at h
        subst h
        exact hs01

end Cpp

namespace Cpp

/-- Every rule function of `cpp_parser.py` keeps the cursor monotone and in
bounds, at every fuel. -/
theorem pres : ∀ fuel, Pres fuel := by
  intro fuel
  induction fuel with
  | zero =>
    constructor <;> intro ts s <;> intros <;>
      simp_all [program, global_declaration, global_variable, comma_init_loop, func, block,
        block_loop, x, assign, assign_tail, expression_statement, expression,
        logical_or_expr, lor_loop, logical_and_expr, land_loop, equality_expr, eq_loop,
        relational_expr, rel_loop, additive_expr, add_loop, multiplicative_expr, mul_loop,
        unary_expr, postfix_expr, postfix_loop, argument_list, arg_loop, primary_expr,
        if_statement, while_statement, for_statement, return_statement]
  | succ n ih =>
    exact ⟨pres_program n ih, pres_global_declaration n ih, pres_global_variable n ih,
      pres_comma_init_loop n ih, pres_func n ih, pres_block n ih, pres_block_loop n ih,
      pres_x n ih, pres_assign n ih, pres_assign_tail n ih, pres_expression_statement n ih,
      pres_expression n ih, pres_logical_or_expr n ih, pres_lor_loop n ih,
      pres_logical_and_expr n ih, pres_land_loop n ih, pres_equality_expr n ih,
      pres_eq_loop n ih, pres_relational_expr n ih, pres_rel_loop n ih,
      pres_additive_expr n ih, pres_add_loop n ih, pres_multiplicative_expr n ih,
      pres_mul_loop n ih, pres_unary_expr n ih, pres_postfix_expr n ih,
      pres_postfix_loop n ih, pres_argument_list n ih, pres_arg_loop n ih,
      pres_primary_expr n ih, pres_if_statement n ih, pres_while_statement n ih,
      pres_for_statement n ih, pres_return_statement n ih⟩

end Cpp

namespace NewParse

theorem current_some_lt {ts : List Tok} {s : St} {t : Tok}
    (h : current ts s = some t) : s.pos < ts.length := by
  by_contra hge
  have hn : ts[s.pos]? = none := List.getElem?_eq_none (by omega)
  simp [current, hn] at h

theorem current_none_le {ts : List Tok} {s : St}
    (h : current ts s = none) : ts.length ≤ s.pos := by
  by_contra hlt
  obtain ⟨t, ht⟩ : ∃ t, ts[s.pos]? = some t := by
    have hlt2 : s.pos < ts.length := by omega
    exact ⟨ts.get ⟨s.pos, hlt2⟩, List.getElem?_eq_getElem hlt2⟩
  simp [current, ht] at h

theorem matchTok_true_lt {ts : List Tok} {s : St} {et ev : Option String}
    (h : matchTok ts s et ev = true) : s.pos < ts.length := by
  unfold matchTok at h
  cases hc : current ts s with
  | none => rw [hc] at h; simp at h
  | some t => exact current_some_lt hc

theorem consume_of_matchTok {ts : List Tok} {s : St} {et ev : Option String}
    (em : Option String) (h : matchTok ts s et ev = true) :
    consume ts s et ev em = (true, advance s) := by
  simp [consume, h]

theorem consume_of_not_matchTok {ts : List Tok} {s : St} {et ev : Option String}
    (em : Option String) (h : matchTok ts s et ev = false) :
    consume ts s et ev em = (false, pushErr s (consume_msg ts s et ev em)) := by
  simp [consume, h]

theorem consume_stepOK (ts : List Tok) (s : St) (et ev em : Option String) :
    StepOK ts.length s (consume ts s et ev em).2 := by
  cases hm : matchTok ts s et ev with
  | true =>
    rw [consume_of_matchTok em hm]
    exact ⟨by simp, fun _ => by have := matchTok_true_lt hm; simp; omega⟩
  | false =>
    rw [consume_of_not_matchTok em hm]
    exact stepOK_of_pos_eq (by simp)

theorem stepOK_advance_of_lt {len : Nat} {s : St} (h : s.pos < len) :
    StepOK len s (advance s) := ⟨by simp, fun _ => by simp; omega⟩

theorem stepAdv_of_advance_stepOK {len : Nat} {s s' : St}
    (h : StepOK len (advance s) s') : StepAdv len s s' := by
  obtain ⟨h1, h2⟩ := h
  simp only [advance_pos] at h1 h2
  exact ⟨by omega, fun hlt => h2 (by omega)⟩

/-- `StepProg len s s'`: cursor-safe and, whenever a token was available at
entry, the cursor strictly advanced. -/
def StepProg (len : Nat) (s s' : St) : Prop :=
  StepOK len s s' ∧ (s.pos < len → s.pos < s'.pos)

theorem stepProg_trans_stepOK {len : Nat} {a b c : St}
    (h1 : StepProg len a b) (h2 : StepOK len b c) : StepProg len a c :=
  ⟨stepOK_trans h1.1 h2, fun hlt => lt_of_lt_of_le (h1.2 hlt) h2.1⟩

theorem stepProg_of_advance_stepOK {len : Nat} {s s' : St} (hlt : s.pos < len)
    (h : StepOK len (advance s) s') : StepProg len s s' := by
  obtain ⟨h1, h2⟩ := h
  simp only [advance_pos] at h1 h2
  exact ⟨⟨by omega, fun _ => h2 (by omega)⟩, fun _ => by omega⟩

/-- Cursor-safety and cursor-progress facts for every rule function of
`new_parse.py` at a given fuel. -/
structure Pres (fuel : Nat) : Prop where
  parse_loop : ∀ ts s s', NewParse.parse_loop ts fuel s = some s' → StepOK ts.length s s'
  parse_global_declaration : ∀ ts s s', NewParse.parse_global_declaration ts fuel s = some s' →
    StepAdv ts.length s s'
  parse_global_variable : ∀ ts s s', NewParse.parse_global_variable ts fuel s = some s' →
    StepAdv ts.length s s'
  ncomma_loop : ∀ ts s s', NewParse.ncomma_loop ts fuel s = some s' → StepOK ts.length s s'
  parse_function : ∀ ts s s', NewParse.parse_function ts fuel s = some s' →
    StepAdv ts.length s s'
  parse_block : ∀ ts s s', NewParse.parse_block ts fuel s = some s' → StepOK ts.length s s'
  nblock_loop : ∀ ts s b s', NewParse.nblock_loop ts fuel s = some (b, s') →
    StepOK ts.length s s'
  parse_statement : ∀ ts s s', NewParse.parse_statement ts fuel s = some s' →
    StepProg ts.length s s'
  parse_assignment : ∀ ts s s', NewParse.parse_assignment ts fuel s = some s' →
    StepOK ts.length s s' ∧
      (∀ t, current ts s = some t →
        ((t.type = "KEYWORD" ∧ t.value ∈ datatypes) ∨ t.type = "IDENTIFIER") →
        s.pos < s'.pos)
  nassign_tail : ∀ ts s s', NewParse.nassign_tail ts fuel s = some s' → StepOK ts.length s s'
  parse_if_statement : ∀ ts s s', NewParse.parse_if_statement ts fuel s = some s' →
    StepAdv ts.length s s'
  parse_while_statement : ∀ ts s s', NewParse.parse_while_statement ts fuel s = some s' →
    StepAdv ts.length s s'
  parse_for_statement : ∀ ts s s', NewParse.parse_for_statement ts fuel s = some s' →
    StepAdv ts.length s s'
  parse_return_statement : ∀ ts s s', NewParse.parse_return_statement ts fuel s = some s' →
    StepAdv ts.length s s'
  parse_expression : ∀ ts s s', NewParse.parse_expression ts fuel s = some s' →
    StepProg ts.length s s'
  parse_logical_or : ∀ ts s s', NewParse.parse_logical_or ts fuel s = some s' →
    StepProg ts.length s s'
  nor_loop : ∀ ts s s', NewParse.nor_loop ts fuel s = some s' → StepOK ts.length s s'
  parse_logical_and : ∀ ts s s', NewParse.parse_logical_and ts fuel s = some s' →
    StepProg ts.length s s'
  nand_loop : ∀ ts s s', NewParse.nand_loop ts fuel s = some s' → StepOK ts.length s s'
  parse_equality : ∀ ts s s', NewParse.parse_equality ts fuel s = some s' →
    StepProg ts.length s s'
  neq_loop : ∀ ts s s', NewParse.neq_loop ts fuel s = some s' → StepOK ts.length s s'
  parse_relational : ∀ ts s s', NewParse.parse_relational ts fuel s = some s' →
    StepProg ts.length s s'
  nrel_loop : ∀ ts s s', NewParse.nrel_loop ts fuel s = some s' → StepOK ts.length s s'
  parse_additive : ∀ ts s s', NewParse.parse_additive ts fuel s = some s' →
    StepProg ts.length s s'
  nadd_loop : ∀ ts s s', NewParse.nadd_loop ts fuel s = some s' → StepOK ts.length s s'
  parse_multiplicative : ∀ ts s s', NewParse.parse_multiplicative ts fuel s = some s' →
    StepProg ts.length s s'
  nmul_loop : ∀ ts s s', NewParse.nmul_loop ts fuel s = some s' → StepOK ts.length s s'
  parse_unary : ∀ ts s s', NewParse.parse_unary ts fuel s = some s' → StepProg ts.length s s'
  parse_postfixE : ∀ ts s s', NewParse.parse_postfixE ts fuel s = some s' →
    StepProg ts.length s s'
  npostfix_loop : ∀ ts s s', NewParse.npostfix_loop ts fuel s = some s' → StepOK ts.length s s'
  parse_argument_list : ∀ ts s s', NewParse.parse_argument_list ts fuel s = some s' →
    StepOK ts.length s s'
  narg_loop : ∀ ts s s', NewParse.narg_loop ts fuel s = some s' → StepOK ts.length s s'
  parse_primary : ∀ ts s s', NewParse.parse_primary ts fuel s = some s' →
    StepProg ts.length s s'

end NewParse

namespace NewParse

theorem npres_parse_primary (n : Nat) (ih : Pres n) :
    ∀ ts s s', parse_primary ts (n+1) s = some s' → StepProg ts.length s s' := by
  intro ts s s' h
  simp only [parse_primary] at h
  cases hc : current ts s with
  | none =>
    have hge := current_none_le hc
    simp only [hc, Option.some.injEq] at h
    subst h
    exact ⟨stepOK_of_pos_eq (by simp), fun hlt => absurd hlt (by omega)⟩
  | some tok =>
    have hlt := current_some_lt hc
    simp only [hc] at h
    split at h
    · simp only [Option.some.injEq] at h
      subst h
      exact ⟨stepOK_advance_of_lt hlt, fun _ => by simp only [advance_pos]; omega⟩
    · split at h
      · cases he : parse_expression ts n (advance s) with
        | none => simp [he] at h
        | some s1 =>
          simp only [he, Option.some.injEq] at h
          subst h
          exact stepProg_of_advance_stepOK hlt
            (stepOK_trans (ih.parse_expression ts (advance s) s1 he).1
              (consume_stepOK ts s1 (some "SPECIAL CHARACTER") (some ")") none))
      · simp only [Option.some.injEq] at h
        subst h
        refine ⟨⟨?_, fun _ => ?_⟩, fun _ => ?_⟩ <;>
          simp only [advance_pos, pushErr_pos] <;> omega

theorem npres_narg_loop (n : Nat) (ih : Pres n) :
    ∀ ts s s', narg_loop ts (n+1) s = some s' → StepOK ts.length s s' := by
  intro ts s s' h
  simp only [narg_loop] at h
  split at h
  · rename_i hm
    have hlt := matchTok_true_lt hm
    cases he : parse_expression ts n (advance s) with
    | none => simp [he] at h
    | some s1 =>
      simp only [he] at h
      exact stepOK_trans (stepOK_advance_of_lt hlt)
        (stepOK_trans (ih.parse_expression ts (advance s) s1 he).1 (ih.narg_loop ts s1 s' h))
  · simp only [Option.some.injEq] at h
    subst h
    exact stepOK_refl _ _

theorem npres_parse_argument_list (n : Nat) (ih : Pres n) :
    ∀ ts s s', parse_argument_list ts (n+1) s = some s' → StepOK ts.length s s' := by
  intro ts s s' h
  simp only [parse_argument_list] at h
  split at h
  · simp only [Option.some.injEq] at h
    subst h
    exact stepOK_refl _ _
  · cases he : parse_expression ts n s with
    | none => simp [he] at h
    | some s1 =>
      simp only [he] at h
      exact stepOK_trans (ih.parse_expression ts s s1 he).1 (ih.narg_loop ts s1 s' h)

theorem npres_npostfix_loop (n : Nat) (ih : Pres n) :
    ∀ ts s s', npostfix_loop ts (n+1) s = some s' → StepOK ts.length s s' := by
  intro ts s s' h
  simp only [npostfix_loop] at h
  cases hc : current ts s with
  | none =>
    simp only [hc, Option.some.injEq] at h
    subst h
    exact stepOK_refl _ _
  | some tok =>
    have hlt := current_some_lt hc
    simp only [hc] at h
    split at h
    · cases he : parse_expression ts n (advance s) with
      | none => simp [he] at h
      | some s1 =>
        simp only [he] at h
        exact stepOK_trans (stepOK_advance_of_lt hlt)
          (stepOK_trans (ih.parse_expression ts (advance s) s1 he).1
            (stepOK_trans (consume_stepOK ts s1 (some "SPECIAL CHARACTER") (some "]") none)
              (ih.npostfix_loop ts _ s' h)))
    · split at h
      · cases he : parse_argument_list ts n (advance s) with
        | none => simp [he] at h
        | some s1 =>
          simp only [he] at h
          exact stepOK_trans (stepOK_advance_of_lt hlt)
            (stepOK_trans (ih.parse_argument_list ts (advance s) s1 he)
              (stepOK_trans (consume_stepOK ts s1 (some "SPECIAL CHARACTER") (some ")") none)
                (ih.npostfix_loop ts _ s' h)))
      · split at h
        · exact stepOK_trans (stepOK_advance_of_lt hlt) (ih.npostfix_loop ts (advance s) s' h)
        · simp only [Option.some.injEq] at h
          subst h
          exact stepOK_refl _ _

theorem npres_parse_postfixE (n : Nat) (ih : Pres n) :
    ∀ ts s s', parse_postfixE ts (n+1) s = some s' → StepProg ts.length s s' := by
  intro ts s s' h
  simp only [parse_postfixE] at h
  cases h1 : parse_primary ts n s with
  | none => simp [h1] at h
  | some s1 =>
    simp only [h1] at h
    exact stepProg_trans_stepOK (ih.parse_primary ts s s1 h1) (ih.npostfix_loop ts s1 s' h)

theorem npres_parse_unary (n : Nat) (ih : Pres n) :
    ∀ ts s s', parse_unary ts (n+1) s = some s' → StepProg ts.length s s' := by
  intro ts s s' h
  simp only [parse_unary] at h
  cases hc : current ts s with
  | none =>
    simp only [hc] at h
    exact ih.parse_postfixE ts s s' h
  | some tok =>
    have hlt := current_some_lt hc
    simp only [hc] at h
    split at h
    · exact stepProg_of_advance_stepOK hlt (ih.parse_unary ts (advance s) s' h).1
    · exact ih.parse_postfixE ts s s' h

theorem npres_nmul_loop (n : Nat) (ih : Pres n) :
    ∀ ts s s', nmul_loop ts (n+1) s = some s' → StepOK ts.length s s' := by
  intro ts s s' h
  simp only [nmul_loop] at h
  cases hc : current ts s with
  | none =>
    simp only [hc, Option.some.injEq] at h
    subst h
    exact stepOK_refl _ _
  | some tok =>
    have hlt := current_some_lt hc
    simp only [hc] at h
    split at h
    · cases he : parse_unary ts n (advance s) with
      | none => simp [he] at h
      | some s1 =>
        simp only [he] at h
        exact stepOK_trans (stepOK_advance_of_lt hlt)
          (stepOK_trans (ih.parse_unary ts (advance s) s1 he).1 (ih.nmul_loop ts s1 s' h))
    · simp only [Option.some.injEq] at h
      subst h
      exact stepOK_refl _ _

theorem npres_parse_multiplicative (n : Nat) (ih : Pres n) :
    ∀ ts s s', parse_multiplicative ts (n+1) s = some s' → StepProg ts.length s s' := by
  intro ts s s' h
  simp only [parse_multiplicative] at h
  cases h1 : parse_unary ts n s with
  | none => simp [h1] at h
  | some s1 =>
    simp only [h1] at h
    exact stepProg_trans_stepOK (ih.parse_unary ts s s1 h1) (ih.nmul_loop ts s1 s' h)

theorem npres_nadd_loop (n : Nat) (ih : Pres n) :
    ∀ ts s s', nadd_loop ts (n+1) s = some s' → StepOK ts.length s s' := by
  intro ts s s' h
  simp only [nadd_loop] at h
  cases hc : current ts s with
  | none =>
    simp only [hc, Option.some.injEq] at h
    subst h
    exact stepOK_refl _ _
  | some tok =>
    have hlt := current_some_lt hc
    simp only [hc] at h
    split at h
    · cases he : parse_multiplicative ts n (advance s) with
      | none => simp [he] at h
      | some s1 =>
        simp only [he] at h
        exact stepOK_trans (stepOK_advance_of_lt hlt)
          (stepOK_trans (ih.parse_multiplicative ts (advance s) s1 he).1
            (ih.nadd_loop ts s1 s' h))
    · simp only [Option.some.injEq] at h
      subst h
      exact stepOK_refl _ _

theorem npres_parse_additive (n : Nat) (ih : Pres n) :
    ∀ ts s s', parse_additive ts (n+1) s = some s' → StepProg ts.length s s' := by
  intro ts s s' h
  simp only [parse_additive] at h
  cases h1 : parse_multiplicative ts n s with
  | none => simp [h1] at h
  | some s1 =>
    simp only [h1] at h
    exact stepProg_trans_stepOK (ih.parse_multiplicative ts s s1 h1) (ih.nadd_loop ts s1 s' h)

theorem npres_nrel_loop (n : Nat) (ih : Pres n) :
    ∀ ts s s', nrel_loop ts (n+1) s = some s' → StepOK ts.length s s' := by
  intro ts s s' h
  simp only [nrel_loop] at h
  cases hc : current ts s with
  | none =>
    simp only [hc, Option.some.injEq] at h
    subst h
    exact stepOK_refl _ _
  | some tok =>
    have hlt := current_some_lt hc
    simp only [hc] at h
    split at h
    · cases he : parse_additive ts n (advance s) with
      | none => simp [he] at h
      | some s1 =>
        simp only [he] at h
        exact stepOK_trans (stepOK_advance_of_lt hlt)
          (stepOK_trans (ih.parse_additive ts (advance s) s1 he).1 (ih.nrel_loop ts s1 s' h))
    · simp only [Option.some.injEq] at h
      subst h
      exact stepOK_refl _ _

theorem npres_parse_relational (n : Nat) (ih : Pres n) :
    ∀ ts s s', parse_relational ts (n+1) s = some s' → StepProg ts.length s s' := by
  intro ts s s' h
  simp only [parse_relational] at h
  cases h1 : parse_additive ts n s with
  | none => simp [h1] at h
  | some s1 =>
    simp only [h1] at h
    exact stepProg_trans_stepOK (ih.parse_additive ts s s1 h1) (ih.nrel_loop ts s1 s' h)

theorem npres_neq_loop (n : Nat) (ih : Pres n) :
    ∀ ts s s', neq_loop ts (n+1) s = some s' → StepOK ts.length s s' := by
  intro ts s s' h
  simp only [neq_loop] at h
  cases hc : current ts s with
  | none =>
    simp only [hc, Option.some.injEq] at h
    subst h
    exact stepOK_refl _ _
  | some tok =>
    have hlt := current_some_lt hc
    simp only [hc] at h
    split at h
    · cases he : parse_relational ts n (advance s) with
      | none => simp [he] at h
      | some s1 =>
        simp only [he] at h
        exact stepOK_trans (stepOK_advance_of_lt hlt)
          (stepOK_trans (ih.parse_relational ts (advance s) s1 he).1 (ih.neq_loop ts s1 s' h))
    · simp only [Option.some.injEq] at h
      subst h
      exact stepOK_refl _ _

theorem npres_parse_equality (n : Nat) (ih : Pres n) :
    ∀ ts s s', parse_equality ts (n+1) s = some s' → StepProg ts.length s s' := by
  intro ts s s' h
  simp only [parse_equality] at h
  cases h1 : parse_relational ts n s with
  | none => simp [h1] at h
  | some s1 =>
    simp only [h1] at h
    exact stepProg_trans_stepOK (ih.parse_relational ts s s1 h1) (ih.neq_loop ts s1 s' h)

theorem npres_nand_loop (n : Nat) (ih : Pres n) :
    ∀ ts s s', nand_loop ts (n+1) s = some s' → StepOK ts.length s s' := by
  intro ts s s' h
  simp only [nand_loop] at h
  split at h
  · rename_i hm
    have hlt := matchTok_true_lt hm
    cases he : parse_equality ts n (advance s) with
    | none => simp [he] at h
    | some s1 =>
      simp only [he] at h
      exact stepOK_trans (stepOK_advance_of_lt hlt)
        (stepOK_trans (ih.parse_equality ts (advance s) s1 he).1 (ih.nand_loop ts s1 s' h))
  · simp only [Option.some.injEq] at h
    subst h
    exact stepOK_refl _ _

theorem npres_parse_logical_and (n : Nat) (ih : Pres n) :
    ∀ ts s s', parse_logical_and ts (n+1) s = some s' → StepProg ts.length s s' := by
  intro ts s s' h
  simp only [parse_logical_and] at h
  cases h1 : parse_equality ts n s with
  | none => simp [h1] at h
  | some s1 =>
    simp only [h1] at h
    exact stepProg_trans_stepOK (ih.parse_equality ts s s1 h1) (ih.nand_loop ts s1 s' h)

theorem npres_nor_loop (n : Nat) (ih : Pres n) :
    ∀ ts s s', nor_loop ts (n+1) s = some s' → StepOK ts.length s s' := by
  intro ts s s' h
  simp only [nor_loop] at h
  split at h
  · rename_i hm
    have hlt := matchTok_true_lt hm
    cases he : parse_logical_and ts n (advance s) with
    | none => simp [he] at h
    | some s1 =>
      simp only [he] at h
      exact stepOK_trans (stepOK_advance_of_lt hlt)
        (stepOK_trans (ih.parse_logical_and ts (advance s) s1 he).1 (ih.nor_loop ts s1 s' h))
  · simp only [Option.some.injEq] at h
    subst h
    exact stepOK_refl _ _

theorem npres_parse_logical_or (n : Nat) (ih : Pres n) :
    ∀ ts s s', parse_logical_or ts (n+1) s = some s' → StepProg ts.length s s' := by
  intro ts s s' h
  simp only [parse_logical_or] at h
  cases h1 : parse_logical_and ts n s with
  | none => simp [h1] at h
  | some s1 =>
    simp only [h1] at h
    exact stepProg_trans_stepOK (ih.parse_logical_and ts s s1 h1) (ih.nor_loop ts s1 s' h)

theorem npres_parse_expression (n : Nat) (ih : Pres n) :
    ∀ ts s s', parse_expression ts (n+1) s = some s' → StepProg ts.length s s' := by
  intro ts s s' h
  simp only [parse_expression] at h
  exact ih.parse_logical_or ts s s' h

end NewParse

namespace NewParse

theorem npres_nassign_tail (n : Nat) (ih : Pres n) :
    ∀ ts s s', nassign_tail ts (n+1) s = some s' → StepOK ts.length s s' := by
  intro ts s s' h
  simp only [nassign_tail] at h
  split at h
  · exact absurd h (by simp)
  · rename_i s1 heq
    have hs01 : StepOK ts.length s s1 := by
      split at heq
      · rename_i hm
        have hlt := matchTok_true_lt hm
        exact stepOK_trans (stepOK_advance_of_lt hlt)
          (ih.parse_expression ts (advance s) s1 heq).1
      · simp only [Option.some.injEq] at heq
        subst heq
        exact stepOK_refl _ _
    simp only [Option.some.injEq] at h
    subst h
    exact stepOK_trans hs01 (consume_stepOK ts s1 (some "SPECIAL CHARACTER") (some ";") none)

theorem npres_ncomma_loop (n : Nat) (ih : Pres n) :
    ∀ ts s s', ncomma_loop ts (n+1) s = some s' → StepOK ts.length s s' := by
  intro ts s s' h
  simp only [ncomma_loop] at h
  split at h
  · rename_i hm
    have hlt := matchTok_true_lt hm
    have hstep1 : StepOK ts.length s (consume ts (advance s) (some "IDENTIFIER") none none).2 :=
      stepOK_trans (stepOK_advance_of_lt hlt)
        (consume_stepOK ts (advance s) (some "IDENTIFIER") none none)
    split at h
    · rename_i hm2
      have hlt2 := matchTok_true_lt hm2
      cases he : parse_expression ts n
          (advance (consume ts (advance s) (some "IDENTIFIER") none none).2) with
      | none => simp [he] at h
      | some s2 =>
        simp only [he] at h
        exact stepOK_trans hstep1 (stepOK_trans (stepOK_advance_of_lt hlt2)
          (stepOK_trans (ih.parse_expression ts _ s2 he).1 (ih.ncomma_loop ts s2 s' h)))
    · exact stepOK_trans hstep1 (ih.ncomma_loop ts _ s' h)
  · simp only [Option.some.injEq] at h
    subst h
    exact stepOK_refl _ _

theorem npres_parse_assignment (n : Nat) (ih : Pres n) :
    ∀ ts s s', parse_assignment ts (n+1) s = some s' →
      StepOK ts.length s s' ∧
        (∀ t, current ts s = some t →
          ((t.type = "KEYWORD" ∧ t.value ∈ datatypes) ∨ t.type = "IDENTIFIER") →
          s.pos < s'.pos) := by
  intro ts s s' h
  simp only [parse_assignment] at h
  cases hc : current ts s with
  | none =>
    simp only [hc] at h
    refine ⟨stepOK_trans (consume_stepOK ts s (some "IDENTIFIER") none none)
      (ih.nassign_tail ts _ s' h), fun t ht _ => ?_⟩
    exact absurd ht (by simp)
  | some tok =>
    have hlt := current_some_lt hc
    simp only [hc] at h
    split at h
    · rename_i hdt
      cases hcl : ncomma_loop ts n (consume ts (advance s) (some "IDENTIFIER") none none).2 with
      | none => simp [hcl] at h
      | some s2 =>
        simp only [hcl] at h
        have hch : StepOK ts.length (advance s) s' :=
          stepOK_trans (consume_stepOK ts (advance s) (some "IDENTIFIER") none none)
            (stepOK_trans (ih.ncomma_loop ts _ s2 hcl) (ih.nassign_tail ts s2 s' h))
        refine ⟨stepOK_trans (stepOK_advance_of_lt hlt) hch, fun t ht _ => ?_⟩
        have := hch.1
        simp only [advance_pos] at this
        omega
    · rename_i hdt
      have hch : StepOK ts.length s s' :=
        stepOK_trans (consume_stepOK ts s (some "IDENTIFIER") none none)
          (ih.nassign_tail ts _ s' h)
      refine ⟨hch, fun t ht hcond => ?_⟩
      simp only [Option.some.injEq] at ht
      subst ht
      rcases hcond with hk | hid
      · exact absurd hk hdt
      · have hm : matchTok ts s (some "IDENTIFIER") none = true := by
          simp [matchTok, hc, hid]
        have hcons := consume_of_matchTok none hm
        have h2 := h
        rw [hcons] at h2
        have := (ih.nassign_tail ts (advance s) s' h2).1
        simp only [advance_pos] at this
        omega

theorem npres_parse_return_statement (n : Nat) (ih : Pres n) :
    ∀ ts s s', parse_return_statement ts (n+1) s = some s' → StepAdv ts.length s s' := by
  intro ts s s' h
  simp only [parse_return_statement] at h
  split at h
  · exact absurd h (by simp)
  · rename_i s2 heq
    have hs2 : StepOK ts.length (advance s) s2 := by
      split at heq
      · simp only [Option.some.injEq] at heq
        subst heq
        exact stepOK_refl _ _
      · exact (ih.parse_expression ts (advance s) s2 heq).1
    simp only [Option.some.injEq] at h
    subst h
    exact stepAdv_of_advance_stepOK
      (stepOK_trans hs2 (consume_stepOK ts s2 (some "SPECIAL CHARACTER") (some ";") none))

theorem npres_parse_while_statement (n : Nat) (ih : Pres n) :
    ∀ ts s s', parse_while_statement ts (n+1) s = some s' → StepAdv ts.length s s' := by
  intro ts s s' h
  simp only [parse_while_statement] at h
  cases he : parse_expression ts n
      (consume ts (advance s) (some "SPECIAL CHARACTER") (some "(") none).2 with
  | none => simp [he] at h
  | some s3 =>
    simp only [he] at h
    have hs3 : StepOK ts.length (advance s)
        (consume ts s3 (some "SPECIAL CHARACTER") (some ")") none).2 :=
      stepOK_trans (consume_stepOK ts (advance s) (some "SPECIAL CHARACTER") (some "(") none)
        (stepOK_trans (ih.parse_expression ts _ s3 he).1
          (consume_stepOK ts s3 (some "SPECIAL CHARACTER") (some ")") none))
    split at h
    · exact stepAdv_of_advance_stepOK (stepOK_trans hs3 (ih.parse_block ts _ s' h))
    · exact stepAdv_of_advance_stepOK (stepOK_trans hs3 (ih.parse_statement ts _ s' h).1)

theorem npres_parse_if_statement (n : Nat) (ih : Pres n) :
    ∀ ts s s', parse_if_statement ts (n+1) s = some s' → StepAdv ts.length s s' := by
  intro ts s s' h
  simp only [parse_if_statement] at h
  cases he : parse_expression ts n
      (consume ts (advance s) (some "SPECIAL CHARACTER") (some "(") none).2 with
  | none => simp [he] at h
  | some s3 =>
    simp only [he] at h
    have hs4 : StepOK ts.length (advance s)
        (consume ts s3 (some "SPECIAL CHARACTER") (some ")") none).2 :=
      stepOK_trans (consume_stepOK ts (advance s) (some "SPECIAL CHARACTER") (some "(") none)
        (stepOK_trans (ih.parse_expression ts _ s3 he).1
          (consume_stepOK ts s3 (some "SPECIAL CHARACTER") (some ")") none))
    split at h
    · exact absurd h (by simp)
    · rename_i s5 heq
      have hs5 : StepOK ts.length (advance s) s5 := by
        split at heq
        · exact stepOK_trans hs4 (ih.parse_block ts _ s5 heq)
        · exact stepOK_trans hs4 (ih.parse_statement ts _ s5 heq).1
      split at h
      · rename_i hm5
        have hlt5 := matchTok_true_lt hm5
        split at h
        · exact stepAdv_of_advance_stepOK (stepOK_trans hs5
            (stepOK_trans (stepOK_advance_of_lt hlt5) (ih.parse_block ts (advance s5) s' h)))
        · exact stepAdv_of_advance_stepOK (stepOK_trans hs5
            (stepOK_trans (stepOK_advance_of_lt hlt5)
              (ih.parse_statement ts (advance s5) s' h).1))
      · simp only [Option.some.injEq] at h
        subst h
        exact stepAdv_of_advance_stepOK hs5

theorem npres_parse_for_statement (n : Nat) (ih : Pres n) :
    ∀ ts s s', parse_for_statement ts (n+1) s = some s' → StepAdv ts.length s s' := by
  intro ts s s' h
  simp only [parse_for_statement] at h
  split at h
  · exact absurd h (by simp)
  · rename_i s4 heq1
    have hs4 : StepOK ts.length (advance s) s4 := by
      have hsc : StepOK ts.length (advance s)
          (consume ts (advance s) (some "SPECIAL CHARACTER") (some "(") none).2 :=
        consume_stepOK ts (advance s) (some "SPECIAL CHARACTER") (some "(") none
      split at heq1
      · exact stepOK_trans hsc (ih.parse_assignment ts _ s4 heq1).1
      · split at heq1
        · simp only [Option.some.injEq] at heq1
          subst heq1
          exact stepOK_trans hsc (consume_stepOK ts _ (some "SPECIAL CHARACTER") (some ";") none)
        · cases he : parse_expression ts n
              (consume ts (advance s) (some "SPECIAL CHARACTER") (some "(") none).2 with
          | none => rw [he] at heq1; exact absurd heq1 (by simp)
          | some s3 =>
            rw [he] at heq1
            simp only [Option.some.injEq] at heq1
            subst heq1
            exact stepOK_trans hsc (stepOK_trans (ih.parse_expression ts _ s3 he).1
              (consume_stepOK ts s3 (some "SPECIAL CHARACTER") (some ";") none))
    split at h
    · exact absurd h (by simp)
    · rename_i s5 heq2
      have hs5 : StepOK ts.length s4 s5 := by
        split at heq2
        · simp only [Option.some.injEq] at heq2
          subst heq2
          exact stepOK_refl _ _
        · exact (ih.parse_expression ts s4 s5 heq2).1
      split at h
      · exact absurd h (by simp)
      · rename_i s7 heq3
        have hs7 : StepOK ts.length s5 s7 := by
          have hsc : StepOK ts.length s5
              (consume ts s5 (some "SPECIAL CHARACTER") (some ";") none).2 :=
            consume_stepOK ts s5 (some "SPECIAL CHARACTER") (some ";") none
          split at heq3
          · simp only [Option.some.injEq] at heq3
            subst heq3
            exact hsc
          · exact stepOK_trans hsc (ih.parse_expression ts _ s7 heq3).1
        have hs8 : StepOK ts.length (advance s)
            (consume ts s7 (some "SPECIAL CHARACTER") (some ")") none).2 :=
          stepOK_trans hs4 (stepOK_trans hs5 (stepOK_trans hs7
            (consume_stepOK ts s7 (some "SPECIAL CHARACTER") (some ")") none)))
        split at h
        · exact stepAdv_of_advance_stepOK (stepOK_trans hs8 (ih.parse_block ts _ s' h))
        · exact stepAdv_of_advance_stepOK (stepOK_trans hs8 (ih.parse_statement ts _ s' h).1)

theorem npres_parse_function (n : Nat) (ih : Pres n) :
    ∀ ts s s', parse_function ts (n+1) s = some s' → StepAdv ts.length s s' := by
  intro ts s s' h
  simp only [parse_function] at h
  have cont : ∀ s2v : St, StepOK ts.length (advance s) s2v →
      parse_block ts n (consume ts (consume ts (consume ts s2v none none none).2
        (some "SPECIAL CHARACTER") (some "(") none).2
        (some "SPECIAL CHARACTER") (some ")") none).2 = some s' →
      StepAdv ts.length s s' := by
    intro s2v h0 hblk
    exact stepAdv_of_advance_stepOK (stepOK_trans h0
      (stepOK_trans (consume_stepOK ts s2v none none none)
        (stepOK_trans (consume_stepOK ts _ (some "SPECIAL CHARACTER") (some "(") none)
          (stepOK_trans (consume_stepOK ts _ (some "SPECIAL CHARACTER") (some ")") none)
            (ih.parse_block ts _ s' hblk)))))
  cases hc1 : current ts (advance s) with
  | none =>
    simp only [hc1] at h
    exact cont (advance s) (stepOK_refl _ _) h
  | some tok =>
    simp only [hc1] at h
    by_cases hm : tok.value = "main"
    · rw [if_pos hm] at h
      exact cont (setMain (advance s)) (stepOK_of_pos_eq (by simp)) h
    · rw [if_neg hm] at h
      exact cont (advance s) (stepOK_refl _ _) h

theorem npres_nblock_loop (n : Nat) (ih : Pres n) :
    ∀ ts s b s', nblock_loop ts (n+1) s = some (b, s') → StepOK ts.length s s' := by
  intro ts s b s' h
  simp only [nblock_loop] at h
  split at h
  · simp only [Option.some.injEq, Prod.mk.injEq] at h
    obtain ⟨hb, hs⟩ := h
    subst hs
    exact stepOK_refl _ _
  · cases hc : current ts s with
    | none =>
      simp only [hc, Option.some.injEq, Prod.mk.injEq] at h
      obtain ⟨hb, hs⟩ := h
      subst hs
      exact stepOK_of_pos_eq (by simp)
    | some tok =>
      simp only [hc] at h
      cases hst : parse_statement ts n s with
      | none => simp [hst] at h
      | some s1 =>
        simp only [hst] at h
        exact stepOK_trans (ih.parse_statement ts s s1 hst).1 (ih.nblock_loop ts s1 b s' h)

theorem npres_parse_block (n : Nat) (ih : Pres n) :
    ∀ ts s s', parse_block ts (n+1) s = some s' → StepOK ts.length s s' := by
  intro ts s s' h
  simp only [parse_block] at h
  have hsc : StepOK ts.length s (consume ts s (some "SPECIAL CHARACTER") (some "\x7b") none).2 :=
    consume_stepOK ts s (some "SPECIAL CHARACTER") (some "\x7b") none
  cases hbl : nblock_loop ts n
      (consume ts s (some "SPECIAL CHARACTER") (some "\x7b") none).2 with
  | none => simp [hbl] at h
  | some p =>
    obtain ⟨bb, s2⟩ := p
    have hs2 := ih.nblock_loop ts _ bb s2 hbl
    cases bb with
    | false =>
      simp only [hbl, Option.some.injEq] at h
      subst h
      exact stepOK_trans hsc hs2
    | true =>
      simp only [hbl, Option.some.injEq] at h
      subst h
      exact stepOK_trans hsc (stepOK_trans hs2
        (consume_stepOK ts s2 (some "SPECIAL CHARACTER") (some "\x7d") none))

theorem npres_parse_statement (n : Nat) (ih : Pres n) :
    ∀ ts s s', parse_statement ts (n+1) s = some s' → StepProg ts.length s s' := by
  intro ts s s' h
  simp only [parse_statement] at h
  cases hc : current ts s with
  | none =>
    have hge := current_none_le hc
    simp only [hc, Option.some.injEq] at h
    subst h
    exact ⟨stepOK_refl _ _, fun hlt => absurd hlt (by omega)⟩
  | some tok =>
    have hlt := current_some_lt hc
    simp only [hc] at h
    have hAdvP : StepAdv ts.length s s' → StepProg ts.length s s' :=
      fun hx => ⟨stepOK_of_stepAdv hx hlt, fun _ => hx.1⟩
    have hExprSemi : ∀ hx : (match parse_expression ts n s with
        | none => none
        | some s1 =>
          some (consume ts s1 (some "SPECIAL CHARACTER") (some ";") none).2) = some s',
        StepProg ts.length s s' := by
      intro hx
      cases he : parse_expression ts n s with
      | none => simp [he] at hx
      | some s1 =>
        simp only [he, Option.some.injEq] at hx
        subst hx
        exact stepProg_trans_stepOK (ih.parse_expression ts s s1 he)
          (consume_stepOK ts s1 (some "SPECIAL CHARACTER") (some ";") none)
    split at h
    · rename_i hdt
      have hAsgn : ∀ hx : parse_assignment ts n s = some s', StepProg ts.length s s' := by
        intro hx
        have ha := ih.parse_assignment ts s s' hx
        exact ⟨ha.1, fun _ => ha.2 tok hc (.inl hdt)⟩
      cases hp2 : peek ts s 2 with
      | some nn =>
        simp only [hp2] at h
        split at h
        · exact hAdvP (ih.parse_function ts s s' h)
        · exact hAsgn h
      | none =>
        simp only [hp2] at h
        exact hAsgn h
    · split at h
      · exact hAdvP (ih.parse_if_statement ts s s' h)
      · split at h
        · exact hAdvP (ih.parse_while_statement ts s s' h)
        · split at h
          · exact hAdvP (ih.parse_for_statement ts s s' h)
          · split at h
            · exact hAdvP (ih.parse_return_statement ts s s' h)
            · split at h
              · rename_i hid
                have hAsgn : ∀ hx : parse_assignment ts n s = some s',
                    StepProg ts.length s s' := by
                  intro hx
                  have ha := ih.parse_assignment ts s s' hx
                  exact ⟨ha.1, fun _ => ha.2 tok hc (.inr hid)⟩
                cases hp1 : peek ts s 1 with
                | some nt =>
                  simp only [hp1] at h
                  split at h
                  · exact hAsgn h
                  · exact hExprSemi h
                | none =>
                  simp only [hp1] at h
                  exact hExprSemi h
              · simp only [Option.some.injEq] at h
                subst h
                refine ⟨⟨?_, fun _ => ?_⟩, fun _ => ?_⟩ <;>
                  simp only [advance_pos, pushErr_pos] <;> omega

theorem npres_parse_global_variable (n : Nat) (ih : Pres n) :
    ∀ ts s s', parse_global_variable ts (n+1) s = some s' → StepAdv ts.length s s' := by
  intro ts s s' h
  simp only [parse_global_variable] at h
  split at h
  · exact absurd h (by simp)
  · rename_i s2 heq
    have hs2 : StepOK ts.length (advance s) s2 := by
      have hsc : StepOK ts.length (advance s)
          (consume ts (advance s) (some "IDENTIFIER") none none).2 :=
        consume_stepOK ts (advance s) (some "IDENTIFIER") none none
      split at heq
      · rename_i hm2
        have hlt2 := matchTok_true_lt hm2
        exact stepOK_trans hsc (stepOK_trans (stepOK_advance_of_lt hlt2)
          (ih.parse_expression ts _ s2 heq).1)
      · simp only [Option.some.injEq] at heq
        subst heq
        exact hsc
    cases hcl : ncomma_loop ts n s2 with
    | none => simp [hcl] at h
    | some s3 =>
      simp only [hcl, Option.some.injEq] at h
      subst h
      exact stepAdv_of_advance_stepOK (stepOK_trans hs2 (stepOK_trans
        (ih.ncomma_loop ts s2 s3 hcl)
        (consume_stepOK ts s3 (some "SPECIAL CHARACTER") (some ";") none)))

theorem npres_parse_global_declaration (n : Nat) (ih : Pres n) :
    ∀ ts s s', parse_global_declaration ts (n+1) s = some s' → StepAdv ts.length s s' := by
  intro ts s s' h
  simp only [parse_global_declaration] at h
  cases hc : current ts s with
  | none =>
    simp only [hc, Option.some.injEq] at h
    subst h
    refine ⟨?_, fun hlt => ?_⟩ <;> simp only [advance_pos, pushErr_pos] <;> omega
  | some tok =>
    have hlt := current_some_lt hc
    simp only [hc] at h
    split at h
    · simp only [Option.some.injEq] at h
      subst h
      refine ⟨?_, fun hl => ?_⟩ <;> simp only [advance_pos, pushErr_pos] <;> omega
    · cases hp2 : peek ts s 2 with
      | some nn =>
        simp only [hp2] at h
        split at h
        · exact ih.parse_function ts s s' h
        · exact ih.parse_global_variable ts s s' h
      | none =>
        simp only [hp2] at h
        exact ih.parse_global_variable ts s s' h

theorem npres_parse_loop (n : Nat) (ih : Pres n) :
    ∀ ts s s', parse_loop ts (n+1) s = some s' → StepOK ts.length s s' := by
  intro ts s s' h
  simp only [parse_loop] at h
  cases hc : current ts s with
  | none =>
    simp only [hc, Option.some.injEq] at h
    subst h
    exact stepOK_refl _ _
  | some t =>
    have hlt := current_some_lt hc
    simp only [hc] at h
    cases hgd : parse_global_declaration ts n s with
    | none => simp [hgd] at h
    | some s1 =>
      simp only [hgd] at h
      exact stepOK_trans (stepOK_of_stepAdv (ih.parse_global_declaration ts s s1 hgd) hlt)
        (ih.parse_loop ts s1 s' h)

/-- Every rule function of `new_parse.py` keeps the cursor monotone and in
bounds, at every fuel. -/
theorem npres : ∀ fuel, Pres fuel := by
  intro fuel
  induction fuel with
  | zero =>
    constructor <;> intro ts s <;> intros <;>
      simp_all [parse_loop, parse_global_declaration, parse_global_variable, ncomma_loop,
        parse_function, parse_block, nblock_loop, parse_statement, parse_assignment,
        nassign_tail, parse_if_statement, parse_while_statement, parse_for_statement,
        parse_return_statement, parse_expression, parse_logical_or, nor_loop,
        parse_logical_and, nand_loop, parse_equality, neq_loop, parse_relational, nrel_loop,
        parse_additive, nadd_loop, parse_multiplicative, nmul_loop, parse_unary,
        parse_postfixE, npostfix_loop, parse_argument_list, narg_loop, parse_primary]
  | succ n ih =>
    exact ⟨npres_parse_loop n ih, npres_parse_global_declaration n ih,
      npres_parse_global_variable n ih, npres_ncomma_loop n ih, npres_parse_function n ih,
      npres_parse_block n ih, npres_nblock_loop n ih, npres_parse_statement n ih,
      npres_parse_assignment n ih, npres_nassign_tail n ih, npres_parse_if_statement n ih,
      npres_parse_while_statement n ih, npres_parse_for_statement n ih,
      npres_parse_return_statement n ih, npres_parse_expression n ih,
      npres_parse_logical_or n ih, npres_nor_loop n ih, npres_parse_logical_and n ih,
      npres_nand_loop n ih, npres_parse_equality n ih, npres_neq_loop n ih,
      npres_parse_relational n ih, npres_nrel_loop n ih, npres_parse_additive n ih,
      npres_nadd_loop n ih, npres_parse_multiplicative n ih, npres_nmul_loop n ih,
      npres_parse_unary n ih, npres_parse_postfixE n ih, npres_npostfix_loop n ih,
      npres_parse_argument_list n ih, npres_narg_loop n ih, npres_parse_primary n ih⟩

end NewParse

namespace Cpp

/-- Enough fuel makes every rule function of `cpp_parser.py` return, for any
state with at most `R` tokens remaining. -/
structure Prog (R : Nat) : Prop where
  program : ∀ ts s, ts.length - s.pos ≤ R → ∀ n, 40 * R + 33 ≤ n →
    ∃ p, Cpp.program ts n s = some p
  global_declaration : ∀ ts s, ts.length - s.pos ≤ R → ∀ n, 40 * R + 32 ≤ n →
    ∃ p, Cpp.global_declaration ts n s = some p
  global_variable : ∀ ts s, ts.length - s.pos ≤ R → ∀ n, 40 * R + 24 ≤ n →
    ∃ p, Cpp.global_variable ts n s = some p
  comma_init_loop : ∀ ts s, ts.length - s.pos ≤ R → ∀ n, 40 * R + 21 ≤ n →
    ∃ p, Cpp.comma_init_loop ts n s = some p
  func : ∀ ts s, ts.length - s.pos ≤ R → ∀ n, 40 * R + 24 ≤ n →
    ∃ p, Cpp.func ts n s = some p
  block : ∀ ts s, ts.length - s.pos ≤ R → ∀ n, 40 * R + 23 ≤ n →
    ∃ p, Cpp.block ts n s = some p
  block_loop : ∀ ts s, ts.length - s.pos ≤ R → ∀ n, 40 * R + 31 ≤ n →
    ∃ p, Cpp.block_loop ts n s = some p
  x : ∀ ts s, ts.length - s.pos ≤ R → ∀ n, 40 * R + 30 ≤ n →
    ∃ p, Cpp.x ts n s = some p
  assign : ∀ ts s, ts.length - s.pos ≤ R → current_token ts s ≠ none → ∀ n, 40 * R + 22 ≤ n →
    ∃ p, Cpp.assign ts n s = some p
  assign_tail : ∀ ts s, ts.length - s.pos ≤ R → ∀ n, 40 * R + 21 ≤ n →
    ∃ p, Cpp.assign_tail ts n s = some p
  expression_statement : ∀ ts s, ts.length - s.pos ≤ R → ∀ n, 40 * R + 20 ≤ n →
    ∃ p, Cpp.expression_statement ts n s = some p
  expression : ∀ ts s, ts.length - s.pos ≤ R → ∀ n, 40 * R + 17 ≤ n →
    ∃ p, Cpp.expression ts n s = some p
  logical_or_expr : ∀ ts s, ts.length - s.pos ≤ R → ∀ n, 40 * R + 16 ≤ n →
    ∃ p, Cpp.logical_or_expr ts n s = some p
  lor_loop : ∀ ts s, ts.length - s.pos ≤ R → ∀ n, 40 * R + 15 ≤ n →
    ∃ p, Cpp.lor_loop ts n s = some p
  logical_and_expr : ∀ ts s, ts.length - s.pos ≤ R → ∀ n, 40 * R + 14 ≤ n →
    ∃ p, Cpp.logical_and_expr ts n s = some p
  land_loop : ∀ ts s, ts.length - s.pos ≤ R → ∀ n, 40 * R + 13 ≤ n →
    ∃ p, Cpp.land_loop ts n s = some p
  equality_expr : ∀ ts s, ts.length - s.pos ≤ R → ∀ n, 40 * R + 12 ≤ n →
    ∃ p, Cpp.equality_expr ts n s = some p
  eq_loop : ∀ ts s, ts.length - s.pos ≤ R → ∀ n, 40 * R + 11 ≤ n →
    ∃ p, Cpp.eq_loop ts n s = some p
  relational_expr : ∀ ts s, ts.length - s.pos ≤ R → ∀ n, 40 * R + 10 ≤ n →
    ∃ p, Cpp.relational_expr ts n s = some p
  rel_loop : ∀ ts s, ts.length - s.pos ≤ R → ∀ n, 40 * R + 9 ≤ n →
    ∃ p, Cpp.rel_loop ts n s = some p
  additive_expr : ∀ ts s, ts.length - s.pos ≤ R → ∀ n, 40 * R + 8 ≤ n →
    ∃ p, Cpp.additive_expr ts n s = some p
  add_loop : ∀ ts s, ts.length - s.pos ≤ R → ∀ n, 40 * R + 7 ≤ n →
    ∃ p, Cpp.add_loop ts n s = some p
  multiplicative_expr : ∀ ts s, ts.length - s.pos ≤ R → ∀ n, 40 * R + 6 ≤ n →
    ∃ p, Cpp.multiplicative_expr ts n s = some p
  mul_loop : ∀ ts s, ts.length - s.pos ≤ R → ∀ n, 40 * R + 5 ≤ n →
    ∃ p, Cpp.mul_loop ts n s = some p
  unary_expr : ∀ ts s, ts.length - s.pos ≤ R → ∀ n, 40 * R + 4 ≤ n →
    ∃ p, Cpp.unary_expr ts n s = some p
  postfix_expr : ∀ ts s, ts.length - s.pos ≤ R → ∀ n, 40 * R + 3 ≤ n →
    ∃ p, Cpp.postfix_expr ts n s = some p
  postfix_loop : ∀ ts s, ts.length - s.pos ≤ R → ∀ n, 40 * R + 2 ≤ n →
    ∃ p, Cpp.postfix_loop ts n s = some p
  argument_list : ∀ ts s, ts.length - s.pos ≤ R → ∀ n, 40 * R + 19 ≤ n →
    ∃ p, Cpp.argument_list ts n s = some p
  arg_loop : ∀ ts s, ts.length - s.pos ≤ R → ∀ n, 40 * R + 18 ≤ n →
    ∃ p, Cpp.arg_loop ts n s = some p
  primary_expr : ∀ ts s, ts.length - s.pos ≤ R → ∀ n, 40 * R + 1 ≤ n →
    ∃ p, Cpp.primary_expr ts n s = some p
  if_statement : ∀ ts s, ts.length - s.pos ≤ R → ∀ n, 40 * R + 22 ≤ n →
    ∃ p, Cpp.if_statement ts n s = some p
  while_statement : ∀ ts s, ts.length - s.pos ≤ R → ∀ n, 40 * R + 22 ≤ n →
    ∃ p, Cpp.while_statement ts n s = some p
  for_statement : ∀ ts s, ts.length - s.pos ≤ R → ∀ n, 40 * R + 22 ≤ n →
    ∃ p, Cpp.for_statement ts n s = some p
  return_statement : ∀ ts s, ts.length - s.pos ≤ R → ∀ n, 40 * R + 22 ≤ n →
    ∃ p, Cpp.return_statement ts n s = some p

/-- Enough fuel always exists: strong induction on the number of remaining
tokens, with rank ordering among calls that have not yet consumed a token. -/
theorem prog : ∀ R, Prog R := by
  intro R
  induction R using Nat.strong_induction_on with
  | _ R IH =>
  have hbody_choice : ∀ ts (s4 : St), ts.length - s4.pos < R →
      ∀ m, 40 * (ts.length - s4.pos) + 31 ≤ m →
      ∃ p : St, (match current_token ts s4 with
        | some t =>
          if t.type = "SPECIAL CHARACTER" ∧ t.value = "\x7b" then
            match block ts m s4 with
            | none => none
            | some (_, sb) => some sb
          else
            match x ts m s4 with
            | none => none
            | some (_, sb) => some sb
        | none =>
          match x ts m s4 with
          | none => none
          | some (_, sb) => some sb) = some p ∧ s4.pos ≤ p.pos := by
    intro ts s4 hrem m hm
    have hxcase : ∃ p : St, (match x ts m s4 with
        | none => none
        | some (_, sb) => some sb) = some p ∧ s4.pos ≤ p.pos := by
      obtain ⟨⟨bx, sx⟩, hx2⟩ := (IH _ hrem).x ts s4 (le_refl _) m (by omega)
      simp only [hx2]
      exact ⟨sx, rfl, ((pres m).x ts s4 bx sx hx2).1.1⟩
    cases hc : current_token ts s4 with
    | none =>
      simp only [hc]
      exact hxcase
    | some t =>
      simp only [hc]
      by_cases h1 : t.type = "SPECIAL CHARACTER" ∧ t.value = "\x7b"
      · rw [if_pos h1]
        obtain ⟨⟨bb, sb⟩, hb2⟩ := (IH _ hrem).block ts s4 (le_refl _) m (by omega)
        simp only [hb2]
        exact ⟨sb, rfl, ((pres m).block ts s4 bb sb hb2).1⟩
      · rw [if_neg h1]
        exact hxcase
  have hprimary_expr : ∀ ts s, ts.length - s.pos ≤ R → ∀ n, 40 * R + 1 ≤ n →
      ∃ p, primary_expr ts n s = some p := by
    intro ts s hR n hn
    rcases Nat.lt_or_ge (ts.length - s.pos) R with hsml | hge
    · exact (IH _ hsml).primary_expr ts s (le_refl _) n (by omega)
    · obtain ⟨m, rfl⟩ : ∃ m, n = m + 1 := ⟨n - 1, by omega⟩
      simp only [primary_expr]
      cases hc : current_token ts s with
      | none => exact ⟨_, rfl⟩
      | some t =>
        have hlt0 := current_token_some_lt hc
        simp only [hc]
        by_cases h1 : t.type = "IDENTIFIER"
        · rw [if_pos h1]; exact ⟨_, rfl⟩
        · rw [if_neg h1]
          by_cases h2 : t.type = "NUMBER"
          · rw [if_pos h2]; exact ⟨_, rfl⟩
          · rw [if_neg h2]
            by_cases h3 : t.type = "STRING"
            · rw [if_pos h3]; exact ⟨_, rfl⟩
            · rw [if_neg h3]
              by_cases h4 : t.type = "SPECIAL CHARACTER" ∧ t.value = "("
              · rw [if_pos h4]
                have hrem1 : ts.length - (bump s).pos < R := by simp; omega
                obtain ⟨⟨b1, s1⟩, he⟩ :=
                  (IH _ hrem1).expression ts (bump s) (le_refl _) m (by simp; omega)
                simp only [he]
                cases hE : expect ts s1 (some "SPECIAL CHARACTER") (some ")") none with
                | mk b2 s2 => cases b2 <;> simp only [hE] <;> exact ⟨_, rfl⟩
              · rw [if_neg h4]; exact ⟨_, rfl⟩
  have hpostfix_loop : ∀ ts s, ts.length - s.pos ≤ R → ∀ n, 40 * R + 2 ≤ n →
      ∃ p, postfix_loop ts n s = some p := by
    intro ts s hR n hn
    rcases Nat.lt_or_ge (ts.length - s.pos) R with hsml | hge
    · exact (IH _ hsml).postfix_loop ts s (le_refl _) n (by omega)
    · obtain ⟨m, rfl⟩ : ∃ m, n = m + 1 := ⟨n - 1, by omega⟩
      simp only [postfix_loop]
      cases hc : current_token ts s with
      | none => exact ⟨_, rfl⟩
      | some t =>
        have hlt0 := current_token_some_lt hc
        simp only [hc]
        have hrem1 : ts.length - (bump s).pos < R := by simp; omega
        by_cases h1 : t.type = "SPECIAL CHARACTER" ∧ t.value = "["
        · rw [if_pos h1]
          obtain ⟨⟨b1, s1⟩, he⟩ :=
            (IH _ hrem1).expression ts (bump s) (le_refl _) m (by simp; omega)
          simp only [he]
          have hpos1 := ((pres m).expression ts (bump s) b1 s1 he).1
          simp only [bump_pos] at hpos1
          cases hE : expect ts s1 (some "SPECIAL CHARACTER") (some "]") none with
          | mk b2 s2 =>
            have hposE := (expect_stepOK ts s1 (some "SPECIAL CHARACTER") (some "]") none).1
            rw [hE] at hposE
            simp only [hE]
            have hrem2 : ts.length - s2.pos < R := by simp at hposE; omega
            obtain ⟨s3, h3⟩ := (IH _ hrem2).postfix_loop ts s2 (le_refl _) m (by omega)
            exact ⟨s3, h3⟩
        · rw [if_neg h1]
          by_cases h2 : t.type = "SPECIAL CHARACTER" ∧ t.value = "("
          · rw [if_pos h2]
            obtain ⟨⟨b1, s1⟩, he⟩ :=
              (IH _ hrem1).argument_list ts (bump s) (le_refl _) m (by simp; omega)
            simp only [he]
            have hpos1 := ((pres m).argument_list ts (bump s) b1 s1 he).1
            simp only [bump_pos] at hpos1
            cases hE : expect ts s1 (some "SPECIAL CHARACTER") (some ")") none with
            | mk b2 s2 =>
              have hposE := (expect_stepOK ts s1 (some "SPECIAL CHARACTER") (some ")") none).1
              rw [hE] at hposE
              simp only [hE]
              have hrem2 : ts.length - s2.pos < R := by simp at hposE; omega
              obtain ⟨s3, h3⟩ := (IH _ hrem2).postfix_loop ts s2 (le_refl _) m (by omega)
              exact ⟨s3, h3⟩
          · rw [if_neg h2]
            by_cases h3 : t.type = "OPERATOR" ∧ t.value ∈ ["++", "--"]
            · rw [if_pos h3]
              obtain ⟨s3, hrec⟩ := (IH _ hrem1).postfix_loop ts (bump s) (le_refl _) m (by simp; omega)
              exact ⟨s3, hrec⟩
            · rw [if_neg h3]; exact ⟨_, rfl⟩
  have hpostfix_expr : ∀ ts s, ts.length - s.pos ≤ R → ∀ n, 40 * R + 3 ≤ n →
      ∃ p, postfix_expr ts n s = some p := by
    intro ts s hR n hn
    rcases Nat.lt_or_ge (ts.length - s.pos) R with hsml | hge
    · exact (IH _ hsml).postfix_expr ts s (le_refl _) n (by omega)
    · obtain ⟨m, rfl⟩ : ∃ m, n = m + 1 := ⟨n - 1, by omega⟩
      simp only [postfix_expr]
      obtain ⟨⟨b1, s1⟩, h1⟩ := hprimary_expr ts s hR m (by omega)
      simp only [h1]
      have hpos1 := ((pres m).primary_expr ts s b1 s1 h1).1
      obtain ⟨s2, h2⟩ := hpostfix_loop ts s1 (by omega) m (by omega)
      simp only [h2]
      exact ⟨_, rfl⟩
  have hunary_expr : ∀ ts s, ts.length - s.pos ≤ R → ∀ n, 40 * R + 4 ≤ n →
      ∃ p, unary_expr ts n s = some p := by
    intro ts s hR n hn
    rcases Nat.lt_or_ge (ts.length - s.pos) R with hsml | hge
    · exact (IH _ hsml).unary_expr ts s (le_refl _) n (by omega)
    · obtain ⟨m, rfl⟩ : ∃ m, n = m + 1 := ⟨n - 1, by omega⟩
      simp only [unary_expr]
      cases hc : current_token ts s with
      | none =>
        simp only [hc]
        exact hpostfix_expr ts s hR m (by omega)
      | some t =>
        have hlt0 := current_token_some_lt hc
        simp only [hc]
        by_cases h1 : t.type = "OPERATOR" ∧ t.value ∈ ["+", "-", "++", "--", "!"]
        · rw [if_pos h1]
          have hrem1 : ts.length - (bump s).pos < R := by simp; omega
          exact (IH _ hrem1).unary_expr ts (bump s) (le_refl _) m (by simp; omega)
        · rw [if_neg h1]
          exact hpostfix_expr ts s hR m (by omega)
  have hmul_loop : ∀ ts s, ts.length - s.pos ≤ R → ∀ n, 40 * R + 5 ≤ n →
      ∃ p, mul_loop ts n s = some p := by
    intro ts s hR n hn
    rcases Nat.lt_or_ge (ts.length - s.pos) R with hsml | hge
    · exact (IH _ hsml).mul_loop ts s (le_refl _) n (by omega)
    · obtain ⟨m, rfl⟩ : ∃ m, n = m + 1 := ⟨n - 1, by omega⟩
      simp only [mul_loop]
      cases hc : current_token ts s with
      | none => exact ⟨_, rfl⟩
      | some t =>
        have hlt0 := current_token_some_lt hc
        simp only [hc]
        by_cases h1 : t.type = "OPERATOR" ∧ t.value ∈ ["*", "/", "%"]
        · rw [if_pos h1]
          have hrem1 : ts.length - (bump s).pos < R := by simp; omega
          obtain ⟨⟨b1, s1⟩, he⟩ :=
            (IH _ hrem1).unary_expr ts (bump s) (le_refl _) m (by simp; omega)
          simp only [he]
          have hpos1 := ((pres m).unary_expr ts (bump s) b1 s1 he).1
          simp only [bump_pos] at hpos1
          have hrem2 : ts.length - s1.pos < R := by omega
          obtain ⟨s2, h2⟩ := (IH _ hrem2).mul_loop ts s1 (le_refl _) m (by omega)
          exact ⟨s2, h2⟩
        · rw [if_neg h1]; exact ⟨_, rfl⟩
  have hmultiplicative_expr : ∀ ts s, ts.length - s.pos ≤ R → ∀ n, 40 * R + 6 ≤ n →
      ∃ p, multiplicative_expr ts n s = some p := by
    intro ts s hR n hn
    rcases Nat.lt_or_ge (ts.length - s.pos) R with hsml | hge
    · exact (IH _ hsml).multiplicative_expr ts s (le_refl _) n (by omega)
    · obtain ⟨m, rfl⟩ : ∃ m, n = m + 1 := ⟨n - 1, by omega⟩
      simp only [multiplicative_expr]
      obtain ⟨⟨b1, s1⟩, h1⟩ := hunary_expr ts s hR m (by omega)
      simp only [h1]
      have hpos1 := ((pres m).unary_expr ts s b1 s1 h1).1
      obtain ⟨s2, h2⟩ := hmul_loop ts s1 (by omega) m (by omega)
      simp only [h2]
      exact ⟨_, rfl⟩
  have hadd_loop : ∀ ts s, ts.length - s.pos ≤ R → ∀ n, 40 * R + 7 ≤ n →
      ∃ p, add_loop ts n s = some p := by
    intro ts s hR n hn
    rcases Nat.lt_or_ge (ts.length - s.pos) R with hsml | hge
    · exact (IH _ hsml).add_loop ts s (le_refl _) n (by omega)
    · obtain ⟨m, rfl⟩ : ∃ m, n = m + 1 := ⟨n - 1, by omega⟩
      simp only [add_loop]
      cases hc : current_token ts s with
      | none => exact ⟨_, rfl⟩
      | some t =>
        have hlt0 := current_token_some_lt hc
        simp only [hc]
        by_cases h1 : t.type = "OPERATOR" ∧ t.value ∈ ["+", "-"]
        · rw [if_pos h1]
          have hrem1 : ts.length - (bump s).pos < R := by simp; omega
          obtain ⟨⟨b1, s1⟩, he⟩ :=
            (IH _ hrem1).multiplicative_expr ts (bump s) (le_refl _) m (by simp; omega)
          simp only [he]
          have hpos1 := ((pres m).multiplicative_expr ts (bump s) b1 s1 he).1
          simp only [bump_pos] at hpos1
          have hrem2 : ts.length - s1.pos < R := by omega
          obtain ⟨s2, h2⟩ := (IH _ hrem2).add_loop ts s1 (le_refl _) m (by omega)
          exact ⟨s2, h2⟩
        · rw [if_neg h1]; exact ⟨_, rfl⟩
  have hadditive_expr : ∀ ts s, ts.length - s.pos ≤ R → ∀ n, 40 * R + 8 ≤ n →
      ∃ p, additive_expr ts n s = some p := by
    intro ts s hR n hn
    rcases Nat.lt_or_ge (ts.length - s.pos) R with hsml | hge
    · exact (IH _ hsml).additive_expr ts s (le_refl _) n (by omega)
    · obtain ⟨m, rfl⟩ : ∃ m, n = m + 1 := ⟨n - 1, by omega⟩
      simp only [additive_expr]
      obtain ⟨⟨b1, s1⟩, h1⟩ := hmultiplicative_expr ts s hR m (by omega)
      simp only [h1]
      have hpos1 := ((pres m).multiplicative_expr ts s b1 s1 h1).1
      obtain ⟨s2, h2⟩ := hadd_loop ts s1 (by omega) m (by omega)
      simp only [h2]
      exact ⟨_, rfl⟩
  have hrel_loop : ∀ ts s, ts.length - s.pos ≤ R → ∀ n, 40 * R + 9 ≤ n →
      ∃ p, rel_loop ts n s = some p := by
    intro ts s hR n hn
    rcases Nat.lt_or_ge (ts.length - s.pos) R with hsml | hge
    · exact (IH _ hsml).rel_loop ts s (le_refl _) n (by omega)
    · obtain ⟨m, rfl⟩ : ∃ m, n = m + 1 := ⟨n - 1, by omega⟩
      simp only [rel_loop]
      cases hc : current_token ts s with
      | none => exact ⟨_, rfl⟩
      | some t =>
        have hlt0 := current_token_some_lt hc
        simp only [hc]
        by_cases h1 : t.type = "OPERATOR" ∧ t.value ∈ ["<", ">", "<=", ">="]
        · rw [if_pos h1]
          have hrem1 : ts.length - (bump s).pos < R := by simp; omega
          obtain ⟨⟨b1, s1⟩, he⟩ :=
            (IH _ hrem1).additive_expr ts (bump s) (le_refl _) m (by simp; omega)
          simp only [he]
          have hpos1 := ((pres m).additive_expr ts (bump s) b1 s1 he).1
          simp only [bump_pos] at hpos1
          have hrem2 : ts.length - s1.pos < R := by omega
          obtain ⟨s2, h2⟩ := (IH _ hrem2).rel_loop ts s1 (le_refl _) m (by omega)
          exact ⟨s2, h2⟩
        · rw [if_neg h1]; exact ⟨_, rfl⟩
  have hrelational_expr : ∀ ts s, ts.length - s.pos ≤ R → ∀ n, 40 * R + 10 ≤ n →
      ∃ p, relational_expr ts n s = some p := by
    intro ts s hR n hn
    rcases Nat.lt_or_ge (ts.length - s.pos) R with hsml | hge
    · exact (IH _ hsml).relational_expr ts s (le_refl _) n (by omega)
    · obtain ⟨m, rfl⟩ : ∃ m, n = m + 1 := ⟨n - 1, by omega⟩
      simp only [relational_expr]
      obtain ⟨⟨b1, s1⟩, h1⟩ := hadditive_expr ts s hR m (by omega)
      simp only [h1]
      have hpos1 := ((pres m).additive_expr ts s b1 s1 h1).1
      obtain ⟨s2, h2⟩ := hrel_loop ts s1 (by omega) m (by omega)
      simp only [h2]
      exact ⟨_, rfl⟩
  have heq_loop : ∀ ts s, ts.length - s.pos ≤ R → ∀ n, 40 * R + 11 ≤ n →
      ∃ p, eq_loop ts n s = some p := by
    intro ts s hR n hn
    rcases Nat.lt_or_ge (ts.length - s.pos) R with hsml | hge
    · exact (IH _ hsml).eq_loop ts s (le_refl _) n (by omega)
    · obtain ⟨m, rfl⟩ : ∃ m, n = m + 1 := ⟨n - 1, by omega⟩
      simp only [eq_loop]
      cases hc : current_token ts s with
      | none => exact ⟨_, rfl⟩
      | some t =>
        have hlt0 := current_token_some_lt hc
        simp only [hc]
        by_cases h1 : t.type = "OPERATOR" ∧ t.value ∈ ["==", "!="]
        · rw [if_pos h1]
          have hrem1 : ts.length - (bump s).pos < R := by simp; omega
          obtain ⟨⟨b1, s1⟩, he⟩ :=
            (IH _ hrem1).relational_expr ts (bump s) (le_refl _) m (by simp; omega)
          simp only [he]
          have hpos1 := ((pres m).relational_expr ts (bump s) b1 s1 he).1
          simp only [bump_pos] at hpos1
          have hrem2 : ts.length - s1.pos < R := by omega
          obtain ⟨s2, h2⟩ := (IH _ hrem2).eq_loop ts s1 (le_refl _) m (by omega)
          exact ⟨s2, h2⟩
        · rw [if_neg h1]; exact ⟨_, rfl⟩
  have hequality_expr : ∀ ts s, ts.length - s.pos ≤ R → ∀ n, 40 * R + 12 ≤ n →
      ∃ p, equality_expr ts n s = some p := by
    intro ts s hR n hn
    rcases Nat.lt_or_ge (ts.length - s.pos) R with hsml | hge
    · exact (IH _ hsml).equality_expr ts s (le_refl _) n (by omega)
    · obtain ⟨m, rfl⟩ : ∃ m, n = m + 1 := ⟨n - 1, by omega⟩
      simp only [equality_expr]
      obtain ⟨⟨b1, s1⟩, h1⟩ := hrelational_expr ts s hR m (by omega)
      simp only [h1]
      have hpos1 := ((pres m).relational_expr ts s b1 s1 h1).1
      obtain ⟨s2, h2⟩ := heq_loop ts s1 (by omega) m (by omega)
      simp only [h2]
      exact ⟨_, rfl⟩
  have hland_loop : ∀ ts s, ts.length - s.pos ≤ R → ∀ n, 40 * R + 13 ≤ n →
      ∃ p, land_loop ts n s = some p := by
    intro ts s hR n hn
    rcases Nat.lt_or_ge (ts.length - s.pos) R with hsml | hge
    · exact (IH _ hsml).land_loop ts s (le_refl _) n (by omega)
    · obtain ⟨m, rfl⟩ : ∃ m, n = m + 1 := ⟨n - 1, by omega⟩
      simp only [land_loop]
      cases hc : current_token ts s with
      | none => exact ⟨_, rfl⟩
      | some t =>
        have hlt0 := current_token_some_lt hc
        simp only [hc]
        by_cases h1 : t.type = "OPERATOR" ∧ t.value = "&&"
        · rw [if_pos h1]
          have hrem1 : ts.length - (bump s).pos < R := by simp; omega
          obtain ⟨⟨b1, s1⟩, he⟩ :=
            (IH _ hrem1).equality_expr ts (bump s) (le_refl _) m (by simp; omega)
          simp only [he]
          have hpos1 := ((pres m).equality_expr ts (bump s) b1 s1 he).1
          simp only [bump_pos] at hpos1
          have hrem2 : ts.length - s1.pos < R := by omega
          obtain ⟨s2, h2⟩ := (IH _ hrem2).land_loop ts s1 (le_refl _) m (by omega)
          exact ⟨s2, h2⟩
        · rw [if_neg h1]; exact ⟨_, rfl⟩
  have hlogical_and_expr : ∀ ts s, ts.length - s.pos ≤ R → ∀ n, 40 * R + 14 ≤ n →
      ∃ p, logical_and_expr ts n s = some p := by
    intro ts s hR n hn
    rcases Nat.lt_or_ge (ts.length - s.pos) R with hsml | hge
    · exact (IH _ hsml).logical_and_expr ts s (le_refl _) n (by omega)
    · obtain ⟨m, rfl⟩ : ∃ m, n = m + 1 := ⟨n - 1, by omega⟩
      simp only [logical_and_expr]
      obtain ⟨⟨b1, s1⟩, h1⟩ := hequality_expr ts s hR m (by omega)
      simp only [h1]
      have hpos1 := ((pres m).equality_expr ts s b1 s1 h1).1
      obtain ⟨s2, h2⟩ := hland_loop ts s1 (by omega) m (by omega)
      simp only [h2]
      exact ⟨_, rfl⟩
  have hlor_loop : ∀ ts s, ts.length - s.pos ≤ R → ∀ n, 40 * R + 15 ≤ n →
      ∃ p, lor_loop ts n s = some p := by
    intro ts s hR n hn
    rcases Nat.lt_or_ge (ts.length - s.pos) R with hsml | hge
    · exact (IH _ hsml).lor_loop ts s (le_refl _) n (by omega)
    · obtain ⟨m, rfl⟩ : ∃ m, n = m + 1 := ⟨n - 1, by omega⟩
      simp only [lor_loop]
      cases hc : current_token ts s with
      | none => exact ⟨_, rfl⟩
      | some t =>
        have hlt0 := current_token_some_lt hc
        simp only [hc]
        by_cases h1 : t.type = "OPERATOR" ∧ t.value = "||"
        · rw [if_pos h1]
          have hrem1 : ts.length - (bump s).pos < R := by simp; omega
          obtain ⟨⟨b1, s1⟩, he⟩ :=
            (IH _ hrem1).logical_and_expr ts (bump s) (le_refl _) m (by simp; omega)
          simp only [he]
          have hpos1 := ((pres m).logical_and_expr ts (bump s) b1 s1 he).1
          simp only [bump_pos] at hpos1
          have hrem2 : ts.length - s1.pos < R := by omega
          obtain ⟨s2, h2⟩ := (IH _ hrem2).lor_loop ts s1 (le_refl _) m (by omega)
          exact ⟨s2, h2⟩
        · rw [if_neg h1]; exact ⟨_, rfl⟩
  have hlogical_or_expr : ∀ ts s, ts.length - s.pos ≤ R → ∀ n, 40 * R + 16 ≤ n →
      ∃ p, logical_or_expr ts n s = some p := by
    intro ts s hR n hn
    rcases Nat.lt_or_ge (ts.length - s.pos) R with hsml | hge
    · exact (IH _ hsml).logical_or_expr ts s (le_refl _) n (by omega)
    · obtain ⟨m, rfl⟩ : ∃ m, n = m + 1 := ⟨n - 1, by omega⟩
      simp only [logical_or_expr]
      obtain ⟨⟨b1, s1⟩, h1⟩ := hlogical_and_expr ts s hR m (by omega)
      simp only [h1]
      have hpos1 := ((pres m).logical_and_expr ts s b1 s1 h1).1
      obtain ⟨s2, h2⟩ := hlor_loop ts s1 (by omega) m (by omega)
      simp only [h2]
      exact ⟨_, rfl⟩
  have hexpression : ∀ ts s, ts.length - s.pos ≤ R → ∀ n, 40 * R + 17 ≤ n →
      ∃ p, expression ts n s = some p := by
    intro ts s hR n hn
    rcases Nat.lt_or_ge (ts.length - s.pos) R with hsml | hge
    · exact (IH _ hsml).expression ts s (le_refl _) n (by omega)
    · obtain ⟨m, rfl⟩ : ∃ m, n = m + 1 := ⟨n - 1, by omega⟩
      simp only [expression]
      exact hlogical_or_expr ts s hR m (by omega)
  have harg_loop : ∀ ts s, ts.length - s.pos ≤ R → ∀ n, 40 * R + 18 ≤ n →
      ∃ p, arg_loop ts n s = some p := by
    intro ts s hR n hn
    rcases Nat.lt_or_ge (ts.length - s.pos) R with hsml | hge
    · exact (IH _ hsml).arg_loop ts s (le_refl _) n (by omega)
    · obtain ⟨m, rfl⟩ : ∃ m, n = m + 1 := ⟨n - 1, by omega⟩
      simp only [arg_loop]
      cases hc : current_token ts s with
      | none => exact ⟨_, rfl⟩
      | some t =>
        have hlt0 := current_token_some_lt hc
        simp only [hc]
        by_cases h1 : t.type = "SPECIAL CHARACTER" ∧ t.value = ","
        · rw [if_pos h1]
          have hrem1 : ts.length - (bump s).pos < R := by simp; omega
          obtain ⟨⟨b1, s1⟩, he⟩ :=
            (IH _ hrem1).expression ts (bump s) (le_refl _) m (by simp; omega)
          simp only [he]
          have hpos1 := ((pres m).expression ts (bump s) b1 s1 he).1
          simp only [bump_pos] at hpos1
          have hrem2 : ts.length - s1.pos < R := by omega
          obtain ⟨s2, h2⟩ := (IH _ hrem2).arg_loop ts s1 (le_refl _) m (by omega)
          exact ⟨s2, h2⟩
        · rw [if_neg h1]; exact ⟨_, rfl⟩
  have hargument_list : ∀ ts s, ts.length - s.pos ≤ R → ∀ n, 40 * R + 19 ≤ n →
      ∃ p, argument_list ts n s = some p := by
    intro ts s hR n hn
    rcases Nat.lt_or_ge (ts.length - s.pos) R with hsml | hge
    · exact (IH _ hsml).argument_list ts s (le_refl _) n (by omega)
    · obtain ⟨m, rfl⟩ : ∃ m, n = m + 1 := ⟨n - 1, by omega⟩
      simp only [argument_list]
      have hbody : ∃ p, (match expression ts m s with
          | none => none
          | some (_, s1) =>
            match arg_loop ts m s1 with
            | none => none
            | some s2 => some (true, s2)) = some p := by
        obtain ⟨⟨b1, s1⟩, h1⟩ := hexpression ts s hR m (by omega)
        simp only [h1]
        have hpos1 := ((pres m).expression ts s b1 s1 h1).1
        obtain ⟨s2, h2⟩ := harg_loop ts s1 (by omega) m (by omega)
        simp only [h2]
        exact ⟨_, rfl⟩
      cases hc : current_token ts s with
      | none =>
        simp only [hc]
        exact hbody
      | some t =>
        simp only [hc]
        by_cases h1 : t.type = "SPECIAL CHARACTER" ∧ t.value = ")"
        · rw [if_pos h1]; exact ⟨_, rfl⟩
        · rw [if_neg h1]; exact hbody
  have hexpression_statement : ∀ ts s, ts.length - s.pos ≤ R → ∀ n, 40 * R + 20 ≤ n →
      ∃ p, expression_statement ts n s = some p := by
    intro ts s hR n hn
    rcases Nat.lt_or_ge (ts.length - s.pos) R with hsml | hge
    · exact (IH _ hsml).expression_statement ts s (le_refl _) n (by omega)
    · obtain ⟨m, rfl⟩ : ∃ m, n = m + 1 := ⟨n - 1, by omega⟩
      simp only [expression_statement]
      obtain ⟨⟨b1, s1⟩, h1⟩ := hexpression ts s hR m (by omega)
      simp only [h1]
      cases hE : expect ts s1 (some "SPECIAL CHARACTER") (some ";") none with
      | mk b2 s2 => cases b2 <;> simp only [hE] <;> exact ⟨_, rfl⟩
  have hassign_tail : ∀ ts s, ts.length - s.pos ≤ R → ∀ n, 40 * R + 21 ≤ n →
      ∃ p, assign_tail ts n s = some p := by
    intro ts s hR n hn
    rcases Nat.lt_or_ge (ts.length - s.pos) R with hsml | hge
    · exact (IH _ hsml).assign_tail ts s (le_refl _) n (by omega)
    · obtain ⟨m, rfl⟩ : ∃ m, n = m + 1 := ⟨n - 1, by omega⟩
      simp only [assign_tail]
      have hsemi : ∀ sv : St, ∃ p, (match expect ts sv (some "SPECIAL CHARACTER") (some ";") none with
          | (false, s2) => some (false, s2)
          | (true, s2) => some (true, s2)) = some p := by
        intro sv
        cases hE : expect ts sv (some "SPECIAL CHARACTER") (some ";") none with
        | mk b2 s2 => cases b2 <;> simp only [hE] <;> exact ⟨_, rfl⟩
      cases hc : current_token ts s with
      | none =>
        simp only [hc]
        exact hsemi s
      | some t =>
        have hlt0 := current_token_some_lt hc
        simp only [hc]
        by_cases h1 : t.type = "OPERATOR" ∧ t.value = "="
        · rw [if_pos h1]
          have hrem1 : ts.length - (bump s).pos < R := by simp; omega
          obtain ⟨⟨b1, s1⟩, he⟩ :=
            (IH _ hrem1).expression ts (bump s) (le_refl _) m (by simp; omega)
          simp only [he]
          exact hsemi s1
        · rw [if_neg h1]
          exact hsemi s
  have hcomma_init_loop : ∀ ts s, ts.length - s.pos ≤ R → ∀ n, 40 * R + 21 ≤ n →
      ∃ p, comma_init_loop ts n s = some p := by
    intro ts s hR n hn
    rcases Nat.lt_or_ge (ts.length - s.pos) R with hsml | hge
    · exact (IH _ hsml).comma_init_loop ts s (le_refl _) n (by omega)
    · obtain ⟨m, rfl⟩ : ∃ m, n = m + 1 := ⟨n - 1, by omega⟩
      simp only [comma_init_loop]
      cases hc : current_token ts s with
      | none => exact ⟨_, rfl⟩
      | some t =>
        have hlt0 := current_token_some_lt hc
        simp only [hc]
        by_cases h1 : t.type = "SPECIAL CHARACTER" ∧ t.value = ","
        · rw [if_pos h1]
          cases hE : expect ts (bump s) (some "IDENTIFIER") none none with
          | mk b1 s1 =>
            cases b1 with
            | false => simp only [hE]; exact ⟨_, rfl⟩
            | true =>
              obtain ⟨hbump, hlt1⟩ := expect_true hE
              subst hbump
              simp only [hE]
              simp only [bump_pos] at hlt1
              cases hc2 : current_token ts (bump (bump s)) with
              | none =>
                simp only [hc2]
                have hrem2 : ts.length - (bump (bump s)).pos < R := by simp; omega
                exact (IH _ hrem2).comma_init_loop ts (bump (bump s)) (le_refl _) m (by simp; omega)
              | some t2 =>
                have hlt2 := current_token_some_lt hc2
                simp only [bump_pos] at hlt2
                simp only [hc2]
                by_cases h2 : t2.type = "OPERATOR" ∧ t2.value = "="
                · rw [if_pos h2]
                  have hrem2 : ts.length - (bump (bump (bump s))).pos < R := by simp; omega
                  obtain ⟨⟨b2, s2⟩, he⟩ :=
                    (IH _ hrem2).expression ts (bump (bump (bump s))) (le_refl _) m (by simp; omega)
                  simp only [he]
                  have hpos2 := ((pres m).expression ts (bump (bump (bump s))) b2 s2 he).1
                  simp only [bump_pos] at hpos2
                  have hrem3 : ts.length - s2.pos < R := by omega
                  exact (IH _ hrem3).comma_init_loop ts s2 (le_refl _) m (by omega)
                · rw [if_neg h2]
                  have hrem2 : ts.length - (bump (bump s)).pos < R := by simp; omega
                  exact (IH _ hrem2).comma_init_loop ts (bump (bump s)) (le_refl _) m (by simp; omega)
        · rw [if_neg h1]
          exact ⟨_, rfl⟩
  have hassign : ∀ ts s, ts.length - s.pos ≤ R → current_token ts s ≠ none → ∀ n, 40 * R + 22 ≤ n →
      ∃ p, assign ts n s = some p := by
    intro ts s hR hcur n hn
    rcases Nat.lt_or_ge (ts.length - s.pos) R with hsml | hge
    · exact (IH _ hsml).assign ts s (le_refl _) hcur n (by omega)
    · obtain ⟨m, rfl⟩ : ∃ m, n = m + 1 := ⟨n - 1, by omega⟩
      simp only [assign]
      cases hc : current_token ts s with
      | none => exact absurd hc hcur
      | some tok =>
        have hlt0 := current_token_some_lt hc
        simp only [hc]
        by_cases h1 : tok.type = "KEYWORD" ∧ tok.value ∈ datatypes
        · rw [if_pos h1]
          cases hE : expect ts (bump s) (some "IDENTIFIER") none none with
          | mk b1 s2 =>
            cases b1 with
            | false => simp only [hE]; exact ⟨_, rfl⟩
            | true =>
              obtain ⟨hbump, hlt1⟩ := expect_true hE
              subst hbump
              simp only [hE]
              simp only [bump_pos] at hlt1
              have hrem2 : ts.length - (bump (bump s)).pos < R := by simp; omega
              obtain ⟨⟨b3, s3⟩, hcl⟩ :=
                (IH _ hrem2).comma_init_loop ts (bump (bump s)) (le_refl _) m (by simp; omega)
              simp only [hcl]
              have hpos3 := ((pres m).comma_init_loop ts (bump (bump s)) b3 s3 hcl).1
              simp only [bump_pos] at hpos3
              cases b3 with
              | false => exact ⟨_, rfl⟩
              | true =>
                have hrem3 : ts.length - s3.pos < R := by omega
                exact (IH _ hrem3).assign_tail ts s3 (le_refl _) m (by omega)
        · rw [if_neg h1]
          cases hE : expect ts s (some "IDENTIFIER") none none with
          | mk b1 s2 =>
            cases b1 with
            | false => simp only [hE]; exact ⟨_, rfl⟩
            | true =>
              obtain ⟨hbump, hlt1⟩ := expect_true hE
              subst hbump
              simp only [hE]
              have hrem2 : ts.length - (bump s).pos < R := by simp; omega
              exact (IH _ hrem2).assign_tail ts (bump s) (le_refl _) m (by simp; omega)
  have hif_statement : ∀ ts s, ts.length - s.pos ≤ R → ∀ n, 40 * R + 22 ≤ n →
      ∃ p, if_statement ts n s = some p := by
    intro ts s hR n hn
    rcases Nat.lt_or_ge (ts.length - s.pos) R with hsml | hge
    · exact (IH _ hsml).if_statement ts s (le_refl _) n (by omega)
    · obtain ⟨m, rfl⟩ : ∃ m, n = m + 1 := ⟨n - 1, by omega⟩
      simp only [if_statement]
      cases hE1 : expect ts (bump s) (some "SPECIAL CHARACTER") (some "(") none with
      | mk b1 s2 =>
        cases b1 with
        | false => simp only [hE1]; exact ⟨_, rfl⟩
        | true =>
          obtain ⟨hbump, hlt1⟩ := expect_true hE1
          subst hbump
          simp only [hE1]
          simp only [bump_pos] at hlt1
          have hrem2 : ts.length - (bump (bump s)).pos < R := by simp; omega
          obtain ⟨⟨b2, s3⟩, he⟩ :=
            (IH _ hrem2).expression ts (bump (bump s)) (le_refl _) m (by simp; omega)
          simp only [he]
          have hpos3 := ((pres m).expression ts (bump (bump s)) b2 s3 he).1
          simp only [bump_pos] at hpos3
          cases hE2 : expect ts s3 (some "SPECIAL CHARACTER") (some ")") none with
          | mk b3 s4 =>
            have hposE2 := (expect_stepOK ts s3 (some "SPECIAL CHARACTER") (some ")") none).1
            rw [hE2] at hposE2
            simp only [] at hposE2
            cases b3 with
            | false => simp only [hE2]; exact ⟨_, rfl⟩
            | true =>
              simp only [hE2]
              have hrem4 : ts.length - s4.pos < R := by omega
              obtain ⟨s5, h5, hpos5⟩ := hbody_choice ts s4 hrem4 m (by omega)
              simp only [h5]
              cases hc5 : current_token ts s5 with
              | none => simp only [hc5]; exact ⟨_, rfl⟩
              | some t5 =>
                have hlt5 := current_token_some_lt hc5
                simp only [hc5]
                by_cases h6 : t5.type = "KEYWORD" ∧ t5.value = "else"
                · rw [if_pos h6]
                  have hrem6 : ts.length - (bump s5).pos < R := by simp; omega
                  obtain ⟨s6, h7, hpos7⟩ := hbody_choice ts (bump s5) hrem6 m (by omega)
                  simp only [h7]
                  exact ⟨_, rfl⟩
                · rw [if_neg h6]
                  exact ⟨_, rfl⟩
  have hwhile_statement : ∀ ts s, ts.length - s.pos ≤ R → ∀ n, 40 * R + 22 ≤ n →
      ∃ p, while_statement ts n s = some p := by
    intro ts s hR n hn
    rcases Nat.lt_or_ge (ts.length - s.pos) R with hsml | hge
    · exact (IH _ hsml).while_statement ts s (le_refl _) n (by omega)
    · obtain ⟨m, rfl⟩ : ∃ m, n = m + 1 := ⟨n - 1, by omega⟩
      simp only [while_statement]
      cases hE1 : expect ts (bump s) (some "SPECIAL CHARACTER") (some "(") none with
      | mk b1 s2 =>
        cases b1 with
        | false => simp only [hE1]; exact ⟨_, rfl⟩
        | true =>
          obtain ⟨hbump, hlt1⟩ := expect_true hE1
          subst hbump
          simp only [hE1]
          simp only [bump_pos] at hlt1
          have hrem2 : ts.length - (bump (bump s)).pos < R := by simp; omega
          obtain ⟨⟨b2, s3⟩, he⟩ :=
            (IH _ hrem2).expression ts (bump (bump s)) (le_refl _) m (by simp; omega)
          simp only [he]
          have hpos3 := ((pres m).expression ts (bump (bump s)) b2 s3 he).1
          simp only [bump_pos] at hpos3
          cases hE2 : expect ts s3 (some "SPECIAL CHARACTER") (some ")") none with
          | mk b3 s4 =>
            have hposE2 := (expect_stepOK ts s3 (some "SPECIAL CHARACTER") (some ")") none).1
            rw [hE2] at hposE2
            simp only [] at hposE2
            cases b3 with
            | false => simp only [hE2]; exact ⟨_, rfl⟩
            | true =>
              simp only [hE2]
              have hrem4 : ts.length - s4.pos < R := by omega
              obtain ⟨s5, h5, hpos5⟩ := hbody_choice ts s4 hrem4 m (by omega)
              simp only [h5]
              exact ⟨_, rfl⟩
  have hreturn_statement : ∀ ts s, ts.length - s.pos ≤ R → ∀ n, 40 * R + 22 ≤ n →
      ∃ p, return_statement ts n s = some p := by
    intro ts s hR n hn
    rcases Nat.lt_or_ge (ts.length - s.pos) R with hsml | hge
    · exact (IH _ hsml).return_statement ts s (le_refl _) n (by omega)
    · obtain ⟨m, rfl⟩ : ∃ m, n = m + 1 := ⟨n - 1, by omega⟩
      simp only [return_statement]
      have hex : ∃ p : St, (match current_token ts (bump s) with
          | some t =>
            if ¬(t.type = "SPECIAL CHARACTER" ∧ t.value = ";") then
              match expression ts m (bump s) with
              | none => none
              | some (_, sa) => some sa
            else some (bump s)
          | none => some (bump s)) = some p ∧ s.pos < p.pos := by
        cases hc1 : current_token ts (bump s) with
        | none => exact ⟨_, rfl, by simp⟩
        | some t1 =>
          have hlt1 := current_token_some_lt hc1
          simp only [bump_pos] at hlt1
          simp only []
          by_cases hsemi : t1.type = "SPECIAL CHARACTER" ∧ t1.value = ";"
          · rw [if_neg (not_not_intro hsemi)]
            exact ⟨_, rfl, by simp⟩
          · rw [if_pos hsemi]
            have hrem1 : ts.length - (bump s).pos < R := by simp; omega
            obtain ⟨⟨be, se⟩, he⟩ :=
              (IH _ hrem1).expression ts (bump s) (le_refl _) m (by simp; omega)
            simp only [he]
            have hpose := ((pres m).expression ts (bump s) be se he).1
            simp only [bump_pos] at hpose
            exact ⟨_, rfl, by omega⟩
      obtain ⟨s2, h2, hpos2⟩ := hex
      simp only [h2]
      cases hE : expect ts s2 (some "SPECIAL CHARACTER") (some ";") none with
      | mk b2 s3 => cases b2 <;> simp only [hE] <;> exact ⟨_, rfl⟩
  have hblock : ∀ ts s, ts.length - s.pos ≤ R → ∀ n, 40 * R + 23 ≤ n →
      ∃ p, block ts n s = some p := by
    intro ts s hR n hn
    rcases Nat.lt_or_ge (ts.length - s.pos) R with hsml | hge
    · exact (IH _ hsml).block ts s (le_refl _) n (by omega)
    · obtain ⟨m, rfl⟩ : ∃ m, n = m + 1 := ⟨n - 1, by omega⟩
      simp only [block]
      cases hE : expect ts s (some "SPECIAL CHARACTER") (some "\x7b") none with
      | mk b1 s1 =>
        cases b1 with
        | false => simp only [hE]; exact ⟨_, rfl⟩
        | true =>
          obtain ⟨hbump, hlt1⟩ := expect_true hE
          subst hbump
          simp only [hE]
          have hrem1 : ts.length - (bump s).pos < R := by simp; omega
          exact (IH _ hrem1).block_loop ts (bump s) (le_refl _) m (by simp; omega)
  have hfunc : ∀ ts s, ts.length - s.pos ≤ R → ∀ n, 40 * R + 24 ≤ n →
      ∃ p, func ts n s = some p := by
    intro ts s hR n hn
    rcases Nat.lt_or_ge (ts.length - s.pos) R with hsml | hge
    · exact (IH _ hsml).func ts s (le_refl _) n (by omega)
    · obtain ⟨m, rfl⟩ : ∃ m, n = m + 1 := ⟨n - 1, by omega⟩
      simp only [func]
      cases hc : current_token ts s with
      | none => exact ⟨_, rfl⟩
      | some tok0 =>
        simp only [hc]
        rcases datatype_cases ts s with hd | ⟨hd, hlt0⟩
        · simp only [hd]
          exact ⟨_, rfl⟩
        · simp only [hd]
          cases hc1 : current_token ts (bump s) with
          | none => simp only [hc1]; exact ⟨_, rfl⟩
          | some tok =>
            have hlt1 := current_token_some_lt hc1
            simp only [bump_pos] at hlt1
            simp only [hc1]
            by_cases htype : tok.type = "IDENTIFIER" ∨ tok.type = "KEYWORD"
            · rw [if_neg (not_not_intro htype)]
              have cont : ∀ s2v : St, s2v.pos = s.pos + 1 →
                  ∃ p, (match expect ts (bump s2v) (some "SPECIAL CHARACTER") (some "(") none with
                    | (false, s4) => some (false, s4)
                    | (true, s4) =>
                      match expect ts s4 (some "SPECIAL CHARACTER") (some ")") none with
                      | (false, s5) => some (false, s5)
                      | (true, s5) => block ts m s5) = some p := by
                intro s2v hpos
                cases hE1 : expect ts (bump s2v) (some "SPECIAL CHARACTER") (some "(") none with
                | mk b1 s4 =>
                  cases b1 with
                  | false => simp only [hE1]; exact ⟨_, rfl⟩
                  | true =>
                    obtain ⟨hbump1, hltA⟩ := expect_true hE1
                    subst hbump1
                    simp only [hE1]
                    simp only [bump_pos, hpos] at hltA
                    cases hE2 : expect ts (bump (bump s2v)) (some "SPECIAL CHARACTER") (some ")") none with
                    | mk b2 s5 =>
                      cases b2 with
                      | false => simp only [hE2]; exact ⟨_, rfl⟩
                      | true =>
                        obtain ⟨hbump2, hltB⟩ := expect_true hE2
                        subst hbump2
                        simp only [hE2]
                        simp only [bump_pos, hpos] at hltB
                        have hrem5 : ts.length - (bump (bump (bump s2v))).pos < R := by
                          simp only [bump_pos, hpos]; omega
                        exact (IH _ hrem5).block ts (bump (bump (bump s2v))) (le_refl _) m
                          (by simp only [bump_pos, hpos]; omega)
              by_cases hm : tok.value = "main"
              · rw [if_pos hm]
                exact cont (setMain (bump s)) (by simp)
              · rw [if_neg hm]
                exact cont (bump s) (by simp)
            · rw [if_pos htype]
              exact ⟨_, rfl⟩
  have hglobal_variable : ∀ ts s, ts.length - s.pos ≤ R → ∀ n, 40 * R + 24 ≤ n →
      ∃ p, global_variable ts n s = some p := by
    intro ts s hR n hn
    rcases Nat.lt_or_ge (ts.length - s.pos) R with hsml | hge
    · exact (IH _ hsml).global_variable ts s (le_refl _) n (by omega)
    · obtain ⟨m, rfl⟩ : ∃ m, n = m + 1 := ⟨n - 1, by omega⟩
      simp only [global_variable]
      cases hE : expect ts (bump s) (some "IDENTIFIER") none none with
      | mk b1 s1 =>
        cases b1 with
        | false => simp only [hE]; exact ⟨_, rfl⟩
        | true =>
          obtain ⟨hbump, hlt1⟩ := expect_true hE
          subst hbump
          simp only [hE]
          simp only [bump_pos] at hlt1
          have hafter : ∃ p : St, (match current_token ts (bump (bump s)) with
              | some t =>
                if t.type = "OPERATOR" ∧ t.value = "=" then
                  match expression ts m (bump (bump (bump s))) with
                  | none => none
                  | some (_, s2) => some s2
                else some (bump (bump s))
              | none => some (bump (bump s))) = some p ∧ s.pos + 2 ≤ p.pos := by
            cases hc1 : current_token ts (bump (bump s)) with
            | none => exact ⟨_, rfl, by simp⟩
            | some t1 =>
              have hlt2 := current_token_some_lt hc1
              simp only [bump_pos] at hlt2
              simp only []
              by_cases heq1 : t1.type = "OPERATOR" ∧ t1.value = "="
              · rw [if_pos heq1]
                have hrem1 : ts.length - (bump (bump (bump s))).pos < R := by simp; omega
                obtain ⟨⟨be, se⟩, he⟩ :=
                  (IH _ hrem1).expression ts (bump (bump (bump s))) (le_refl _) m (by simp; omega)
                simp only [he]
                have hpose := ((pres m).expression ts (bump (bump (bump s))) be se he).1
                simp only [bump_pos] at hpose
                exact ⟨_, rfl, by omega⟩
              · rw [if_neg heq1]
                exact ⟨_, rfl, by simp⟩
          obtain ⟨s2, h2, hpos2⟩ := hafter
          simp only [h2]
          have hrem2 : ts.length - s2.pos < R := by omega
          obtain ⟨⟨b3, s3⟩, hcl⟩ :=
            (IH _ hrem2).comma_init_loop ts s2 (le_refl _) m (by omega)
          simp only [hcl]
          cases b3 with
          | false => exact ⟨_, rfl⟩
          | true =>
            cases hE2 : expect ts s3 (some "SPECIAL CHARACTER") (some ";") none with
            | mk b4 s4 => cases b4 <;> simp only [hE2] <;> exact ⟨_, rfl⟩
  have hfor_statement : ∀ ts s, ts.length - s.pos ≤ R → ∀ n, 40 * R + 22 ≤ n →
      ∃ p, for_statement ts n s = some p := by
    intro ts s hR n hn
    rcases Nat.lt_or_ge (ts.length - s.pos) R with hsml | hge
    · exact (IH _ hsml).for_statement ts s (le_refl _) n (by omega)
    · obtain ⟨m, rfl⟩ : ∃ m, n = m + 1 := ⟨n - 1, by omega⟩
      simp only [for_statement]
      cases hE1 : expect ts (bump s) (some "SPECIAL CHARACTER") (some "(") none with
      | mk b1 s2 =>
        cases b1 with
        | false => simp only [hE1]; exact ⟨_, rfl⟩
        | true =>
          obtain ⟨hbump, hlt1⟩ := expect_true hE1
          subst hbump
          simp only [hE1]
          simp only [bump_pos] at hlt1
          have hexprsemi : ∃ p : St, (match expression ts m (bump (bump s)) with
              | none => none
              | some (_, sa) => some (expect ts sa (some "SPECIAL CHARACTER") (some ";") none).2) = some p ∧
              s.pos + 2 ≤ p.pos := by
            have hrem1 : ts.length - (bump (bump s)).pos < R := by simp; omega
            obtain ⟨⟨be, se⟩, he⟩ :=
              (IH _ hrem1).expression ts (bump (bump s)) (le_refl _) m (by simp; omega)
            simp only [he]
            have hpose := ((pres m).expression ts (bump (bump s)) be se he).1
            simp only [bump_pos] at hpose
            have hposE := (expect_stepOK ts se (some "SPECIAL CHARACTER") (some ";") none).1
            exact ⟨_, rfl, by omega⟩
          have hinit : ∃ p : St, (match current_token ts (bump (bump s)) with
              | some t =>
                if t.type = "KEYWORD" then
                  match assign ts m (bump (bump s)) with
                  | none => none
                  | some (_, sa) => some sa
                else
                  match expression ts m (bump (bump s)) with
                  | none => none
                  | some (_, sa) => some (expect ts sa (some "SPECIAL CHARACTER") (some ";") none).2
              | none =>
                match expression ts m (bump (bump s)) with
                | none => none
                | some (_, sa) => some (expect ts sa (some "SPECIAL CHARACTER") (some ";") none).2) = some p ∧
              s.pos + 2 ≤ p.pos := by
            cases hc2 : current_token ts (bump (bump s)) with
            | none =>
              simp only [hc2]
              exact hexprsemi
            | some t2 =>
              simp only [hc2]
              by_cases hkw : t2.type = "KEYWORD"
              · rw [if_pos hkw]
                have hrem1 : ts.length - (bump (bump s)).pos < R := by simp; omega
                obtain ⟨⟨ba, sa⟩, ha⟩ := (IH _ hrem1).assign ts (bump (bump s)) (le_refl _)
                  (by rw [hc2]; simp) m (by simp; omega)
                simp only [ha]
                have hposa := ((pres m).assign ts (bump (bump s)) ba sa ha).1.1
                simp only [bump_pos] at hposa
                exact ⟨_, rfl, by omega⟩
              · rw [if_neg hkw]
                exact hexprsemi
          obtain ⟨s3, h3, hpos3⟩ := hinit
          simp only [h3]
          have hcond : ∃ p : St, (match current_token ts s3 with
              | some t =>
                if ¬(t.type = "SPECIAL CHARACTER" ∧ t.value = ";") then
                  match expression ts m s3 with
                  | none => none
                  | some (_, sa) => some sa
                else some s3
              | none => some s3) = some p ∧ s3.pos ≤ p.pos := by
            cases hc3 : current_token ts s3 with
            | none => exact ⟨_, rfl, le_refl _⟩
            | some t3 =>
              have hlt3 := current_token_some_lt hc3
              simp only [hc3]
              by_cases hsemi : t3.type = "SPECIAL CHARACTER" ∧ t3.value = ";"
              · rw [if_neg (not_not_intro hsemi)]
                exact ⟨_, rfl, le_refl _⟩
              · rw [if_pos hsemi]
                have hrem3 : ts.length - s3.pos < R := by omega
                obtain ⟨⟨be, se⟩, he⟩ :=
                  (IH _ hrem3).expression ts s3 (le_refl _) m (by omega)
                simp only [he]
                exact ⟨_, rfl, ((pres m).expression ts s3 be se he).1⟩
          obtain ⟨s4, h4, hpos4⟩ := hcond
          simp only [h4]
          have hposE3 := (expect_stepOK ts s4 (some "SPECIAL CHARACTER") (some ";") none).1
          have hupd : ∃ p : St, (match current_token ts
                (expect ts s4 (some "SPECIAL CHARACTER") (some ";") none).2 with
              | some t =>
                if ¬(t.type = "SPECIAL CHARACTER" ∧ t.value = ")") then
                  match expression ts m (expect ts s4 (some "SPECIAL CHARACTER") (some ";") none).2 with
                  | none => none
                  | some (_, sa) => some sa
                else some (expect ts s4 (some "SPECIAL CHARACTER") (some ";") none).2
              | none => some (expect ts s4 (some "SPECIAL CHARACTER") (some ";") none).2) = some p ∧
              (expect ts s4 (some "SPECIAL CHARACTER") (some ";") none).2.pos ≤ p.pos := by
            cases hc5 : current_token ts (expect ts s4 (some "SPECIAL CHARACTER") (some ";") none).2 with
            | none => exact ⟨_, rfl, le_refl _⟩
            | some t5 =>
              have hlt5 := current_token_some_lt hc5
              simp only [hc5]
              by_cases hpar : t5.type = "SPECIAL CHARACTER" ∧ t5.value = ")"
              · rw [if_neg (not_not_intro hpar)]
                exact ⟨_, rfl, le_refl _⟩
              · rw [if_pos hpar]
                have hrem5 : ts.length - (expect ts s4 (some "SPECIAL CHARACTER") (some ";") none).2.pos < R := by
                  omega
                obtain ⟨⟨be, se⟩, he⟩ := (IH _ hrem5).expression ts
                  (expect ts s4 (some "SPECIAL CHARACTER") (some ";") none).2 (le_refl _) m (by omega)
                simp only [he]
                exact ⟨_, rfl,
                  ((pres m).expression ts (expect ts s4 (some "SPECIAL CHARACTER") (some ";") none).2 be se he).1⟩
          obtain ⟨s6, h6, hpos6⟩ := hupd
          simp only [h6]
          cases hE5 : expect ts s6 (some "SPECIAL CHARACTER") (some ")") none with
          | mk b7 s7 =>
            cases b7 with
            | false => simp only [hE5]; exact ⟨_, rfl⟩
            | true =>
              have hposE5 := (expect_stepOK ts s6 (some "SPECIAL CHARACTER") (some ")") none).1
              rw [hE5] at hposE5
              simp only [] at hposE5
              simp only [hE5]
              have hrem7 : ts.length - s7.pos < R := by omega
              obtain ⟨s8, h8, hpos8⟩ := hbody_choice ts s7 hrem7 m (by omega)
              simp only [h8]
              exact ⟨_, rfl⟩
  have hx : ∀ ts s, ts.length - s.pos ≤ R → ∀ n, 40 * R + 30 ≤ n →
      ∃ p, x ts n s = some p := by
    intro ts s hR n hn
    rcases Nat.lt_or_ge (ts.length - s.pos) R with hsml | hge
    · exact (IH _ hsml).x ts s (le_refl _) n (by omega)
    · obtain ⟨m, rfl⟩ : ∃ m, n = m + 1 := ⟨n - 1, by omega⟩
      simp only [x]
      cases hc : current_token ts s with
      | none => exact ⟨_, rfl⟩
      | some tok =>
        have hlt0 := current_token_some_lt hc
        have hcur : current_token ts s ≠ none := by rw [hc]; simp
        simp only [hc]
        by_cases h1 : tok.type = "KEYWORD" ∧ tok.value ∈ datatypes
        · rw [if_pos h1]
          cases hp2 : peek_token ts s 2 with
          | some nn =>
            simp only [hp2]
            by_cases h2 : nn.type = "SPECIAL CHARACTER" ∧ nn.value = "("
            · rw [if_pos h2]
              exact hfunc ts s hR m (by omega)
            · rw [if_neg h2]
              exact hassign ts s hR hcur m (by omega)
          | none =>
            simp only [hp2]
            exact hassign ts s hR hcur m (by omega)
        · rw [if_neg h1]
          by_cases h2 : tok.type = "KEYWORD" ∧ tok.value = "if"
          · rw [if_pos h2]
            exact hif_statement ts s hR m (by omega)
          · rw [if_neg h2]
            by_cases h3 : tok.type = "KEYWORD" ∧ tok.value = "while"
            · rw [if_pos h3]
              exact hwhile_statement ts s hR m (by omega)
            · rw [if_neg h3]
              by_cases h4 : tok.type = "KEYWORD" ∧ tok.value = "for"
              · rw [if_pos h4]
                exact hfor_statement ts s hR m (by omega)
              · rw [if_neg h4]
                by_cases h5 : tok.type = "KEYWORD" ∧ tok.value = "return"
                · rw [if_pos h5]
                  exact hreturn_statement ts s hR m (by omega)
                · rw [if_neg h5]
                  by_cases h6 : tok.type = "IDENTIFIER"
                  · rw [if_pos h6]
                    cases hp1 : peek_token ts s 1 with
                    | some nt =>
                      simp only [hp1]
                      by_cases h7 : nt.type = "OPERATOR" ∧ nt.value = "="
                      · rw [if_pos h7]
                        exact hassign ts s hR hcur m (by omega)
                      · rw [if_neg h7]
                        exact hexpression_statement ts s hR m (by omega)
                    | none =>
                      simp only [hp1]
                      exact hexpression_statement ts s hR m (by omega)
                  · rw [if_neg h6]
                    exact ⟨_, rfl⟩
  have hblock_loop : ∀ ts s, ts.length - s.pos ≤ R → ∀ n, 40 * R + 31 ≤ n →
      ∃ p, block_loop ts n s = some p := by
    intro ts s hR n hn
    rcases Nat.lt_or_ge (ts.length - s.pos) R with hsml | hge
    · exact (IH _ hsml).block_loop ts s (le_refl _) n (by omega)
    · obtain ⟨m, rfl⟩ : ∃ m, n = m + 1 := ⟨n - 1, by omega⟩
      simp only [block_loop]
      cases hc : current_token ts s with
      | none => exact ⟨_, rfl⟩
      | some t =>
        have hlt0 := current_token_some_lt hc
        simp only [hc]
        by_cases h1 : t.type = "SPECIAL CHARACTER" ∧ t.value = "\x7d"
        · rw [if_pos h1]
          exact ⟨_, rfl⟩
        · rw [if_neg h1]
          obtain ⟨⟨bx, s1⟩, hx2⟩ := hx ts s hR m (by omega)
          simp only [hx2]
          cases bx with
          | false => exact ⟨_, rfl⟩
          | true =>
            have hstrict := ((pres m).x ts s true s1 hx2).2 rfl
            have hrem1 : ts.length - s1.pos < R := by omega
            exact (IH _ hrem1).block_loop ts s1 (le_refl _) m (by omega)
  have hglobal_declaration : ∀ ts s, ts.length - s.pos ≤ R → ∀ n, 40 * R + 32 ≤ n →
      ∃ p, global_declaration ts n s = some p := by
    intro ts s hR n hn
    rcases Nat.lt_or_ge (ts.length - s.pos) R with hsml | hge
    · exact (IH _ hsml).global_declaration ts s (le_refl _) n (by omega)
    · obtain ⟨m, rfl⟩ : ∃ m, n = m + 1 := ⟨n - 1, by omega⟩
      simp only [global_declaration]
      cases hc : current_token ts s with
      | none => exact ⟨_, rfl⟩
      | some tok =>
        have hlt0 := current_token_some_lt hc
        simp only [hc]
        by_cases hdt : tok.type = "KEYWORD" ∧ tok.value ∈ datatypes
        · rw [if_neg (not_not_intro hdt)]
          cases hp1 : peek_token ts s 1 with
          | none => simp only [hp1]; exact ⟨_, rfl⟩
          | some nt =>
            simp only [hp1]
            by_cases htype : nt.type = "IDENTIFIER" ∨ nt.type = "KEYWORD"
            · rw [if_neg (not_not_intro htype)]
              cases hp2 : peek_token ts s 2 with
              | some nn =>
                simp only [hp2]
                by_cases h2 : nn.type = "SPECIAL CHARACTER" ∧ nn.value = "("
                · rw [if_pos h2]
                  exact hfunc ts s hR m (by omega)
                · rw [if_neg h2]
                  exact hglobal_variable ts s hR m (by omega)
              | none =>
                simp only [hp2]
                exact hglobal_variable ts s hR m (by omega)
            · rw [if_pos htype]
              exact ⟨_, rfl⟩
        · rw [if_pos hdt]
          exact ⟨_, rfl⟩
  have hprogram : ∀ ts s, ts.length - s.pos ≤ R → ∀ n, 40 * R + 33 ≤ n →
      ∃ p, program ts n s = some p := by
    intro ts s hR n hn
    rcases Nat.lt_or_ge (ts.length - s.pos) R with hsml | hge
    · exact (IH _ hsml).program ts s (le_refl _) n (by omega)
    · obtain ⟨m, rfl⟩ : ∃ m, n = m + 1 := ⟨n - 1, by omega⟩
      simp only [program]
      cases hc : current_token ts s with
      | none => exact ⟨_, rfl⟩
      | some t =>
        have hlt0 := current_token_some_lt hc
        simp only [hc]
        obtain ⟨⟨b1, s1⟩, hgd⟩ := hglobal_declaration ts s hR m (by omega)
        simp only [hgd]
        cases b1 with
        | false =>
          rw [if_neg Bool.false_ne_true]
          exact ⟨_, rfl⟩
        | true =>
          rw [if_pos rfl]
          have hstrict := ((pres m).global_declaration ts s true s1 hgd).2 rfl
          have hrem1 : ts.length - s1.pos < R := by omega
          exact (IH _ hrem1).program ts s1 (le_refl _) m (by omega)
  exact ⟨hprogram, hglobal_declaration, hglobal_variable, hcomma_init_loop, hfunc, hblock,
    hblock_loop, hx, hassign, hassign_tail, hexpression_statement, hexpression,
    hlogical_or_expr, hlor_loop, hlogical_and_expr, hland_loop, hequality_expr, heq_loop,
    hrelational_expr, hrel_loop, hadditive_expr, hadd_loop, hmultiplicative_expr, hmul_loop,
    hunary_expr, hpostfix_expr, hpostfix_loop, hargument_list, harg_loop, hprimary_expr,
    hif_statement, hwhile_statement, hfor_statement, hreturn_statement⟩

end Cpp
namespace NewParse

/-- Enough fuel makes every rule function of `new_parse.py` return, for any
state with at most `R` tokens remaining.  The bracketed statement functions
carry the in-bounds precondition their only caller establishes. -/
structure Prog (R : Nat) : Prop where
  parse_loop : ∀ ts s, ts.length - s.pos ≤ R →
    ∀ n, 40 * R + 34 ≤ n → ∃ p, NewParse.parse_loop ts n s = some p
  parse_global_declaration : ∀ ts s, ts.length - s.pos ≤ R →
    ∀ n, 40 * R + 33 ≤ n → ∃ p, NewParse.parse_global_declaration ts n s = some p
  parse_global_variable : ∀ ts s, ts.length - s.pos ≤ R → s.pos < ts.length →
    ∀ n, 40 * R + 22 ≤ n → ∃ p, NewParse.parse_global_variable ts n s = some p
  ncomma_loop : ∀ ts s, ts.length - s.pos ≤ R →
    ∀ n, 40 * R + 20 ≤ n → ∃ p, NewParse.ncomma_loop ts n s = some p
  parse_function : ∀ ts s, ts.length - s.pos ≤ R → s.pos < ts.length →
    ∀ n, 40 * R + 22 ≤ n → ∃ p, NewParse.parse_function ts n s = some p
  parse_block : ∀ ts s, ts.length - s.pos ≤ R →
    ∀ n, 40 * R + 32 ≤ n → ∃ p, NewParse.parse_block ts n s = some p
  nblock_loop : ∀ ts s, ts.length - s.pos ≤ R →
    ∀ n, 40 * R + 31 ≤ n → ∃ p, NewParse.nblock_loop ts n s = some p
  parse_statement : ∀ ts s, ts.length - s.pos ≤ R →
    ∀ n, 40 * R + 30 ≤ n → ∃ p, NewParse.parse_statement ts n s = some p
  parse_assignment : ∀ ts s, ts.length - s.pos ≤ R →
    ∀ n, 40 * R + 21 ≤ n → ∃ p, NewParse.parse_assignment ts n s = some p
  nassign_tail : ∀ ts s, ts.length - s.pos ≤ R →
    ∀ n, 40 * R + 20 ≤ n → ∃ p, NewParse.nassign_tail ts n s = some p
  parse_if_statement : ∀ ts s, ts.length - s.pos ≤ R → s.pos < ts.length →
    ∀ n, 40 * R + 21 ≤ n → ∃ p, NewParse.parse_if_statement ts n s = some p
  parse_while_statement : ∀ ts s, ts.length - s.pos ≤ R → s.pos < ts.length →
    ∀ n, 40 * R + 21 ≤ n → ∃ p, NewParse.parse_while_statement ts n s = some p
  parse_for_statement : ∀ ts s, ts.length - s.pos ≤ R → s.pos < ts.length →
    ∀ n, 40 * R + 21 ≤ n → ∃ p, NewParse.parse_for_statement ts n s = some p
  parse_return_statement : ∀ ts s, ts.length - s.pos ≤ R → s.pos < ts.length →
    ∀ n, 40 * R + 21 ≤ n → ∃ p, NewParse.parse_return_statement ts n s = some p
  parse_expression : ∀ ts s, ts.length - s.pos ≤ R →
    ∀ n, 40 * R + 17 ≤ n → ∃ p, NewParse.parse_expression ts n s = some p
  parse_logical_or : ∀ ts s, ts.length - s.pos ≤ R →
    ∀ n, 40 * R + 16 ≤ n → ∃ p, NewParse.parse_logical_or ts n s = some p
  nor_loop : ∀ ts s, ts.length - s.pos ≤ R →
    ∀ n, 40 * R + 15 ≤ n → ∃ p, NewParse.nor_loop ts n s = some p
  parse_logical_and : ∀ ts s, ts.length - s.pos ≤ R →
    ∀ n, 40 * R + 14 ≤ n → ∃ p, NewParse.parse_logical_and ts n s = some p
  nand_loop : ∀ ts s, ts.length - s.pos ≤ R →
    ∀ n, 40 * R + 13 ≤ n → ∃ p, NewParse.nand_loop ts n s = some p
  parse_equality : ∀ ts s, ts.length - s.pos ≤ R →
    ∀ n, 40 * R + 12 ≤ n → ∃ p, NewParse.parse_equality ts n s = some p
  neq_loop : ∀ ts s, ts.length - s.pos ≤ R →
    ∀ n, 40 * R + 11 ≤ n → ∃ p, NewParse.neq_loop ts n s = some p
  parse_relational : ∀ ts s, ts.length - s.pos ≤ R →
    ∀ n, 40 * R + 10 ≤ n → ∃ p, NewParse.parse_relational ts n s = some p
  nrel_loop : ∀ ts s, ts.length - s.pos ≤ R →
    ∀ n, 40 * R + 9 ≤ n → ∃ p, NewParse.nrel_loop ts n s = some p
  parse_additive : ∀ ts s, ts.length - s.pos ≤ R →
    ∀ n, 40 * R + 8 ≤ n → ∃ p, NewParse.parse_additive ts n s = some p
  nadd_loop : ∀ ts s, ts.length - s.pos ≤ R →
    ∀ n, 40 * R + 7 ≤ n → ∃ p, NewParse.nadd_loop ts n s = some p
  parse_multiplicative : ∀ ts s, ts.length - s.pos ≤ R →
    ∀ n, 40 * R + 6 ≤ n → ∃ p, NewParse.parse_multiplicative ts n s = some p
  nmul_loop : ∀ ts s, ts.length - s.pos ≤ R →
    ∀ n, 40 * R + 5 ≤ n → ∃ p, NewParse.nmul_loop ts n s = some p
  parse_unary : ∀ ts s, ts.length - s.pos ≤ R →
    ∀ n, 40 * R + 4 ≤ n → ∃ p, NewParse.parse_unary ts n s = some p
  parse_postfixE : ∀ ts s, ts.length - s.pos ≤ R →
    ∀ n, 40 * R + 3 ≤ n → ∃ p, NewParse.parse_postfixE ts n s = some p
  npostfix_loop : ∀ ts s, ts.length - s.pos ≤ R →
    ∀ n, 40 * R + 2 ≤ n → ∃ p, NewParse.npostfix_loop ts n s = some p
  parse_argument_list : ∀ ts s, ts.length - s.pos ≤ R →
    ∀ n, 40 * R + 19 ≤ n → ∃ p, NewParse.parse_argument_list ts n s = some p
  narg_loop : ∀ ts s, ts.length - s.pos ≤ R →
    ∀ n, 40 * R + 18 ≤ n → ∃ p, NewParse.narg_loop ts n s = some p
  parse_primary : ∀ ts s, ts.length - s.pos ≤ R →
    ∀ n, 40 * R + 1 ≤ n → ∃ p, NewParse.parse_primary ts n s = some p

/-- Enough fuel always exists for `new_parse.py`: strong induction on the
number of remaining tokens, with rank ordering among same-position calls. -/
theorem nprog : ∀ R, Prog R := by
  intro R
  induction R using Nat.strong_induction_on with
  | _ R IH =>
  have hparse_primary : ∀ ts s, ts.length - s.pos ≤ R → ∀ n, 40 * R + 1 ≤ n →
      ∃ p, parse_primary ts n s = some p := by
    intro ts s hR n hn
    rcases Nat.lt_or_ge (ts.length - s.pos) R with hsml | hge
    · exact (IH _ hsml).parse_primary ts s (le_refl _) n (by omega)
    · obtain ⟨m, rfl⟩ : ∃ m, n = m + 1 := ⟨n - 1, by omega⟩
      simp only [parse_primary]
      cases hc : current ts s with
      | none => exact ⟨_, rfl⟩
      | some tok =>
        have hlt0 := current_some_lt hc
        simp only [hc]
        by_cases h1 : tok.type = "IDENTIFIER" ∨ tok.type = "NUMBER" ∨ tok.type = "STRING"
        · rw [if_pos h1]
          exact ⟨_, rfl⟩
        · rw [if_neg h1]
          by_cases h2 : tok.type = "SPECIAL CHARACTER" ∧ tok.value = "("
          · rw [if_pos h2]
            have hrem1 : ts.length - (advance s).pos < R := by simp; omega
            obtain ⟨se, he⟩ :=
              (IH _ hrem1).parse_expression ts (advance s) (le_refl _) m (by simp; omega)
            simp only [he]
            exact ⟨_, rfl⟩
          · rw [if_neg h2]
            exact ⟨_, rfl⟩
  have hnpostfix_loop : ∀ ts s, ts.length - s.pos ≤ R → ∀ n, 40 * R + 2 ≤ n →
      ∃ p, npostfix_loop ts n s = some p := by
    intro ts s hR n hn
    rcases Nat.lt_or_ge (ts.length - s.pos) R with hsml | hge
    · exact (IH _ hsml).npostfix_loop ts s (le_refl _) n (by omega)
    · obtain ⟨m, rfl⟩ : ∃ m, n = m + 1 := ⟨n - 1, by omega⟩
      simp only [npostfix_loop]
      cases hc : current ts s with
      | none => exact ⟨_, rfl⟩
      | some tok =>
        have hlt0 := current_some_lt hc
        simp only [hc]
        by_cases h1 : tok.type = "SPECIAL CHARACTER" ∧ tok.value = "["
        · rw [if_pos h1]
          have hrem1 : ts.length - (advance s).pos < R := by simp; omega
          obtain ⟨s1, he⟩ :=
            (IH _ hrem1).parse_expression ts (advance s) (le_refl _) m (by simp; omega)
          simp only [he]
          have hpos1 := ((npres m).parse_expression ts (advance s) s1 he).1.1
          simp only [advance_pos] at hpos1
          have hposC := (consume_stepOK ts s1 (some "SPECIAL CHARACTER") (some "]") none).1
          have hrem2 : ts.length - (consume ts s1 (some "SPECIAL CHARACTER") (some "]") none).2.pos < R := by omega
          exact (IH _ hrem2).npostfix_loop ts _ (le_refl _) m (by omega)
        · rw [if_neg h1]
          by_cases h2 : tok.type = "SPECIAL CHARACTER" ∧ tok.value = "("
          · rw [if_pos h2]
            have hrem1 : ts.length - (advance s).pos < R := by simp; omega
            obtain ⟨s1, he⟩ :=
              (IH _ hrem1).parse_argument_list ts (advance s) (le_refl _) m (by simp; omega)
            simp only [he]
            have hpos1 := ((npres m).parse_argument_list ts (advance s) s1 he).1
            simp only [advance_pos] at hpos1
            have hposC := (consume_stepOK ts s1 (some "SPECIAL CHARACTER") (some ")") none).1
            have hrem2 : ts.length - (consume ts s1 (some "SPECIAL CHARACTER") (some ")") none).2.pos < R := by
              omega
            exact (IH _ hrem2).npostfix_loop ts _ (le_refl _) m (by omega)
          · rw [if_neg h2]
            by_cases h3 : tok.type = "OPERATOR" ∧ tok.value ∈ ["++", "--"]
            · rw [if_pos h3]
              have hrem1 : ts.length - (advance s).pos < R := by simp; omega
              exact (IH _ hrem1).npostfix_loop ts (advance s) (le_refl _) m (by simp; omega)
            · rw [if_neg h3]
              exact ⟨_, rfl⟩
  have hparse_postfixE : ∀ ts s, ts.length - s.pos ≤ R → ∀ n, 40 * R + 3 ≤ n →
      ∃ p, parse_postfixE ts n s = some p := by
    intro ts s hR n hn
    rcases Nat.lt_or_ge (ts.length - s.pos) R with hsml | hge
    · exact (IH _ hsml).parse_postfixE ts s (le_refl _) n (by omega)
    · obtain ⟨m, rfl⟩ : ∃ m, n = m + 1 := ⟨n - 1, by omega⟩
      simp only [parse_postfixE]
      obtain ⟨s1, hp⟩ := hparse_primary ts s hR m (by omega)
      simp only [hp]
      have hpos1 := ((npres m).parse_primary ts s s1 hp).1.1
      have hR1 : ts.length - s1.pos ≤ R := by omega
      exact hnpostfix_loop ts s1 hR1 m (by omega)
  have hparse_unary : ∀ ts s, ts.length - s.pos ≤ R → ∀ n, 40 * R + 4 ≤ n →
      ∃ p, parse_unary ts n s = some p := by
    intro ts s hR n hn
    rcases Nat.lt_or_ge (ts.length - s.pos) R with hsml | hge
    · exact (IH _ hsml).parse_unary ts s (le_refl _) n (by omega)
    · obtain ⟨m, rfl⟩ : ∃ m, n = m + 1 := ⟨n - 1, by omega⟩
      simp only [parse_unary]
      cases hc : current ts s with
      | none =>
        simp only [hc]
        exact hparse_postfixE ts s hR m (by omega)
      | some tok =>
        have hlt0 := current_some_lt hc
        simp only [hc]
        by_cases h1 : tok.type = "OPERATOR" ∧ tok.value ∈ ["+", "-", "++", "--", "!"]
        · rw [if_pos h1]
          have hrem1 : ts.length - (advance s).pos < R := by simp; omega
          exact (IH _ hrem1).parse_unary ts (advance s) (le_refl _) m (by simp; omega)
        · rw [if_neg h1]
          exact hparse_postfixE ts s hR m (by omega)
  have hnmul_loop : ∀ ts s, ts.length - s.pos ≤ R → ∀ n, 40 * R + 5 ≤ n →
      ∃ p, nmul_loop ts n s = some p := by
    intro ts s hR n hn
    rcases Nat.lt_or_ge (ts.length - s.pos) R with hsml | hge
    · exact (IH _ hsml).nmul_loop ts s (le_refl _) n (by omega)
    · obtain ⟨m, rfl⟩ : ∃ m, n = m + 1 := ⟨n - 1, by omega⟩
      simp only [nmul_loop]
      cases hc : current ts s with
      | none => exact ⟨_, rfl⟩
      | some tok =>
        have hlt0 := current_some_lt hc
        simp only [hc]
        by_cases h1 : tok.type = "OPERATOR" ∧ tok.value ∈ ["*", "/", "%"]
        · rw [if_pos h1]
          have hrem1 : ts.length - (advance s).pos < R := by simp; omega
          obtain ⟨s1, he⟩ := (IH _ hrem1).parse_unary ts (advance s) (le_refl _) m (by simp; omega)
          simp only [he]
          have hpos1 := ((npres m).parse_unary ts (advance s) s1 he).1.1
          simp only [advance_pos] at hpos1
          have hrem2 : ts.length - s1.pos < R := by omega
          exact (IH _ hrem2).nmul_loop ts s1 (le_refl _) m (by omega)
        · rw [if_neg h1]
          exact ⟨_, rfl⟩
  have hparse_multiplicative : ∀ ts s, ts.length - s.pos ≤ R → ∀ n, 40 * R + 6 ≤ n →
      ∃ p, parse_multiplicative ts n s = some p := by
    intro ts s hR n hn
    rcases Nat.lt_or_ge (ts.length - s.pos) R with hsml | hge
    · exact (IH _ hsml).parse_multiplicative ts s (le_refl _) n (by omega)
    · obtain ⟨m, rfl⟩ : ∃ m, n = m + 1 := ⟨n - 1, by omega⟩
      simp only [parse_multiplicative]
      obtain ⟨s1, hp⟩ := hparse_unary ts s hR m (by omega)
      simp only [hp]
      have hpos1 := ((npres m).parse_unary ts s s1 hp).1.1
      have hR1 : ts.length - s1.pos ≤ R := by omega
      exact hnmul_loop ts s1 hR1 m (by omega)
  have hnadd_loop : ∀ ts s, ts.length - s.pos ≤ R → ∀ n, 40 * R + 7 ≤ n →
      ∃ p, nadd_loop ts n s = some p := by
    intro ts s hR n hn
    rcases Nat.lt_or_ge (ts.length - s.pos) R with hsml | hge
    · exact (IH _ hsml).nadd_loop ts s (le_refl _) n (by omega)
    · obtain ⟨m, rfl⟩ : ∃ m, n = m + 1 := ⟨n - 1, by omega⟩
      simp only [nadd_loop]
      cases hc : current ts s with
      | none => exact ⟨_, rfl⟩
      | some tok =>
        have hlt0 := current_some_lt hc
        simp only [hc]
        by_cases h1 : tok.type = "OPERATOR" ∧ tok.value ∈ ["+", "-"]
        · rw [if_pos h1]
          have hrem1 : ts.length - (advance s).pos < R := by simp; omega
          obtain ⟨s1, he⟩ := (IH _ hrem1).parse_multiplicative ts (advance s) (le_refl _) m (by simp; omega)
          simp only [he]
          have hpos1 := ((npres m).parse_multiplicative ts (advance s) s1 he).1.1
          simp only [advance_pos] at hpos1
          have hrem2 : ts.length - s1.pos < R := by omega
          exact (IH _ hrem2).nadd_loop ts s1 (le_refl _) m (by omega)
        · rw [if_neg h1]
          exact ⟨_, rfl⟩
  have hparse_additive : ∀ ts s, ts.length - s.pos ≤ R → ∀ n, 40 * R + 8 ≤ n →
      ∃ p, parse_additive ts n s = some p := by
    intro ts s hR n hn
    rcases Nat.lt_or_ge (ts.length - s.pos) R with hsml | hge
    · exact (IH _ hsml).parse_additive ts s (le_refl _) n (by omega)
    · obtain ⟨m, rfl⟩ : ∃ m, n = m + 1 := ⟨n - 1, by omega⟩
      simp only [parse_additive]
      obtain ⟨s1, hp⟩ := hparse_multiplicative ts s hR m (by omega)
      simp only [hp]
      have hpos1 := ((npres m).parse_multiplicative ts s s1 hp).1.1
      have hR1 : ts.length - s1.pos ≤ R := by omega
      exact hnadd_loop ts s1 hR1 m (by omega)
  have hnrel_loop : ∀ ts s, ts.length - s.pos ≤ R → ∀ n, 40 * R + 9 ≤ n →
      ∃ p, nrel_loop ts n s = some p := by
    intro ts s hR n hn
    rcases Nat.lt_or_ge (ts.length - s.pos) R with hsml | hge
    · exact (IH _ hsml).nrel_loop ts s (le_refl _) n (by omega)
    · obtain ⟨m, rfl⟩ : ∃ m, n = m + 1 := ⟨n - 1, by omega⟩
      simp only [nrel_loop]
      cases hc : current ts s with
      | none => exact ⟨_, rfl⟩
      | some tok =>
        have hlt0 := current_some_lt hc
        simp only [hc]
        by_cases h1 : tok.type = "OPERATOR" ∧ tok.value ∈ ["<", ">", "<=", ">="]
        · rw [if_pos h1]
          have hrem1 : ts.length - (advance s).pos < R := by simp; omega
          obtain ⟨s1, he⟩ := (IH _ hrem1).parse_additive ts (advance s) (le_refl _) m (by simp; omega)
          simp only [he]
          have hpos1 := ((npres m).parse_additive ts (advance s) s1 he).1.1
          simp only [advance_pos] at hpos1
          have hrem2 : ts.length - s1.pos < R := by omega
          exact (IH _ hrem2).nrel_loop ts s1 (le_refl _) m (by omega)
        · rw [if_neg h1]
          exact ⟨_, rfl⟩
  have hparse_relational : ∀ ts s, ts.length - s.pos ≤ R → ∀ n, 40 * R + 10 ≤ n →
      ∃ p, parse_relational ts n s = some p := by
    intro ts s hR n hn
    rcases Nat.lt_or_ge (ts.length - s.pos) R with hsml | hge
    · exact (IH _ hsml).parse_relational ts s (le_refl _) n (by omega)
    · obtain ⟨m, rfl⟩ : ∃ m, n = m + 1 := ⟨n - 1, by omega⟩
      simp only [parse_relational]
      obtain ⟨s1, hp⟩ := hparse_additive ts s hR m (by omega)
      simp only [hp]
      have hpos1 := ((npres m).parse_additive ts s s1 hp).1.1
      have hR1 : ts.length - s1.pos ≤ R := by omega
      exact hnrel_loop ts s1 hR1 m (by omega)
  have hneq_loop : ∀ ts s, ts.length - s.pos ≤ R → ∀ n, 40 * R + 11 ≤ n →
      ∃ p, neq_loop ts n s = some p := by
    intro ts s hR n hn
    rcases Nat.lt_or_ge (ts.length - s.pos) R with hsml | hge
    · exact (IH _ hsml).neq_loop ts s (le_refl _) n (by omega)
    · obtain ⟨m, rfl⟩ : ∃ m, n = m + 1 := ⟨n - 1, by omega⟩
      simp only [neq_loop]
      cases hc : current ts s with
      | none => exact ⟨_, rfl⟩
      | some tok =>
        have hlt0 := current_some_lt hc
        simp only [hc]
        by_cases h1 : tok.type = "OPERATOR" ∧ tok.value ∈ ["==", "!="]
        · rw [if_pos h1]
          have hrem1 : ts.length - (advance s).pos < R := by simp; omega
          obtain ⟨s1, he⟩ := (IH _ hrem1).parse_relational ts (advance s) (le_refl _) m (by simp; omega)
          simp only [he]
          have hpos1 := ((npres m).parse_relational ts (advance s) s1 he).1.1
          simp only [advance_pos] at hpos1
          have hrem2 : ts.length - s1.pos < R := by omega
          exact (IH _ hrem2).neq_loop ts s1 (le_refl _) m (by omega)
        · rw [if_neg h1]
          exact ⟨_, rfl⟩
  have hparse_equality : ∀ ts s, ts.length - s.pos ≤ R → ∀ n, 40 * R + 12 ≤ n →
      ∃ p, parse_equality ts n s = some p := by
    intro ts s hR n hn
    rcases Nat.lt_or_ge (ts.length - s.pos) R with hsml | hge
    · exact (IH _ hsml).parse_equality ts s (le_refl _) n (by omega)
    · obtain ⟨m, rfl⟩ : ∃ m, n = m + 1 := ⟨n - 1, by omega⟩
      simp only [parse_equality]
      obtain ⟨s1, hp⟩ := hparse_relational ts s hR m (by omega)
      simp only [hp]
      have hpos1 := ((npres m).parse_relational ts s s1 hp).1.1
      have hR1 : ts.length - s1.pos ≤ R := by omega
      exact hneq_loop ts s1 hR1 m (by omega)
  have hnand_loop : ∀ ts s, ts.length - s.pos ≤ R → ∀ n, 40 * R + 13 ≤ n →
      ∃ p, nand_loop ts n s = some p := by
    intro ts s hR n hn
    rcases Nat.lt_or_ge (ts.length - s.pos) R with hsml | hge
    · exact (IH _ hsml).nand_loop ts s (le_refl _) n (by omega)
    · obtain ⟨m, rfl⟩ : ∃ m, n = m + 1 := ⟨n - 1, by omega⟩
      simp only [nand_loop]
      by_cases hm : matchTok ts s (some "OPERATOR") (some "&&") = true
      · rw [if_pos hm]
        have hlt0 := matchTok_true_lt hm
        have hrem1 : ts.length - (advance s).pos < R := by simp; omega
        obtain ⟨s1, he⟩ := (IH _ hrem1).parse_equality ts (advance s) (le_refl _) m (by simp; omega)
        simp only [he]
        have hpos1 := ((npres m).parse_equality ts (advance s) s1 he).1.1
        simp only [advance_pos] at hpos1
        have hrem2 : ts.length - s1.pos < R := by omega
        exact (IH _ hrem2).nand_loop ts s1 (le_refl _) m (by omega)
      · rw [if_neg hm]
        exact ⟨_, rfl⟩
  have hparse_logical_and : ∀ ts s, ts.length - s.pos ≤ R → ∀ n, 40 * R + 14 ≤ n →
      ∃ p, parse_logical_and ts n s = some p := by
    intro ts s hR n hn
    rcases Nat.lt_or_ge (ts.length - s.pos) R with hsml | hge
    · exact (IH _ hsml).parse_logical_and ts s (le_refl _) n (by omega)
    · obtain ⟨m, rfl⟩ : ∃ m, n = m + 1 := ⟨n - 1, by omega⟩
      simp only [parse_logical_and]
      obtain ⟨s1, hp⟩ := hparse_equality ts s hR m (by omega)
      simp only [hp]
      have hpos1 := ((npres m).parse_equality ts s s1 hp).1.1
      have hR1 : ts.length - s1.pos ≤ R := by omega
      exact hnand_loop ts s1 hR1 m (by omega)
  have hnor_loop : ∀ ts s, ts.length - s.pos ≤ R → ∀ n, 40 * R + 15 ≤ n →
      ∃ p, nor_loop ts n s = some p := by
    intro ts s hR n hn
    rcases Nat.lt_or_ge (ts.length - s.pos) R with hsml | hge
    · exact (IH _ hsml).nor_loop ts s (le_refl _) n (by omega)
    · obtain ⟨m, rfl⟩ : ∃ m, n = m + 1 := ⟨n - 1, by omega⟩
      simp only [nor_loop]
      by_cases hm : matchTok ts s (some "OPERATOR") (some "||") = true
      · rw [if_pos hm]
        have hlt0 := matchTok_true_lt hm
        have hrem1 : ts.length - (advance s).pos < R := by simp; omega
        obtain ⟨s1, he⟩ := (IH _ hrem1).parse_logical_and ts (advance s) (le_refl _) m (by simp; omega)
        simp only [he]
        have hpos1 := ((npres m).parse_logical_and ts (advance s) s1 he).1.1
        simp only [advance_pos] at hpos1
        have hrem2 : ts.length - s1.pos < R := by omega
        exact (IH _ hrem2).nor_loop ts s1 (le_refl _) m (by omega)
      · rw [if_neg hm]
        exact ⟨_, rfl⟩
  have hparse_logical_or : ∀ ts s, ts.length - s.pos ≤ R → ∀ n, 40 * R + 16 ≤ n →
      ∃ p, parse_logical_or ts n s = some p := by
    intro ts s hR n hn
    rcases Nat.lt_or_ge (ts.length - s.pos) R with hsml | hge
    · exact (IH _ hsml).parse_logical_or ts s (le_refl _) n (by omega)
    · obtain ⟨m, rfl⟩ : ∃ m, n = m + 1 := ⟨n - 1, by omega⟩
      simp only [parse_logical_or]
      obtain ⟨s1, hp⟩ := hparse_logical_and ts s hR m (by omega)
      simp only [hp]
      have hpos1 := ((npres m).parse_logical_and ts s s1 hp).1.1
      have hR1 : ts.length - s1.pos ≤ R := by omega
      exact hnor_loop ts s1 hR1 m (by omega)
  have hparse_expression : ∀ ts s, ts.length - s.pos ≤ R → ∀ n, 40 * R + 17 ≤ n →
      ∃ p, parse_expression ts n s = some p := by
    intro ts s hR n hn
    rcases Nat.lt_or_ge (ts.length - s.pos) R with hsml | hge
    · exact (IH _ hsml).parse_expression ts s (le_refl _) n (by omega)
    · obtain ⟨m, rfl⟩ : ∃ m, n = m + 1 := ⟨n - 1, by omega⟩
      simp only [parse_expression]
      exact hparse_logical_or ts s hR m (by omega)
  have hnarg_loop : ∀ ts s, ts.length - s.pos ≤ R → ∀ n, 40 * R + 18 ≤ n →
      ∃ p, narg_loop ts n s = some p := by
    intro ts s hR n hn
    rcases Nat.lt_or_ge (ts.length - s.pos) R with hsml | hge
    · exact (IH _ hsml).narg_loop ts s (le_refl _) n (by omega)
    · obtain ⟨m, rfl⟩ : ∃ m, n = m + 1 := ⟨n - 1, by omega⟩
      simp only [narg_loop]
      by_cases hm : matchTok ts s (some "SPECIAL CHARACTER") (some ",") = true
      · rw [if_pos hm]
        have hlt0 := matchTok_true_lt hm
        have hrem1 : ts.length - (advance s).pos < R := by simp; omega
        obtain ⟨s1, he⟩ :=
          (IH _ hrem1).parse_expression ts (advance s) (le_refl _) m (by simp; omega)
        simp only [he]
        have hpos1 := ((npres m).parse_expression ts (advance s) s1 he).1.1
        simp only [advance_pos] at hpos1
        have hrem2 : ts.length - s1.pos < R := by omega
        exact (IH _ hrem2).narg_loop ts s1 (le_refl _) m (by omega)
      · rw [if_neg hm]
        exact ⟨_, rfl⟩
  have hparse_argument_list : ∀ ts s, ts.length - s.pos ≤ R → ∀ n, 40 * R + 19 ≤ n →
      ∃ p, parse_argument_list ts n s = some p := by
    intro ts s hR n hn
    rcases Nat.lt_or_ge (ts.length - s.pos) R with hsml | hge
    · exact (IH _ hsml).parse_argument_list ts s (le_refl _) n (by omega)
    · obtain ⟨m, rfl⟩ : ∃ m, n = m + 1 := ⟨n - 1, by omega⟩
      simp only [parse_argument_list]
      by_cases hm : matchTok ts s (some "SPECIAL CHARACTER") (some ")") = true
      · rw [if_pos hm]
        exact ⟨_, rfl⟩
      · rw [if_neg hm]
        obtain ⟨s1, he⟩ := hparse_expression ts s hR m (by omega)
        simp only [he]
        have hpos1 := ((npres m).parse_expression ts s s1 he).1.1
        have hR1 : ts.length - s1.pos ≤ R := by omega
        exact hnarg_loop ts s1 hR1 m (by omega)
  have hnassign_tail : ∀ ts s, ts.length - s.pos ≤ R → ∀ n, 40 * R + 20 ≤ n →
      ∃ p, nassign_tail ts n s = some p := by
    intro ts s hR n hn
    rcases Nat.lt_or_ge (ts.length - s.pos) R with hsml | hge
    · exact (IH _ hsml).nassign_tail ts s (le_refl _) n (by omega)
    · obtain ⟨m, rfl⟩ : ∃ m, n = m + 1 := ⟨n - 1, by omega⟩
      simp only [nassign_tail]
      have hafter : ∃ q : St, (if matchTok ts s (some "OPERATOR") (some "=") then
          parse_expression ts m (advance s) else some s) = some q ∧ s.pos ≤ q.pos := by
        by_cases hm : matchTok ts s (some "OPERATOR") (some "=") = true
        · rw [if_pos hm]
          have hlt0 := matchTok_true_lt hm
          have hrem1 : ts.length - (advance s).pos < R := by simp; omega
          obtain ⟨se, he⟩ :=
            (IH _ hrem1).parse_expression ts (advance s) (le_refl _) m (by simp; omega)
          have hpos := ((npres m).parse_expression ts (advance s) se he).1.1
          simp only [advance_pos] at hpos
          exact ⟨se, he, by omega⟩
        · rw [if_neg hm]
          exact ⟨s, rfl, le_refl _⟩
      obtain ⟨s1, h1, hpos1⟩ := hafter
      simp only [h1]
      exact ⟨_, rfl⟩
  have hncomma_loop : ∀ ts s, ts.length - s.pos ≤ R → ∀ n, 40 * R + 20 ≤ n →
      ∃ p, ncomma_loop ts n s = some p := by
    intro ts s hR n hn
    rcases Nat.lt_or_ge (ts.length - s.pos) R with hsml | hge
    · exact (IH _ hsml).ncomma_loop ts s (le_refl _) n (by omega)
    · obtain ⟨m, rfl⟩ : ∃ m, n = m + 1 := ⟨n - 1, by omega⟩
      simp only [ncomma_loop]
      by_cases hm : matchTok ts s (some "SPECIAL CHARACTER") (some ",") = true
      · rw [if_pos hm]
        have hlt0 := matchTok_true_lt hm
        have hposC := (consume_stepOK ts (advance s) (some "IDENTIFIER") none none).1
        simp only [advance_pos] at hposC
        by_cases hm2 : matchTok ts (consume ts (advance s) (some "IDENTIFIER") none none).2
            (some "OPERATOR") (some "=") = true
        · rw [if_pos hm2]
          have hrem1 : ts.length -
              (advance (consume ts (advance s) (some "IDENTIFIER") none none).2).pos < R := by
            simp; omega
          obtain ⟨s2, he⟩ := (IH _ hrem1).parse_expression ts _ (le_refl _) m (by simp; omega)
          simp only [he]
          have hpos2 := ((npres m).parse_expression ts _ s2 he).1.1
          simp only [advance_pos] at hpos2
          have hrem2 : ts.length - s2.pos < R := by omega
          exact (IH _ hrem2).ncomma_loop ts s2 (le_refl _) m (by omega)
        · rw [if_neg hm2]
          have hrem1 : ts.length -
              (consume ts (advance s) (some "IDENTIFIER") none none).2.pos < R := by omega
          exact (IH _ hrem1).ncomma_loop ts _ (le_refl _) m (by omega)
      · rw [if_neg hm]
        exact ⟨_, rfl⟩
  have hparse_assignment : ∀ ts s, ts.length - s.pos ≤ R → ∀ n, 40 * R + 21 ≤ n →
      ∃ p, parse_assignment ts n s = some p := by
    intro ts s hR n hn
    rcases Nat.lt_or_ge (ts.length - s.pos) R with hsml | hge
    · exact (IH _ hsml).parse_assignment ts s (le_refl _) n (by omega)
    · obtain ⟨m, rfl⟩ : ∃ m, n = m + 1 := ⟨n - 1, by omega⟩
      simp only [parse_assignment]
      cases hc : current ts s with
      | none =>
        simp only [hc]
        have hposC := (consume_stepOK ts s (some "IDENTIFIER") none none).1
        have hR1 : ts.length - (consume ts s (some "IDENTIFIER") none none).2.pos ≤ R := by
          omega
        exact hnassign_tail ts _ hR1 m (by omega)
      | some tok =>
        have hlt0 := current_some_lt hc
        simp only [hc]
        by_cases h1 : tok.type = "KEYWORD" ∧ tok.value ∈ datatypes
        · rw [if_pos h1]
          have hposC := (consume_stepOK ts (advance s) (some "IDENTIFIER") none none).1
          simp only [advance_pos] at hposC
          have hrem1 : ts.length -
              (consume ts (advance s) (some "IDENTIFIER") none none).2.pos < R := by omega
          obtain ⟨s2, hcl⟩ := (IH _ hrem1).ncomma_loop ts _ (le_refl _) m (by omega)
          simp only [hcl]
          have hpos2 := ((npres m).ncomma_loop ts _ s2 hcl).1
          have hrem2 : ts.length - s2.pos < R := by omega
          exact (IH _ hrem2).nassign_tail ts s2 (le_refl _) m (by omega)
        · rw [if_neg h1]
          have hposC := (consume_stepOK ts s (some "IDENTIFIER") none none).1
          have hR1 : ts.length - (consume ts s (some "IDENTIFIER") none none).2.pos ≤ R := by
            omega
          exact hnassign_tail ts _ hR1 m (by omega)
  have hparse_if_statement : ∀ ts s, ts.length - s.pos ≤ R → s.pos < ts.length → ∀ n, 40 * R + 21 ≤ n →
      ∃ p, parse_if_statement ts n s = some p := by
    intro ts s hR hlt n hn
    rcases Nat.lt_or_ge (ts.length - s.pos) R with hsml | hge
    · exact (IH _ hsml).parse_if_statement ts s (le_refl _) hlt n (by omega)
    · obtain ⟨m, rfl⟩ : ∃ m, n = m + 1 := ⟨n - 1, by omega⟩
      simp only [parse_if_statement]
      have hposC := (consume_stepOK ts (advance s) (some "SPECIAL CHARACTER") (some "(") none).1
      simp only [advance_pos] at hposC
      have hrem1 : ts.length - (consume ts (advance s) (some "SPECIAL CHARACTER") (some "(") none).2.pos < R := by omega
      obtain ⟨s3, he⟩ := (IH _ hrem1).parse_expression ts _ (le_refl _) m (by omega)
      simp only [he]
      have hpos3 := ((npres m).parse_expression ts _ s3 he).1.1
      have hposC2 := (consume_stepOK ts s3 (some "SPECIAL CHARACTER") (some ")") none).1
      have hrem4 : ts.length - (consume ts s3 (some "SPECIAL CHARACTER") (some ")") none).2.pos < R := by omega
      have hthen : ∃ q : St, (if matchTok ts (consume ts s3 (some "SPECIAL CHARACTER") (some ")") none).2 (some "SPECIAL CHARACTER") (some "\x7b") then
          parse_block ts m (consume ts s3 (some "SPECIAL CHARACTER") (some ")") none).2
        else parse_statement ts m (consume ts s3 (some "SPECIAL CHARACTER") (some ")") none).2) = some q ∧ (consume ts s3 (some "SPECIAL CHARACTER") (some ")") none).2.pos ≤ q.pos := by
        by_cases hm : matchTok ts (consume ts s3 (some "SPECIAL CHARACTER") (some ")") none).2 (some "SPECIAL CHARACTER") (some "\x7b") = true
        · rw [if_pos hm]
          obtain ⟨s5, hb⟩ := (IH _ hrem4).parse_block ts _ (le_refl _) m (by omega)
          exact ⟨s5, hb, ((npres m).parse_block ts _ s5 hb).1⟩
        · rw [if_neg hm]
          obtain ⟨s5, hb⟩ := (IH _ hrem4).parse_statement ts _ (le_refl _) m (by omega)
          exact ⟨s5, hb, ((npres m).parse_statement ts _ s5 hb).1.1⟩
      obtain ⟨s5, h5, hpos5⟩ := hthen
      simp only [h5]
      by_cases hme : matchTok ts s5 (some "KEYWORD") (some "else") = true
      · rw [if_pos hme]
        have hlt5 := matchTok_true_lt hme
        have hrem5 : ts.length - (advance s5).pos < R := by simp; omega
        by_cases hmb : matchTok ts (advance s5) (some "SPECIAL CHARACTER") (some "\x7b") = true
        · rw [if_pos hmb]
          exact (IH _ hrem5).parse_block ts (advance s5) (le_refl _) m (by simp; omega)
        · rw [if_neg hmb]
          exact (IH _ hrem5).parse_statement ts (advance s5) (le_refl _) m (by simp; omega)
      · rw [if_neg hme]
        exact ⟨_, rfl⟩
  have hparse_while_statement : ∀ ts s, ts.length - s.pos ≤ R → s.pos < ts.length → ∀ n, 40 * R + 21 ≤ n →
      ∃ p, parse_while_statement ts n s = some p := by
    intro ts s hR hlt n hn
    rcases Nat.lt_or_ge (ts.length - s.pos) R with hsml | hge
    · exact (IH _ hsml).parse_while_statement ts s (le_refl _) hlt n (by omega)
    · obtain ⟨m, rfl⟩ : ∃ m, n = m + 1 := ⟨n - 1, by omega⟩
      simp only [parse_while_statement]
      have hposC := (consume_stepOK ts (advance s) (some "SPECIAL CHARACTER") (some "(") none).1
      simp only [advance_pos] at hposC
      have hrem1 : ts.length - (consume ts (advance s) (some "SPECIAL CHARACTER") (some "(") none).2.pos < R := by omega
      obtain ⟨s3, he⟩ := (IH _ hrem1).parse_expression ts _ (le_refl _) m (by omega)
      simp only [he]
      have hpos3 := ((npres m).parse_expression ts _ s3 he).1.1
      have hposC2 := (consume_stepOK ts s3 (some "SPECIAL CHARACTER") (some ")") none).1
      have hrem4 : ts.length - (consume ts s3 (some "SPECIAL CHARACTER") (some ")") none).2.pos < R := by omega
      by_cases hm : matchTok ts (consume ts s3 (some "SPECIAL CHARACTER") (some ")") none).2 (some "SPECIAL CHARACTER") (some "\x7b") = true
      · rw [if_pos hm]
        exact (IH _ hrem4).parse_block ts _ (le_refl _) m (by omega)
      · rw [if_neg hm]
        exact (IH _ hrem4).parse_statement ts _ (le_refl _) m (by omega)
  have hparse_for_statement : ∀ ts s, ts.length - s.pos ≤ R → s.pos < ts.length → ∀ n, 40 * R + 21 ≤ n →
      ∃ p, parse_for_statement ts n s = some p := by
    intro ts s hR hlt n hn
    rcases Nat.lt_or_ge (ts.length - s.pos) R with hsml | hge
    · exact (IH _ hsml).parse_for_statement ts s (le_refl _) hlt n (by omega)
    · obtain ⟨m, rfl⟩ : ∃ m, n = m + 1 := ⟨n - 1, by omega⟩
      simp only [parse_for_statement]
      have hposC := (consume_stepOK ts (advance s) (some "SPECIAL CHARACTER") (some "(") none).1
      simp only [advance_pos] at hposC
      have hrem2 : ts.length - (consume ts (advance s) (some "SPECIAL CHARACTER") (some "(") none).2.pos < R := by omega
      have hinit : ∃ q : St, (if matchTok ts (consume ts (advance s) (some "SPECIAL CHARACTER") (some "(") none).2 (some "KEYWORD") none then
          parse_assignment ts m (consume ts (advance s) (some "SPECIAL CHARACTER") (some "(") none).2
        else if matchTok ts (consume ts (advance s) (some "SPECIAL CHARACTER") (some "(") none).2 (some "SPECIAL CHARACTER") (some ";") then
          some (consume ts (consume ts (advance s) (some "SPECIAL CHARACTER") (some "(") none).2 (some "SPECIAL CHARACTER") (some ";") none).2
        else
          match parse_expression ts m (consume ts (advance s) (some "SPECIAL CHARACTER") (some "(") none).2 with
          | none => none
          | some s3 => some (consume ts s3 (some "SPECIAL CHARACTER") (some ";") none).2) = some q ∧
          (consume ts (advance s) (some "SPECIAL CHARACTER") (some "(") none).2.pos ≤ q.pos := by
        by_cases hm1 : matchTok ts (consume ts (advance s) (some "SPECIAL CHARACTER") (some "(") none).2 (some "KEYWORD") none = true
        · rw [if_pos hm1]
          obtain ⟨s4, ha⟩ := (IH _ hrem2).parse_assignment ts _ (le_refl _) m (by omega)
          exact ⟨s4, ha, ((npres m).parse_assignment ts _ s4 ha).1.1⟩
        · rw [if_neg hm1]
          by_cases hm2 : matchTok ts (consume ts (advance s) (some "SPECIAL CHARACTER") (some "(") none).2 (some "SPECIAL CHARACTER") (some ";") = true
          · rw [if_pos hm2]
            exact ⟨_, rfl, (consume_stepOK ts (consume ts (advance s) (some "SPECIAL CHARACTER") (some "(") none).2 (some "SPECIAL CHARACTER") (some ";") none).1⟩
          · rw [if_neg hm2]
            obtain ⟨s3, he⟩ := (IH _ hrem2).parse_expression ts _ (le_refl _) m (by omega)
            simp only [he]
            have hp3 := ((npres m).parse_expression ts _ s3 he).1.1
            have hc3 := (consume_stepOK ts s3 (some "SPECIAL CHARACTER") (some ";") none).1
            exact ⟨_, rfl, by omega⟩
      obtain ⟨s4, h4, hpos4⟩ := hinit
      simp only [h4]
      have hrem4 : ts.length - s4.pos < R := by omega
      have hcond : ∃ q : St, (if matchTok ts s4 (some "SPECIAL CHARACTER") (some ";") then some s4
        else parse_expression ts m s4) = some q ∧ s4.pos ≤ q.pos := by
        by_cases hm : matchTok ts s4 (some "SPECIAL CHARACTER") (some ";") = true
        · rw [if_pos hm]
          exact ⟨_, rfl, le_refl _⟩
        · rw [if_neg hm]
          obtain ⟨s5, he⟩ := (IH _ hrem4).parse_expression ts s4 (le_refl _) m (by omega)
          exact ⟨s5, he, ((npres m).parse_expression ts s4 s5 he).1.1⟩
      obtain ⟨s5, h5, hpos5⟩ := hcond
      simp only [h5]
      have hc6 := (consume_stepOK ts s5 (some "SPECIAL CHARACTER") (some ";") none).1
      have hrem6 : ts.length - (consume ts s5 (some "SPECIAL CHARACTER") (some ";") none).2.pos < R := by omega
      have hupd : ∃ q : St, (if matchTok ts (consume ts s5 (some "SPECIAL CHARACTER") (some ";") none).2 (some "SPECIAL CHARACTER") (some ")") then some (consume ts s5 (some "SPECIAL CHARACTER") (some ";") none).2
        else parse_expression ts m (consume ts s5 (some "SPECIAL CHARACTER") (some ";") none).2) = some q ∧ (consume ts s5 (some "SPECIAL CHARACTER") (some ";") none).2.pos ≤ q.pos := by
        by_cases hm : matchTok ts (consume ts s5 (some "SPECIAL CHARACTER") (some ";") none).2 (some "SPECIAL CHARACTER") (some ")") = true
        · rw [if_pos hm]
          exact ⟨_, rfl, le_refl _⟩
        · rw [if_neg hm]
          obtain ⟨s7, he⟩ := (IH _ hrem6).parse_expression ts _ (le_refl _) m (by omega)
          exact ⟨s7, he, ((npres m).parse_expression ts _ s7 he).1.1⟩
      obtain ⟨s7, h7, hpos7⟩ := hupd
      simp only [h7]
      have hc8 := (consume_stepOK ts s7 (some "SPECIAL CHARACTER") (some ")") none).1
      have hrem8 : ts.length - (consume ts s7 (some "SPECIAL CHARACTER") (some ")") none).2.pos < R := by omega
      by_cases hm : matchTok ts (consume ts s7 (some "SPECIAL CHARACTER") (some ")") none).2 (some "SPECIAL CHARACTER") (some "\x7b") = true
      · rw [if_pos hm]
        exact (IH _ hrem8).parse_block ts _ (le_refl _) m (by omega)
      · rw [if_neg hm]
        exact (IH _ hrem8).parse_statement ts _ (le_refl _) m (by omega)
  have hparse_return_statement : ∀ ts s, ts.length - s.pos ≤ R → s.pos < ts.length → ∀ n, 40 * R + 21 ≤ n →
      ∃ p, parse_return_statement ts n s = some p := by
    intro ts s hR hlt n hn
    rcases Nat.lt_or_ge (ts.length - s.pos) R with hsml | hge
    · exact (IH _ hsml).parse_return_statement ts s (le_refl _) hlt n (by omega)
    · obtain ⟨m, rfl⟩ : ∃ m, n = m + 1 := ⟨n - 1, by omega⟩
      simp only [parse_return_statement]
      have hafter : ∃ q : St, (if matchTok ts (advance s) (some "SPECIAL CHARACTER") (some ";") then
          some (advance s)
        else parse_expression ts m (advance s)) = some q ∧ s.pos < q.pos := by
        by_cases hm : matchTok ts (advance s) (some "SPECIAL CHARACTER") (some ";") = true
        · rw [if_pos hm]
          exact ⟨_, rfl, by simp⟩
        · rw [if_neg hm]
          have hrem1 : ts.length - (advance s).pos < R := by simp; omega
          obtain ⟨se, he⟩ :=
            (IH _ hrem1).parse_expression ts (advance s) (le_refl _) m (by simp; omega)
          have hpos := ((npres m).parse_expression ts (advance s) se he).1.1
          simp only [advance_pos] at hpos
          exact ⟨se, he, by omega⟩
      obtain ⟨s2, h2, hpos2⟩ := hafter
      simp only [h2]
      exact ⟨_, rfl⟩
  have hparse_function : ∀ ts s, ts.length - s.pos ≤ R → s.pos < ts.length → ∀ n, 40 * R + 22 ≤ n →
      ∃ p, parse_function ts n s = some p := by
    intro ts s hR hlt n hn
    rcases Nat.lt_or_ge (ts.length - s.pos) R with hsml | hge
    · exact (IH _ hsml).parse_function ts s (le_refl _) hlt n (by omega)
    · obtain ⟨m, rfl⟩ : ∃ m, n = m + 1 := ⟨n - 1, by omega⟩
      simp only [parse_function]
      have hcont : ∀ s2v : St, s2v.pos = s.pos + 1 →
          ∃ p, parse_block ts m (consume ts (consume ts (consume ts s2v none none none).2
            (some "SPECIAL CHARACTER") (some "(") none).2 (some "SPECIAL CHARACTER") (some ")") none).2 = some p := by
        intro s2v hp2
        have h3 := (consume_stepOK ts s2v none none none).1
        have h4 := (consume_stepOK ts (consume ts s2v none none none).2
          (some "SPECIAL CHARACTER") (some "(") none).1
        have h5 := (consume_stepOK ts (consume ts (consume ts s2v none none none).2
          (some "SPECIAL CHARACTER") (some "(") none).2 (some "SPECIAL CHARACTER") (some ")") none).1
        have hrem5 : ts.length - (consume ts (consume ts (consume ts s2v none none none).2
            (some "SPECIAL CHARACTER") (some "(") none).2 (some "SPECIAL CHARACTER") (some ")") none).2.pos < R := by omega
        exact (IH _ hrem5).parse_block ts _ (le_refl _) m (by omega)
      cases hc1 : current ts (advance s) with
      | none =>
        simp only [hc1]
        exact hcont (advance s) (by simp)
      | some tok =>
        simp only [hc1]
        by_cases hmain : tok.value = "main"
        · rw [if_pos hmain]
          exact hcont (setMain (advance s)) (by simp)
        · rw [if_neg hmain]
          exact hcont (advance s) (by simp)
  have hparse_global_variable : ∀ ts s, ts.length - s.pos ≤ R → s.pos < ts.length → ∀ n, 40 * R + 22 ≤ n →
      ∃ p, parse_global_variable ts n s = some p := by
    intro ts s hR hlt n hn
    rcases Nat.lt_or_ge (ts.length - s.pos) R with hsml | hge
    · exact (IH _ hsml).parse_global_variable ts s (le_refl _) hlt n (by omega)
    · obtain ⟨m, rfl⟩ : ∃ m, n = m + 1 := ⟨n - 1, by omega⟩
      simp only [parse_global_variable]
      have hposC := (consume_stepOK ts (advance s) (some "IDENTIFIER") none none).1
      simp only [advance_pos] at hposC
      have hafter : ∃ q : St, (if matchTok ts (consume ts (advance s) (some "IDENTIFIER") none none).2 (some "OPERATOR") (some "=") then
          parse_expression ts m (advance (consume ts (advance s) (some "IDENTIFIER") none none).2)
        else some (consume ts (advance s) (some "IDENTIFIER") none none).2) = some q ∧ s.pos < q.pos := by
        by_cases hm : matchTok ts (consume ts (advance s) (some "IDENTIFIER") none none).2 (some "OPERATOR") (some "=") = true
        · rw [if_pos hm]
          have hrem1 : ts.length - (advance (consume ts (advance s) (some "IDENTIFIER") none none).2).pos < R := by simp; omega
          obtain ⟨se, he⟩ :=
            (IH _ hrem1).parse_expression ts (advance (consume ts (advance s) (some "IDENTIFIER") none none).2) (le_refl _) m (by simp; omega)
          have hp := ((npres m).parse_expression ts (advance (consume ts (advance s) (some "IDENTIFIER") none none).2) se he).1.1
          simp only [advance_pos] at hp
          exact ⟨se, he, by omega⟩
        · rw [if_neg hm]
          exact ⟨_, rfl, by omega⟩
      obtain ⟨s2, h2, hpos2⟩ := hafter
      simp only [h2]
      have hrem2 : ts.length - s2.pos < R := by omega
      obtain ⟨s3, h3⟩ := (IH _ hrem2).ncomma_loop ts s2 (le_refl _) m (by omega)
      simp only [h3]
      exact ⟨_, rfl⟩
  have hparse_statement : ∀ ts s, ts.length - s.pos ≤ R → ∀ n, 40 * R + 30 ≤ n →
      ∃ p, parse_statement ts n s = some p := by
    intro ts s hR n hn
    rcases Nat.lt_or_ge (ts.length - s.pos) R with hsml | hge
    · exact (IH _ hsml).parse_statement ts s (le_refl _) n (by omega)
    · obtain ⟨m, rfl⟩ : ∃ m, n = m + 1 := ⟨n - 1, by omega⟩
      simp only [parse_statement]
      cases hc : current ts s with
      | none => exact ⟨_, rfl⟩
      | some tok =>
        have hlt0 := current_some_lt hc
        simp only [hc]
        by_cases h1 : tok.type = "KEYWORD" ∧ tok.value ∈ datatypes
        · rw [if_pos h1]
          cases hp2 : peek ts s 2 with
          | some nn =>
            simp only [hp2]
            by_cases h2 : nn.type = "SPECIAL CHARACTER" ∧ nn.value = "("
            · rw [if_pos h2]
              exact hparse_function ts s hR hlt0 m (by omega)
            · rw [if_neg h2]
              exact hparse_assignment ts s hR m (by omega)
          | none =>
            simp only [hp2]
            exact hparse_assignment ts s hR m (by omega)
        · rw [if_neg h1]
          by_cases h2 : tok.type = "KEYWORD" ∧ tok.value = "if"
          · rw [if_pos h2]
            exact hparse_if_statement ts s hR hlt0 m (by omega)
          · rw [if_neg h2]
            by_cases h3 : tok.type = "KEYWORD" ∧ tok.value = "while"
            · rw [if_pos h3]
              exact hparse_while_statement ts s hR hlt0 m (by omega)
            · rw [if_neg h3]
              by_cases h4 : tok.type = "KEYWORD" ∧ tok.value = "for"
              · rw [if_pos h4]
                exact hparse_for_statement ts s hR hlt0 m (by omega)
              · rw [if_neg h4]
                by_cases h5 : tok.type = "KEYWORD" ∧ tok.value = "return"
                · rw [if_pos h5]
                  exact hparse_return_statement ts s hR hlt0 m (by omega)
                · rw [if_neg h5]
                  by_cases h6 : tok.type = "IDENTIFIER"
                  · rw [if_pos h6]
                    cases hp1 : peek ts s 1 with
                    | some nt =>
                      simp only [hp1]
                      by_cases h7 : nt.type = "OPERATOR" ∧ nt.value = "="
                      · rw [if_pos h7]
                        exact hparse_assignment ts s hR m (by omega)
                      · rw [if_neg h7]
                        obtain ⟨s1, he⟩ := hparse_expression ts s hR m (by omega)
                        simp only [he]
                        exact ⟨_, rfl⟩
                    | none =>
                      simp only [hp1]
                      obtain ⟨s1, he⟩ := hparse_expression ts s hR m (by omega)
                      simp only [he]
                      exact ⟨_, rfl⟩
                  · rw [if_neg h6]
                    exact ⟨_, rfl⟩
  have hnblock_loop : ∀ ts s, ts.length - s.pos ≤ R → ∀ n, 40 * R + 31 ≤ n →
      ∃ p, nblock_loop ts n s = some p := by
    intro ts s hR n hn
    rcases Nat.lt_or_ge (ts.length - s.pos) R with hsml | hge
    · exact (IH _ hsml).nblock_loop ts s (le_refl _) n (by omega)
    · obtain ⟨m, rfl⟩ : ∃ m, n = m + 1 := ⟨n - 1, by omega⟩
      simp only [nblock_loop]
      by_cases hm : matchTok ts s (some "SPECIAL CHARACTER") (some "\x7d") = true
      · rw [if_pos hm]
        exact ⟨_, rfl⟩
      · rw [if_neg hm]
        cases hc : current ts s with
        | none =>
          simp only [hc]
          exact ⟨_, rfl⟩
        | some tok =>
          have hlt0 := current_some_lt hc
          simp only [hc]
          obtain ⟨s1, hst⟩ := hparse_statement ts s hR m (by omega)
          simp only [hst]
          have hstrict := ((npres m).parse_statement ts s s1 hst).2 hlt0
          have hrem1 : ts.length - s1.pos < R := by omega
          exact (IH _ hrem1).nblock_loop ts s1 (le_refl _) m (by omega)
  have hparse_block : ∀ ts s, ts.length - s.pos ≤ R → ∀ n, 40 * R + 32 ≤ n →
      ∃ p, parse_block ts n s = some p := by
    intro ts s hR n hn
    rcases Nat.lt_or_ge (ts.length - s.pos) R with hsml | hge
    · exact (IH _ hsml).parse_block ts s (le_refl _) n (by omega)
    · obtain ⟨m, rfl⟩ : ∃ m, n = m + 1 := ⟨n - 1, by omega⟩
      simp only [parse_block]
      have hposC := (consume_stepOK ts s (some "SPECIAL CHARACTER") (some "\x7b") none).1
      have hR1 : ts.length - (consume ts s (some "SPECIAL CHARACTER") (some "\x7b") none).2.pos ≤ R := by omega
      obtain ⟨⟨b, s2⟩, hbl⟩ := hnblock_loop ts _ hR1 m (by omega)
      cases b with
      | false =>
        simp only [hbl]
        exact ⟨_, rfl⟩
      | true =>
        simp only [hbl]
        exact ⟨_, rfl⟩
  have hparse_global_declaration : ∀ ts s, ts.length - s.pos ≤ R → ∀ n, 40 * R + 33 ≤ n →
      ∃ p, parse_global_declaration ts n s = some p := by
    intro ts s hR n hn
    rcases Nat.lt_or_ge (ts.length - s.pos) R with hsml | hge
    · exact (IH _ hsml).parse_global_declaration ts s (le_refl _) n (by omega)
    · obtain ⟨m, rfl⟩ : ∃ m, n = m + 1 := ⟨n - 1, by omega⟩
      simp only [parse_global_declaration]
      cases hc : current ts s with
      | none => exact ⟨_, rfl⟩
      | some tok =>
        have hlt0 := current_some_lt hc
        simp only [hc]
        by_cases h1 : tok.type = "KEYWORD" ∧ tok.value ∈ datatypes
        · rw [if_neg (not_not_intro h1)]
          cases hp2 : peek ts s 2 with
          | some nn =>
            simp only [hp2]
            by_cases h2 : nn.type = "SPECIAL CHARACTER" ∧ nn.value = "("
            · rw [if_pos h2]
              exact hparse_function ts s hR hlt0 m (by omega)
            · rw [if_neg h2]
              exact hparse_global_variable ts s hR hlt0 m (by omega)
          | none =>
            simp only [hp2]
            exact hparse_global_variable ts s hR hlt0 m (by omega)
        · rw [if_pos h1]
          exact ⟨_, rfl⟩
  have hparse_loop : ∀ ts s, ts.length - s.pos ≤ R → ∀ n, 40 * R + 34 ≤ n →
      ∃ p, parse_loop ts n s = some p := by
    intro ts s hR n hn
    rcases Nat.lt_or_ge (ts.length - s.pos) R with hsml | hge
    · exact (IH _ hsml).parse_loop ts s (le_refl _) n (by omega)
    · obtain ⟨m, rfl⟩ : ∃ m, n = m + 1 := ⟨n - 1, by omega⟩
      simp only [parse_loop]
      cases hc : current ts s with
      | none => exact ⟨_, rfl⟩
      | some t =>
        have hlt0 := current_some_lt hc
        simp only [hc]
        obtain ⟨s1, hgd⟩ := hparse_global_declaration ts s hR m (by omega)
        simp only [hgd]
        have hadv := ((npres m).parse_global_declaration ts s s1 hgd).1
        have hrem1 : ts.length - s1.pos < R := by omega
        exact (IH _ hrem1).parse_loop ts s1 (le_refl _) m (by omega)
  exact ⟨hparse_loop, hparse_global_declaration, hparse_global_variable, hncomma_loop,
    hparse_function, hparse_block, hnblock_loop, hparse_statement, hparse_assignment,
    hnassign_tail, hparse_if_statement, hparse_while_statement, hparse_for_statement,
    hparse_return_statement, hparse_expression, hparse_logical_or, hnor_loop,
    hparse_logical_and, hnand_loop, hparse_equality, hneq_loop, hparse_relational,
    hnrel_loop, hparse_additive, hnadd_loop, hparse_multiplicative, hnmul_loop,
    hparse_unary, hparse_postfixE, hnpostfix_loop, hparse_argument_list, hnarg_loop,
    hparse_primary⟩

end NewParse

/-! ## Concrete token sequences used in the claim instances -/

/-- Tokens of `int main ( ) { return 0 ; }`. -/
def tsA : List Tok :=
  [⟨"KEYWORD", "int"⟩, ⟨"IDENTIFIER", "main"⟩, ⟨"SPECIAL CHARACTER", "("⟩,
   ⟨"SPECIAL CHARACTER", ")"⟩, ⟨"SPECIAL CHARACTER", "\x7b"⟩, ⟨"KEYWORD", "return"⟩,
   ⟨"NUMBER", "0"⟩, ⟨"SPECIAL CHARACTER", ";"⟩, ⟨"SPECIAL CHARACTER", "\x7d"⟩]

/-- Tokens of `int x ;` — well formed, no `main`. -/
def tsC : List Tok :=
  [⟨"KEYWORD", "int"⟩, ⟨"IDENTIFIER", "x"⟩, ⟨"SPECIAL CHARACTER", ";"⟩]

/-- Tokens of `int main ( ) { } int 5 ( ) { }` — the second function is
named by a NUMBER token. -/
def tsDiv : List Tok :=
  [⟨"KEYWORD", "int"⟩, ⟨"IDENTIFIER", "main"⟩, ⟨"SPECIAL CHARACTER", "("⟩,
   ⟨"SPECIAL CHARACTER", ")"⟩, ⟨"SPECIAL CHARACTER", "\x7b"⟩, ⟨"SPECIAL CHARACTER", "\x7d"⟩,
   ⟨"KEYWORD", "int"⟩, ⟨"NUMBER", "5"⟩, ⟨"SPECIAL CHARACTER", "("⟩,
   ⟨"SPECIAL CHARACTER", ")"⟩, ⟨"SPECIAL CHARACTER", "\x7b"⟩, ⟨"SPECIAL CHARACTER", "\x7d"⟩]

/-- Tokens of `1 + 2 * 3`. -/
def tsE1 : List Tok :=
  [⟨"NUMBER", "1"⟩, ⟨"OPERATOR", "+"⟩, ⟨"NUMBER", "2"⟩, ⟨"OPERATOR", "*"⟩, ⟨"NUMBER", "3"⟩]

/-- Tokens of `1 < 2 && 3 > 4`. -/
def tsE2 : List Tok :=
  [⟨"NUMBER", "1"⟩, ⟨"OPERATOR", "<"⟩, ⟨"NUMBER", "2"⟩, ⟨"OPERATOR", "&&"⟩,
   ⟨"NUMBER", "3"⟩, ⟨"OPERATOR", ">"⟩, ⟨"NUMBER", "4"⟩]

/-- Tokens of `int main ( ) { * 3 ; }` — a bare `* 3` at statement start. -/
def tsStar : List Tok :=
  [⟨"KEYWORD", "int"⟩, ⟨"IDENTIFIER", "main"⟩, ⟨"SPECIAL CHARACTER", "("⟩,
   ⟨"SPECIAL CHARACTER", ")"⟩, ⟨"SPECIAL CHARACTER", "\x7b"⟩, ⟨"OPERATOR", "*"⟩,
   ⟨"NUMBER", "3"⟩, ⟨"SPECIAL CHARACTER", ";"⟩, ⟨"SPECIAL CHARACTER", "\x7d"⟩]

/-- A single KEYWORD token. -/
def tsK : List Tok := [⟨"KEYWORD", "int"⟩]

/-! ## Verdict characterisations of the two `parse` entry points -/

theorem cpp_parse_accept_iff (ts : List Tok) (fuel : Nat) :
    (Cpp.parse ts fuel).1 = true ↔
      ((Cpp.parse ts fuel).2.errors = [] ∧ (Cpp.parse ts fuel).2.hasMain = true) := by
  simp only [Cpp.parse]
  cases hp : Cpp.program ts fuel ⟨0, [], false⟩ with
  | none =>
    simp only [hp]
    simp
  | some s1 =>
    simp only [hp]
    by_cases hm : s1.hasMain = true
    · rw [if_pos hm]
      simp [hm, List.isEmpty_iff]
    · rw [if_neg hm]
      simp [Cpp.add_error, hm]

theorem newparse_accept_iff (ts : List Tok) (fuel : Nat) :
    (NewParse.parse ts fuel).1 = true ↔
      ((NewParse.parse ts fuel).2.errors = [] ∧ (NewParse.parse ts fuel).2.hasMain = true) := by
  simp only [NewParse.parse]
  cases hp : NewParse.parse_loop ts fuel ⟨0, [], false⟩ with
  | none =>
    simp only [hp]
    simp
  | some s1 =>
    simp only [hp]
    by_cases hm : s1.hasMain = true
    · rw [if_pos hm]
      simp [hm, List.isEmpty_iff]
    · rw [if_neg hm]
      simp [hm, List.isEmpty_iff]

theorem cpp_parse_errors_of_reject (ts : List Tok) (fuel : Nat) :
    (Cpp.parse ts fuel).1 = false → (Cpp.parse ts fuel).2.errors ≠ [] := by
  simp only [Cpp.parse]
  cases hp : Cpp.program ts fuel ⟨0, [], false⟩ with
  | none =>
    simp only [hp]
    intro _
    simp
  | some s1 =>
    simp only [hp]
    by_cases hm : s1.hasMain = true
    · rw [if_pos hm]
      intro h hnil
      have h2 : s1.errors.isEmpty = false := h
      have hnil2 : s1.errors = [] := hnil
      rw [hnil2] at h2
      simp at h2
    · rw [if_neg hm]
      intro _ hnil
      have hnil2 : s1.errors ++ [Cpp.add_error_msg ts s1 "Missing main function"] = [] := hnil
      simp at hnil2

theorem newparse_parse_errors_of_reject (ts : List Tok) (fuel : Nat) :
    (NewParse.parse ts fuel).1 = false → (NewParse.parse ts fuel).2.errors ≠ [] := by
  simp only [NewParse.parse]
  cases hp : NewParse.parse_loop ts fuel ⟨0, [], false⟩ with
  | none =>
    simp only [hp]
    intro _
    simp
  | some s1 =>
    simp only [hp]
    by_cases hm : s1.hasMain = true
    · rw [if_pos hm]
      intro h hnil
      have h2 : s1.errors.isEmpty = false := h
      have hnil2 : s1.errors = [] := hnil
      rw [hnil2] at h2
      simp at h2
    · rw [if_neg hm]
      intro _ hnil
      have hnil2 : s1.errors ++ ["Missing main function"] = [] := hnil
      simp at hnil2

/-! ## The claims -/

/-- C1: in both `cpp_parser.py` and `new_parse.py`, the verdict of
`Parser.parse` is accepting exactly when the final diagnostics list is empty
and a function literally named `main` was seen. -/
theorem C1 (ts : List Tok) (fuel : Nat) :
    ((Cpp.parse ts fuel).1 = true ↔
      ((Cpp.parse ts fuel).2.errors = [] ∧ (Cpp.parse ts fuel).2.hasMain = true)) ∧
    ((NewParse.parse ts fuel).1 = true ↔
      ((NewParse.parse ts fuel).2.errors = [] ∧ (NewParse.parse ts fuel).2.hasMain = true)) :=
  ⟨cpp_parse_accept_iff ts fuel, newparse_accept_iff ts fuel⟩

/-- C2: when the structural pass of either parser completes with an empty
diagnostics list but no `main` was seen, the verdict is a rejection whose
diagnostics list is exactly the one missing-main message, appended after the
structural pass. -/
theorem C2 (ts : List Tok) (fuel : Nat) :
    (∀ s1 : St, Cpp.program ts fuel ⟨0, [], false⟩ = some s1 → s1.errors = [] →
      s1.hasMain = false →
      (Cpp.parse ts fuel).1 = false ∧
      (Cpp.parse ts fuel).2.errors = [Cpp.add_error_msg ts s1 "Missing main function"]) ∧
    (∀ s1 : St, NewParse.parse_loop ts fuel ⟨0, [], false⟩ = some s1 → s1.errors = [] →
      s1.hasMain = false →
      (NewParse.parse ts fuel).1 = false ∧
      (NewParse.parse ts fuel).2.errors = ["Missing main function"]) := by
  constructor
  · intro s1 hp herr hm
    have hnm : ¬(s1.hasMain = true) := by rw [hm]; exact Bool.false_ne_true
    simp only [Cpp.parse, hp]
    rw [if_neg hnm]
    exact ⟨rfl, by simp [Cpp.add_error, herr]⟩
  · intro s1 hp herr hm
    have hnm : ¬(s1.hasMain = true) := by rw [hm]; exact Bool.false_ne_true
    simp only [NewParse.parse, hp]
    rw [if_neg hnm]
    exact ⟨by simp [herr], by simp [herr]⟩

/-- C2 witness: the well-formed `main`-less stream `int x ;` in both parsers. -/
theorem C2_witness :
    Cpp.program tsC 50 ⟨0, [], false⟩ = some ⟨3, [], false⟩ ∧
    (Cpp.parse tsC 50).1 = false ∧
    (Cpp.parse tsC 50).2.errors = ["At end of file: Missing main function"] ∧
    NewParse.parse_loop tsC 50 ⟨0, [], false⟩ = some ⟨3, [], false⟩ ∧
    (NewParse.parse tsC 50).1 = false ∧
    (NewParse.parse tsC 50).2.errors = ["Missing main function"] := by
  have h1 := (C2 tsC 50).1 ⟨3, [], false⟩ (by decide) rfl rfl
  have h2 := (C2 tsC 50).2 ⟨3, [], false⟩ (by decide) rfl rfl
  exact ⟨by decide, h1.1, by rw [h1.2]; rfl, by decide, h2.1, h2.2⟩

/-- C3 (amended): both parsers terminate on every finite token sequence —
some fuel makes the whole-file pass of each return a final state (no fuel
exhaustion, no runtime fault).  The advancing mechanisms the claim describes
belong to `new_parse.py`: its declaration loop body always advances the
cursor, and its statement dispatch advances whenever a token is available
(in particular on an unrecognized one).  `cpp_parser.py` instead terminates
by breaking: its fallback and top-level loop do not advance on failure. -/
theorem C3 (ts : List Tok) :
    (∃ fuel, (∃ s, Cpp.program ts fuel ⟨0, [], false⟩ = some s) ∧
      (∃ s, NewParse.parse_loop ts fuel ⟨0, [], false⟩ = some s)) ∧
    (∀ fuel (s s' : St), NewParse.parse_global_declaration ts fuel s = some s' →
      s.pos < s'.pos) ∧
    (∀ fuel (s s' : St) (t : Tok), NewParse.current ts s = some t →
      NewParse.parse_statement ts fuel s = some s' → s.pos < s'.pos) := by
  refine ⟨⟨40 * ts.length + 34, ?_, ?_⟩, ?_, ?_⟩
  · exact (Cpp.prog ts.length).program ts ⟨0, [], false⟩ (Nat.sub_le _ _) _ (by omega)
  · exact (NewParse.nprog ts.length).parse_loop ts ⟨0, [], false⟩ (Nat.sub_le _ _) _ (by omega)
  · intro fuel s s' h
    exact ((NewParse.npres fuel).parse_global_declaration ts s s' h).1
  · intro fuel s s' t ht h
    exact ((NewParse.npres fuel).parse_statement ts s s' h).2 (NewParse.current_some_lt ht)

/-- C3 counterexample: the advance-on-failure mechanism is false of
`cpp_parser.py` — on an unrecognized token its statement dispatch `x`
returns failure with the cursor unchanged, and its top-level loop `program`
breaks on failure, returning with the cursor still at 0 although a token
remains. -/
theorem C3_counterexample :
    Cpp.x [⟨"NUMBER", "7"⟩] 10 ⟨0, [], false⟩ = some (false, ⟨0, [], false⟩) ∧
    Cpp.program [⟨"NUMBER", "7"⟩] 10 ⟨0, [], false⟩ =
      some ⟨0, ["At token 0 (NUMBER, 7): Expected datatype for global declaration"], false⟩ ∧
    Cpp.current_token [⟨"NUMBER", "7"⟩] ⟨0, [], false⟩ ≠ none :=
  ⟨by decide, by decide, by decide⟩

/-- C3 witness: on an unrecognized token, the declaration loop body and the
statement dispatch of `new_parse.py` both advance the cursor. -/
theorem C3_witness :
    NewParse.parse_global_declaration [⟨"NUMBER", "7"⟩] 10 ⟨0, [], false⟩ =
      some ⟨1, ["Expected datatype for global declaration"], false⟩ ∧
    (⟨0, [], false⟩ : St).pos <
      (⟨1, ["Expected datatype for global declaration"], false⟩ : St).pos ∧
    NewParse.parse_statement [⟨"NUMBER", "7"⟩] 10 ⟨0, [], false⟩ =
      some ⟨1, ["Invalid statement starting with NUMBER '7'"], false⟩ ∧
    (⟨0, [], false⟩ : St).pos <
      (⟨1, ["Invalid statement starting with NUMBER '7'"], false⟩ : St).pos := by
  refine ⟨by decide, ?_, by decide, ?_⟩
  · exact (C3 [⟨"NUMBER", "7"⟩]).2.1 10 ⟨0, [], false⟩ _ (by decide)
  · exact (C3 [⟨"NUMBER", "7"⟩]).2.2 10 ⟨0, [], false⟩ _ ⟨"NUMBER", "7"⟩ (by decide) (by decide)

/-- C4 (amended): the whole-file pass of either parser never moves the
cursor backwards nor, starting in bounds, out of bounds; but `advance` of
`new_parse.py` itself is unguarded — it increments the cursor
unconditionally. -/
theorem C4 (ts : List Tok) (fuel : Nat) (s s' : St) :
    (Cpp.program ts fuel s = some s' →
      s.pos ≤ s'.pos ∧ (s.pos ≤ ts.length → s'.pos ≤ ts.length)) ∧
    (NewParse.parse_loop ts fuel s = some s' →
      s.pos ≤ s'.pos ∧ (s.pos ≤ ts.length → s'.pos ≤ ts.length)) ∧
    (NewParse.advance s).pos = s.pos + 1 :=
  ⟨fun h => (Cpp.pres fuel).program ts s s' h,
   fun h => (NewParse.npres fuel).parse_loop ts s s' h,
   rfl⟩

/-- C4 counterexample: `advance` is not guarded at the end of the stream —
at cursor = N it yields cursor = N + 1 > N. -/
theorem C4_counterexample :
    ∃ s : St, s.pos = tsK.length ∧ (NewParse.advance s).pos > tsK.length :=
  ⟨⟨1, [], false⟩, rfl, by decide⟩

/-- C4 witness: the bounds facts at the concrete accepted stream `tsA`. -/
theorem C4_witness :
    Cpp.program tsA 50 ⟨0, [], false⟩ = some ⟨9, [], true⟩ ∧
    NewParse.parse_loop tsA 50 ⟨0, [], false⟩ = some ⟨9, [], true⟩ ∧
    (9 : Nat) ≤ tsA.length := by
  have h := C4 tsA 50 ⟨0, [], false⟩ ⟨9, [], true⟩
  exact ⟨by decide, by decide, (h.1 (by decide)).2 (by decide)⟩

/-- C5: `Parser.consume` of `new_parse.py` either matches, advances by one
and succeeds, or fails without moving the cursor and records exactly one
position-prefixed diagnostic (the supplied message, a synthesized
expected-vs-actual message, or the end-of-file message); `Parser.expect` of
`cpp_parser.py` satisfies the same contract. -/
theorem C5 (ts : List Tok) (s : St) (et ev em : Option String) :
    (NewParse.matchTok ts s et ev = true →
      NewParse.consume ts s et ev em = (true, NewParse.advance s)) ∧
    (NewParse.matchTok ts s et ev = false →
      NewParse.consume ts s et ev em =
        (false, pushErr s (NewParse.consume_msg ts s et ev em))) ∧
    ((Cpp.expect ts s et ev em).1 = true → (Cpp.expect ts s et ev em).2 = bump s) ∧
    ((Cpp.expect ts s et ev em).1 = false →
      (Cpp.expect ts s et ev em).2.pos = s.pos ∧
      (∃ msg, (Cpp.expect ts s et ev em).2.errors =
        s.errors ++ [Cpp.add_error_msg ts s msg]) ∧
      (Cpp.current_token ts s = none →
        (Cpp.expect ts s et ev em).2.errors =
          s.errors ++ [Cpp.add_error_msg ts s (em.getD "Unexpected end of file")])) := by
  refine ⟨fun hm => NewParse.consume_of_matchTok em hm,
    fun hm => NewParse.consume_of_not_matchTok em hm, fun ht => ?_, fun hf => ?_⟩
  · rcases Cpp.expect_cases ts s et ev em with ⟨m, hE⟩ | ⟨hE, _⟩
    · rw [hE] at ht
      simp at ht
    · rw [hE]
  · rcases Cpp.expect_cases ts s et ev em with ⟨m, hE⟩ | ⟨hE, _⟩
    · refine ⟨by rw [hE]; rfl, ⟨m, by rw [hE]; simp [Cpp.add_error]⟩, ?_⟩
      intro hc
      have heof : Cpp.expect ts s et ev em =
          (false, Cpp.add_error ts s (em.getD "Unexpected end of file")) := by
        unfold Cpp.expect
        simp only [hc]
      rw [heof]
      simp [Cpp.add_error]
    · rw [hE] at hf
      simp at hf

/-- C5 witness: the four consume/expect cases at concrete inputs. -/
theorem C5_witness :
    NewParse.consume tsK ⟨0, [], false⟩ (some "KEYWORD") none none =
      (true, NewParse.advance ⟨0, [], false⟩) ∧
    NewParse.consume tsK ⟨0, [], false⟩ (some "IDENTIFIER") none none =
      (false, pushErr ⟨0, [], false⟩
        (NewParse.consume_msg tsK ⟨0, [], false⟩ (some "IDENTIFIER") none none)) ∧
    (Cpp.expect tsK ⟨0, [], false⟩ (some "KEYWORD") none none).2 = bump ⟨0, [], false⟩ ∧
    (Cpp.expect tsK ⟨1, [], false⟩ (some "KEYWORD") none none).2.errors =
      [Cpp.add_error_msg tsK ⟨1, [], false⟩ "Unexpected end of file"] := by
  refine ⟨(C5 tsK ⟨0, [], false⟩ (some "KEYWORD") none none).1 (by decide),
    (C5 tsK ⟨0, [], false⟩ (some "IDENTIFIER") none none).2.1 (by decide),
    (C5 tsK ⟨0, [], false⟩ (some "KEYWORD") none none).2.2.1 (by decide), ?_⟩
  have h := ((C5 tsK ⟨1, [], false⟩ (some "KEYWORD") none none).2.2.2 (by decide)).2.2
    (by decide)
  rw [h]
  rfl

/-- C6 (amended): the two files do not accept the same language — there is a
token sequence that `new_parse.py` accepts and `cpp_parser.py` rejects. -/
theorem C6 :
    ∃ (ts : List Tok) (fuel : Nat),
      (NewParse.parse ts fuel).1 = true ∧ (Cpp.parse ts fuel).1 = false :=
  ⟨tsDiv, 80, rfl, rfl⟩

/-- C6 counterexample: on `int main ( ) { } int 5 ( ) { }` the two parsers
return opposite verdicts — `cpp_parser.py` rejects the NUMBER function name,
`new_parse.py` accepts any token there. -/
theorem C6_counterexample :
    (Cpp.parse tsDiv 80).1 = false ∧ (NewParse.parse tsDiv 80).1 = true :=
  ⟨rfl, rfl⟩

/-- C7: both parsers accept `int main ( ) { return 0 ; }` with an empty
diagnostics list. -/
theorem C7 :
    Cpp.parse tsA 50 = (true, ⟨9, [], true⟩) ∧
    NewParse.parse tsA 50 = (true, ⟨9, [], true⟩) :=
  ⟨rfl, rfl⟩

/-- C8: both expression parsers consume `1 + 2 * 3` and `1 < 2 && 3 > 4`
fully without recording a diagnostic, and both parsers reject a program with
a bare `* 3` at statement start, recording at least one diagnostic. -/
theorem C8 :
    Cpp.expression tsE1 50 ⟨0, [], false⟩ = some (true, ⟨5, [], false⟩) ∧
    NewParse.parse_expression tsE1 50 ⟨0, [], false⟩ = some ⟨5, [], false⟩ ∧
    Cpp.expression tsE2 50 ⟨0, [], false⟩ = some (true, ⟨7, [], false⟩) ∧
    NewParse.parse_expression tsE2 50 ⟨0, [], false⟩ = some ⟨7, [], false⟩ ∧
    (Cpp.parse tsStar 80).1 = false ∧ (Cpp.parse tsStar 80).2.errors ≠ [] ∧
    (NewParse.parse tsStar 80).1 = false ∧ (NewParse.parse tsStar 80).2.errors ≠ [] :=
  ⟨rfl, rfl, rfl, rfl, rfl, by decide, rfl, by decide⟩

/-- C9 (amended): `cpp_parser.py` silently skips every line its line parser
yields no token for; `new_parse.py` skips a line only when it lacks the
angle-bracket shape — a bracketed line with no comma aborts the whole read
(the unpack `ValueError`). -/
theorem C9 (line : String) (lines : List String) :
    (Cpp.parse_line line = none →
      Cpp.read_tokens_from_file (line :: lines) = Cpp.read_tokens_from_file lines) ∧
    (¬((strip line).toList.head? = some '<' ∧ (strip line).toList.getLast? = some '>') →
      NewParse.read_tokens_from_file (line :: lines) =
        NewParse.read_tokens_from_file lines) ∧
    (((strip line).toList.head? = some '<' ∧ (strip line).toList.getLast? = some '>') →
      split_first_comma ⟨(strip line).toList.tail.dropLast⟩ = none →
      NewParse.read_tokens_from_file (line :: lines) = none) := by
  refine ⟨fun h => ?_, fun h => ?_, fun h hsplit => ?_⟩
  · simp [Cpp.read_tokens_from_file, h]
  · simp only [NewParse.read_tokens_from_file]
    rw [if_neg h]
  · simp only [NewParse.read_tokens_from_file]
    rw [if_pos h]
    simp only [hsplit]

/-- C9 counterexample: the bracketed comma-less line `<X>` is not skipped by
`new_parse.py` — it aborts the read and fails the entry function with the
unpack error. -/
theorem C9_counterexample :
    NewParse.read_tokens_from_file ["<X>"] = none ∧
    NewParse.parse_cpp_tokens "f" (some ["<X>"]) 50 =
      (false, ["Error: not enough values to unpack (expected 2, got 1)"]) := by
  exact ⟨by decide, by decide⟩

/-- C9 witness: a non-bracketed junk line is skipped by both readers, and a
bracketed comma-less line aborts the `new_parse.py` reader. -/
theorem C9_witness :
    Cpp.read_tokens_from_file ["junk"] = Cpp.read_tokens_from_file [] ∧
    NewParse.read_tokens_from_file ["junk"] = NewParse.read_tokens_from_file [] ∧
    NewParse.read_tokens_from_file ["<X>"] = none :=
  ⟨(C9 "junk" []).1 (by decide),
   (C9 "junk" []).2.1 (by decide),
   (C9 "<X>" []).2.2 (by decide) (by decide)⟩

/-- C10: whenever either entry function `parse_cpp_tokens` reports a
rejection, its diagnostics list is non-empty. -/
theorem C10 (fn : String) (contents : Option (List String)) (fuel : Nat) :
    ((Cpp.parse_cpp_tokens fn contents fuel).1 = false →
      (Cpp.parse_cpp_tokens fn contents fuel).2 ≠ []) ∧
    ((NewParse.parse_cpp_tokens fn contents fuel).1 = false →
      (NewParse.parse_cpp_tokens fn contents fuel).2 ≠ []) := by
  constructor
  · cases contents with
    | none => simp [Cpp.parse_cpp_tokens]
    | some lines =>
      simp only [Cpp.parse_cpp_tokens]
      by_cases ht : Cpp.read_tokens_from_file lines = []
      · rw [if_pos ht]
        simp
      · rw [if_neg ht]
        cases hp : Cpp.parse (Cpp.read_tokens_from_file lines) fuel with
        | mk b st =>
          simp only [hp]
          intro hb
          have hrej := cpp_parse_errors_of_reject (Cpp.read_tokens_from_file lines) fuel
          rw [hp] at hrej
          exact hrej hb
  · cases contents with
    | none => simp [NewParse.parse_cpp_tokens]
    | some lines =>
      simp only [NewParse.parse_cpp_tokens]
      cases hr : NewParse.read_tokens_from_file lines with
      | none =>
        simp only [hr]
        intro _
        simp
      | some tokens =>
        simp only [hr]
        by_cases ht : tokens = []
        · rw [if_pos ht]
          simp
        · rw [if_neg ht]
          cases hp : NewParse.parse tokens fuel with
          | mk b st =>
            simp only [hp]
            intro hb
            have hrej := newparse_parse_errors_of_reject tokens fuel
            rw [hp] at hrej
            exact hrej hb

/-- C10 witness: the missing-file rejection carries a diagnostic in both
entry functions. -/
theorem C10_witness :
    (Cpp.parse_cpp_tokens "f" none 0).2 ≠ [] ∧
    (NewParse.parse_cpp_tokens "f" none 0).2 ≠ [] :=
  ⟨(C10 "f" none 0).1 (by decide), (C10 "f" none 0).2 (by decide)⟩
